import Mathlib

/-! # Clever pricing calculator: cost-estimation aggregate, calculation and estimation store

A shallow embedding of the Go backend (packages `entity`, `repository/estimation`,
`command`) and the properties of its cost-estimation core.

Modelling conventions.

* Go pointers are `Ptr` (`none` is `nil`).  The objects they point to live in a `World`:
  one list of cells per pointed-to struct type, an address being an index in that list.
  Allocation appends a cell, so an address is fresh exactly when it is at least the length
  of the list at the time of the allocation.
* A Go function is a `Go α`: it takes the world and returns an outcome together with the
  world it leaves behind.  The outcome `panic` is a Go run-time panic (a `nil` dereference);
  the world at the panic is kept, as it is when a Go panic unwinds.
* A `float64` is a `Float64`: an IEEE 754 binary64 value, every sum and product rounded to
  nearest, ties to even, with overflow to an infinity and NaN; each operation is rounded on
  its own (no fused multiply-add).
* A slice is the list of its elements, held by value in the struct that owns it.  Every
  slice that crosses the store boundary is built by `make` inside `deepCopy`, so no backing
  array is shared there.
* A Go `map[string]*T` is an association list with at most one entry per key.  Go leaves the
  iteration order of a map unspecified; here it is the order of the list, and the statements
  about iteration hold for every list, hence for every order.
* The mutex of the store is not modelled: calls are sequential.
* `uuid.New().String()` is an argument of the functions that call it.
-/

namespace CleverPricing

/-! ## Go runtime model -/

/-- A Go pointer: `none` is `nil`, `some a` is the address of a cell. -/
abbrev Ptr := Option Nat

/-- Go `error` values: `errorString` is what `errors.New` builds, `wrapError` what
`fmt.Errorf` builds for a format with one `%w` verb. -/
inductive GoError where
  | errorString (s : String)
  | wrapError (msg : String) (err : GoError)
  deriving DecidableEq, Repr

/-- The method `Error()` of an error value. -/
def GoError.Error : GoError → String
  | .errorString s => s
  | .wrapError msg _ => msg

/-- The method `Unwrap()` of an error value (`nil` for `errorString`). -/
def GoError.Unwrap : GoError → Option GoError
  | .errorString _ => none
  | .wrapError _ err => some err

/-! ## Go `float64` -/

/-- Go `float64`: an IEEE 754 binary64 value.  A finite value is kept as the rational number
it denotes; the two zeros are one value (the program never divides and never prints a sign).
Every constant and every result of an operation below is a binary64 value; the type also
holds the rationals that are not, so a statement about every `Float64` covers every binary64
value.  Equality of two `Float64` is identity of the values, so a NaN is equal to itself; the
comparisons of Go are `<` and `≤` below, which are false on a NaN. -/
inductive Float64 where
  | nan
  | negInf
  | posInf
  | fin (q : ℚ)
  deriving DecidableEq, Repr

/-- Rounding of a rational to the nearest integer, a tie going to the even one. -/
def roundHalfEven (x : ℚ) : ℤ :=
  if x - ⌊x⌋ < 1 / 2 then ⌊x⌋
  else if 1 / 2 < x - ⌊x⌋ then ⌊x⌋ + 1
  else if ⌊x⌋ % 2 = 0 then ⌊x⌋ else ⌊x⌋ + 1

/-- The exponent of the unit in the last place for a value of the magnitude of `q`: 52 binary
places below the leading bit, and never below `-1074` (the subnormal range). -/
def ulpExponent (q : ℚ) : ℤ := max (Int.log 2 |q| - 52) (-1074)

/-- The value `q` rounded to 53 significant bits (to a multiple of `2 ^ -1074` in the
subnormal range), to nearest, ties to even, with no bound on the exponent. -/
def roundToPrecision (q : ℚ) : ℚ :=
  (roundHalfEven (q / 2 ^ ulpExponent q) : ℚ) * 2 ^ ulpExponent q

/-- IEEE 754 rounding of an exact result to binary64, round to nearest, ties to even: the
result overflows to an infinity when the rounded magnitude reaches `2 ^ 1024`. -/
def round64 (q : ℚ) : Float64 :=
  if 2 ^ 1024 ≤ roundToPrecision q then Float64.posInf
  else if roundToPrecision q ≤ -2 ^ 1024 then Float64.negInf
  else Float64.fin (roundToPrecision q)

/-- Go `x + y` on `float64`. -/
def Float64.add : Float64 → Float64 → Float64
  | nan, _ => nan
  | _, nan => nan
  | posInf, negInf => nan
  | negInf, posInf => nan
  | posInf, _ => posInf
  | _, posInf => posInf
  | negInf, _ => negInf
  | _, negInf => negInf
  | fin a, fin b => round64 (a + b)

/-- The product of an infinity and a finite value: NaN for zero, else the infinity of the
sign of the product. -/
def Float64.infTimes (positive : Bool) (q : ℚ) : Float64 :=
  if q = 0 then Float64.nan
  else if (0 < q) = (positive = true) then Float64.posInf else Float64.negInf

/-- Go `x * y` on `float64`. -/
def Float64.mul : Float64 → Float64 → Float64
  | nan, _ => nan
  | _, nan => nan
  | posInf, posInf => posInf
  | posInf, negInf => negInf
  | negInf, posInf => negInf
  | negInf, negInf => posInf
  | posInf, fin b => Float64.infTimes true b
  | negInf, fin b => Float64.infTimes false b
  | fin a, posInf => Float64.infTimes true a
  | fin a, negInf => Float64.infTimes false a
  | fin a, fin b => round64 (a * b)

/-- Go `-x` on `float64`. -/
def Float64.neg : Float64 → Float64
  | nan => nan
  | negInf => posInf
  | posInf => negInf
  | fin a => fin (-a)

/-- Go `x < y` on `float64`. -/
def Float64.blt : Float64 → Float64 → Bool
  | fin a, fin b => decide (a < b)
  | negInf, fin _ => true
  | negInf, posInf => true
  | fin _, posInf => true
  | _, _ => false

/-- Go `x <= y` on `float64`. -/
def Float64.ble : Float64 → Float64 → Bool
  | fin a, fin b => decide (a ≤ b)
  | negInf, fin _ => true
  | negInf, posInf => true
  | negInf, negInf => true
  | fin _, posInf => true
  | posInf, posInf => true
  | _, _ => false

instance : Add Float64 := ⟨Float64.add⟩

instance : Mul Float64 := ⟨Float64.mul⟩

instance : Neg Float64 := ⟨Float64.neg⟩

instance : LT Float64 := ⟨fun a b => Float64.blt a b = true⟩

instance : LE Float64 := ⟨fun a b => Float64.ble a b = true⟩

instance (a b : Float64) : Decidable (a < b) := inferInstanceAs (Decidable (Float64.blt a b = true))

instance (a b : Float64) : Decidable (a ≤ b) := inferInstanceAs (Decidable (Float64.ble a b = true))

/-- A Go integer constant used as a `float64`: exact (the constants of the program are far
below `2 ^ 53`). -/
instance (n : Nat) : OfNat Float64 n := ⟨Float64.fin n⟩

/-- A Go decimal constant used as a `float64`: the nearest binary64 value. -/
instance : OfScientific Float64 :=
  ⟨fun m s e => round64 (OfScientific.ofScientific m s e : ℚ)⟩

/-- Go `float64(n)` for an `int32`: exact, an `int32` has at most 31 significant bits. -/
def Float64.ofInt32 (n : Int) : Float64 := Float64.fin n

/-! ## Package `entity` : data -/

/-- Go `entity.RuntimeCost`. -/
structure RuntimeCost where
  RuntimeID : String
  Name : String
  MinCost : Float64
  MaxCost : Float64
  deriving DecidableEq, Repr

/-- Go `entity.AddonCost`. -/
structure AddonCost where
  AddonID : String
  Name : String
  Cost : Float64
  deriving DecidableEq, Repr

/-- Go `entity.CostEstimation`; the two slices hold pointers to line items. -/
structure CostEstimation where
  ID : String
  ProjectID : String
  MinMonthlyCost : Float64
  MaxMonthlyCost : Float64
  RuntimeCosts : List Ptr
  AddonCosts : List Ptr
  deriving DecidableEq, Repr

/-- Go `estimation.MemoryRepository`: the map from estimation id to stored aggregate. -/
structure MemoryRepository where
  estimations : List (String × Ptr)
  deriving DecidableEq, Repr

/-- The heap: the cells of each struct type that is handled through pointers. -/
structure World where
  estimations : List CostEstimation
  runtimeCosts : List RuntimeCost
  addonCosts : List AddonCost
  repositories : List MemoryRepository
  deriving DecidableEq, Repr

/-- How a Go call ends: it returns a value, or it panics. -/
inductive Outcome (α : Type) where
  | ok (val : α)
  | panic
  deriving DecidableEq, Repr

/-- A Go function body: from the world before the call to its outcome and the world after. -/
def Go (α : Type) : Type := World → Outcome α × World

/-- Return a value without touching the world. -/
def Go.pure {α : Type} (a : α) : Go α := fun w => (Outcome.ok a, w)

/-- Sequencing; a panic stops the execution and keeps the world reached so far. -/
def Go.bind {α β : Type} (x : Go α) (f : α → Go β) : Go β := fun w =>
  match x w with
  | (Outcome.ok a, w1) => f a w1
  | (Outcome.panic, w1) => (Outcome.panic, w1)

instance : Monad Go where
  pure := Go.pure
  bind := Go.bind

/-- A run-time panic. -/
def Go.panic {α : Type} : Go α := fun w => (Outcome.panic, w)

/-- Read a cell of a list of cells through a pointer; `nil` and unallocated addresses
have no cell. -/
def cellAt {α : Type} (cells : List α) (p : Ptr) : Option α :=
  match p with
  | none => none
  | some a => cells[a]?

/-- Overwrite the cell a pointer designates. -/
def setCell {α : Type} (cells : List α) (p : Ptr) (v : α) : List α :=
  match p with
  | none => cells
  | some a => cells.set a v

/-- The world after an assignment through a `*CostEstimation`. -/
def World.writeEstimation (w : World) (p : Ptr) (c : CostEstimation) : World :=
  { w with estimations := setCell w.estimations p c }

/-- The world after an assignment through a `*MemoryRepository`. -/
def World.writeRepository (w : World) (p : Ptr) (m : MemoryRepository) : World :=
  { w with repositories := setCell w.repositories p m }

/-- The world after the allocation of a `CostEstimation`. -/
def World.pushEstimation (w : World) (c : CostEstimation) : World :=
  { w with estimations := w.estimations ++ [c] }

/-- The world after the allocation of a `RuntimeCost`. -/
def World.pushRuntimeCost (w : World) (c : RuntimeCost) : World :=
  { w with runtimeCosts := w.runtimeCosts ++ [c] }

/-- The world after the allocation of an `AddonCost`. -/
def World.pushAddonCost (w : World) (c : AddonCost) : World :=
  { w with addonCosts := w.addonCosts ++ [c] }

/-- The world after the allocation of a `MemoryRepository`. -/
def World.pushRepository (w : World) (m : MemoryRepository) : World :=
  { w with repositories := w.repositories ++ [m] }

/-- Dereference a `*CostEstimation`. -/
def derefEstimation (p : Ptr) : Go CostEstimation := fun w =>
  match cellAt w.estimations p with
  | some c => (Outcome.ok c, w)
  | none => (Outcome.panic, w)

/-- Dereference a `*RuntimeCost`. -/
def derefRuntimeCost (p : Ptr) : Go RuntimeCost := fun w =>
  match cellAt w.runtimeCosts p with
  | some c => (Outcome.ok c, w)
  | none => (Outcome.panic, w)

/-- Dereference a `*AddonCost`. -/
def derefAddonCost (p : Ptr) : Go AddonCost := fun w =>
  match cellAt w.addonCosts p with
  | some c => (Outcome.ok c, w)
  | none => (Outcome.panic, w)

/-- Dereference a `*MemoryRepository`. -/
def derefRepository (p : Ptr) : Go MemoryRepository := fun w =>
  match cellAt w.repositories p with
  | some c => (Outcome.ok c, w)
  | none => (Outcome.panic, w)

/-- Assign to fields of the `CostEstimation` a pointer designates. -/
def modifyEstimation (p : Ptr) (f : CostEstimation → CostEstimation) : Go Unit := fun w =>
  match cellAt w.estimations p with
  | some c => (Outcome.ok (), w.writeEstimation p (f c))
  | none => (Outcome.panic, w)

/-- Assign to fields of the `MemoryRepository` a pointer designates. -/
def modifyRepository (p : Ptr) (f : MemoryRepository → MemoryRepository) : Go Unit := fun w =>
  match cellAt w.repositories p with
  | some c => (Outcome.ok (), w.writeRepository p (f c))
  | none => (Outcome.panic, w)

/-- Allocate a `CostEstimation` (`&entity.CostEstimation{...}`). -/
def allocEstimation (c : CostEstimation) : Go Ptr := fun w =>
  (Outcome.ok (some w.estimations.length), w.pushEstimation c)

/-- Allocate a `RuntimeCost` (`&entity.RuntimeCost{...}`). -/
def allocRuntimeCost (c : RuntimeCost) : Go Ptr := fun w =>
  (Outcome.ok (some w.runtimeCosts.length), w.pushRuntimeCost c)

/-- Allocate an `AddonCost` (`&entity.AddonCost{...}`). -/
def allocAddonCost (c : AddonCost) : Go Ptr := fun w =>
  (Outcome.ok (some w.addonCosts.length), w.pushAddonCost c)

/-- Allocate a `MemoryRepository` (`&MemoryRepository{...}`). -/
def allocRepository (c : MemoryRepository) : Go Ptr := fun w =>
  (Outcome.ok (some w.repositories.length), w.pushRepository c)

/-! ## Package `entity` : operations (estimation.go) -/

/-- Go `entity.NewCostEstimation`; `uuid` is the value of `uuid.New().String()`. -/
def NewCostEstimation (uuid : String) (projectID : String) : Go Ptr :=
  allocEstimation
    { ID := uuid, ProjectID := projectID, MinMonthlyCost := 0, MaxMonthlyCost := 0,
      RuntimeCosts := [], AddonCosts := [] }

/-- Go `entity.NewRuntimeCost`. -/
def NewRuntimeCost (runtimeID name : String) (minCost maxCost : Float64) : Go Ptr :=
  allocRuntimeCost { RuntimeID := runtimeID, Name := name, MinCost := minCost, MaxCost := maxCost }

/-- Go `entity.NewAddonCost`. -/
def NewAddonCost (addonID name : String) (cost : Float64) : Go Ptr :=
  allocAddonCost { AddonID := addonID, Name := name, Cost := cost }

/-- The first loop of `recalculateTotals`: `for _, rc := range e.RuntimeCosts`. -/
def CostEstimation.recalculateTotals.runtimeLoop (e : Ptr) : List Ptr → Go Unit
  | [] => pure ()
  | rc :: rest => do
    let v ← derefRuntimeCost rc
    modifyEstimation e (fun c => { c with MinMonthlyCost := c.MinMonthlyCost + v.MinCost })
    let v ← derefRuntimeCost rc
    modifyEstimation e (fun c => { c with MaxMonthlyCost := c.MaxMonthlyCost + v.MaxCost })
    CostEstimation.recalculateTotals.runtimeLoop e rest

/-- The second loop of `recalculateTotals`: `for _, ac := range e.AddonCosts`. -/
def CostEstimation.recalculateTotals.addonLoop (e : Ptr) : List Ptr → Go Unit
  | [] => pure ()
  | ac :: rest => do
    let v ← derefAddonCost ac
    modifyEstimation e (fun c => { c with MinMonthlyCost := c.MinMonthlyCost + v.Cost })
    let v ← derefAddonCost ac
    modifyEstimation e (fun c => { c with MaxMonthlyCost := c.MaxMonthlyCost + v.Cost })
    CostEstimation.recalculateTotals.addonLoop e rest

/-- Go `(*CostEstimation).recalculateTotals`. -/
def CostEstimation.recalculateTotals (e : Ptr) : Go Unit := do
  modifyEstimation e (fun c => { c with MinMonthlyCost := 0 })
  modifyEstimation e (fun c => { c with MaxMonthlyCost := 0 })
  let c ← derefEstimation e
  CostEstimation.recalculateTotals.runtimeLoop e c.RuntimeCosts
  let c ← derefEstimation e
  CostEstimation.recalculateTotals.addonLoop e c.AddonCosts

/-- Go `(*CostEstimation).AddRuntimeCost`. -/
def CostEstimation.AddRuntimeCost (e : Ptr) (cost : Ptr) : Go Unit := do
  modifyEstimation e (fun c => { c with RuntimeCosts := c.RuntimeCosts ++ [cost] })
  CostEstimation.recalculateTotals e

/-- Go `(*CostEstimation).AddAddonCost`. -/
def CostEstimation.AddAddonCost (e : Ptr) (cost : Ptr) : Go Unit := do
  modifyEstimation e (fun c => { c with AddonCosts := c.AddonCosts ++ [cost] })
  CostEstimation.recalculateTotals e

/-- The loop of `TotalRuntimeMinCost`, with its accumulator `total`. -/
def CostEstimation.TotalRuntimeMinCost.loop : Float64 → List Ptr → Go Float64
  | total, [] => pure total
  | total, rc :: rest => do
    let v ← derefRuntimeCost rc
    CostEstimation.TotalRuntimeMinCost.loop (total + v.MinCost) rest

/-- Go `(*CostEstimation).TotalRuntimeMinCost`. -/
def CostEstimation.TotalRuntimeMinCost (e : Ptr) : Go Float64 := do
  let c ← derefEstimation e
  CostEstimation.TotalRuntimeMinCost.loop 0 c.RuntimeCosts

/-- The loop of `TotalRuntimeMaxCost`, with its accumulator `total`. -/
def CostEstimation.TotalRuntimeMaxCost.loop : Float64 → List Ptr → Go Float64
  | total, [] => pure total
  | total, rc :: rest => do
    let v ← derefRuntimeCost rc
    CostEstimation.TotalRuntimeMaxCost.loop (total + v.MaxCost) rest

/-- Go `(*CostEstimation).TotalRuntimeMaxCost`. -/
def CostEstimation.TotalRuntimeMaxCost (e : Ptr) : Go Float64 := do
  let c ← derefEstimation e
  CostEstimation.TotalRuntimeMaxCost.loop 0 c.RuntimeCosts

/-- The loop of `TotalAddonCost`, with its accumulator `total`. -/
def CostEstimation.TotalAddonCost.loop : Float64 → List Ptr → Go Float64
  | total, [] => pure total
  | total, ac :: rest => do
    let v ← derefAddonCost ac
    CostEstimation.TotalAddonCost.loop (total + v.Cost) rest

/-- Go `(*CostEstimation).TotalAddonCost`. -/
def CostEstimation.TotalAddonCost (e : Ptr) : Go Float64 := do
  let c ← derefEstimation e
  CostEstimation.TotalAddonCost.loop 0 c.AddonCosts

/-! ## Go maps -/

/-- The read `v, exists := m[k]` of a Go map. -/
def GoMap.lookup {β : Type} : List (String × β) → String → Option β
  | [], _ => none
  | (k1, v) :: rest, k => if k1 = k then some v else GoMap.lookup rest k

/-- The assignment `m[k] = v` of a Go map: an entry with that key is overwritten, otherwise a
new entry is added. -/
def GoMap.insert {β : Type} : List (String × β) → String → β → List (String × β)
  | [], k, v => [(k, v)]
  | (k1, v1) :: rest, k, v =>
    if k1 = k then (k, v) :: rest else (k1, v1) :: GoMap.insert rest k v

/-- The builtin `delete(m, k)` of a Go map. -/
def GoMap.delete {β : Type} (m : List (String × β)) (k : String) : List (String × β) :=
  m.filter (fun kv => decide (kv.1 ≠ k))

/-! ## Package `estimation` : the in-memory store (memory.go) -/

/-- Go `estimation.NewMemoryRepository`. -/
def NewMemoryRepository : Go Ptr :=
  allocRepository { estimations := [] }

/-- The first loop of `deepCopy`: `for i, rc := range est.RuntimeCosts`, writing
`copy.RuntimeCosts[i]`. -/
def MemoryRepository.deepCopy.runtimeLoop (copy : Ptr) : Nat → List Ptr → Go Unit
  | _, [] => pure ()
  | i, rc :: rest => do
    let v ← derefRuntimeCost rc
    let p ← allocRuntimeCost
      { RuntimeID := v.RuntimeID, Name := v.Name, MinCost := v.MinCost, MaxCost := v.MaxCost }
    modifyEstimation copy (fun c => { c with RuntimeCosts := c.RuntimeCosts.set i p })
    MemoryRepository.deepCopy.runtimeLoop copy (i + 1) rest

/-- The second loop of `deepCopy`: `for i, ac := range est.AddonCosts`, writing
`copy.AddonCosts[i]`. -/
def MemoryRepository.deepCopy.addonLoop (copy : Ptr) : Nat → List Ptr → Go Unit
  | _, [] => pure ()
  | i, ac :: rest => do
    let v ← derefAddonCost ac
    let p ← allocAddonCost { AddonID := v.AddonID, Name := v.Name, Cost := v.Cost }
    modifyEstimation copy (fun c => { c with AddonCosts := c.AddonCosts.set i p })
    MemoryRepository.deepCopy.addonLoop copy (i + 1) rest

/-- Go `(*MemoryRepository).deepCopy`; the receiver is not used by the body. -/
def MemoryRepository.deepCopy (est : Ptr) : Go Ptr :=
  match est with
  | none => pure none
  | some a => do
    let c ← derefEstimation (some a)
    let copy ← allocEstimation
      { ID := c.ID, ProjectID := c.ProjectID,
        MinMonthlyCost := c.MinMonthlyCost, MaxMonthlyCost := c.MaxMonthlyCost,
        RuntimeCosts := List.replicate c.RuntimeCosts.length none,
        AddonCosts := List.replicate c.AddonCosts.length none }
    let c ← derefEstimation (some a)
    MemoryRepository.deepCopy.runtimeLoop copy 0 c.RuntimeCosts
    let c ← derefEstimation (some a)
    MemoryRepository.deepCopy.addonLoop copy 0 c.AddonCosts
    pure copy

/-- Go `(*MemoryRepository).Save`: the returned pair is `(string, error)`. -/
def MemoryRepository.Save (r : Ptr) (estimation : Ptr) : Go (String × Option GoError) := do
  let _ ← derefRepository r
  let copy ← MemoryRepository.deepCopy estimation
  let c ← derefEstimation copy
  modifyRepository r (fun m => { m with estimations := GoMap.insert m.estimations c.ID copy })
  let c ← derefEstimation copy
  pure (c.ID, none)

/-- Go `(*MemoryRepository).FindByID`: the returned pair is `(*CostEstimation, error)`. -/
def MemoryRepository.FindByID (r : Ptr) (id : String) : Go (Ptr × Option GoError) := do
  let m ← derefRepository r
  match GoMap.lookup m.estimations id with
  | none => pure (none, none)
  | some estimation => do
    let copy ← MemoryRepository.deepCopy estimation
    pure (copy, none)

/-- The loop of `FindByProjectID`: `for _, est := range r.estimations`, with the slice
`results` built so far. -/
def MemoryRepository.FindByProjectID.loop (projectID : String) :
    List Ptr → List (String × Ptr) → Go (List Ptr)
  | results, [] => pure results
  | results, (_, est) :: rest => do
    let c ← derefEstimation est
    if c.ProjectID = projectID then do
      let copy ← MemoryRepository.deepCopy est
      MemoryRepository.FindByProjectID.loop projectID (results ++ [copy]) rest
    else
      MemoryRepository.FindByProjectID.loop projectID results rest

/-- Go `(*MemoryRepository).FindByProjectID`: the returned pair is
`([]*CostEstimation, error)`. -/
def MemoryRepository.FindByProjectID (r : Ptr) (projectID : String) :
    Go (List Ptr × Option GoError) := do
  let m ← derefRepository r
  let results ← MemoryRepository.FindByProjectID.loop projectID [] m.estimations
  pure (results, none)

/-- Go `(*MemoryRepository).Delete`: the returned value is the `error`. -/
def MemoryRepository.Delete (r : Ptr) (id : String) : Go (Option GoError) := do
  modifyRepository r (fun m => { m with estimations := GoMap.delete m.estimations id })
  pure none

/-! ## Package `entity` : instances and flavors (instance.go, flavor.go), package `repository` -/

/-- Go `entity.Flavor`. -/
structure Flavor where
  Name : String
  Mem : Int
  CPUs : Int
  PricePerHour : Float64
  Available : Bool
  deriving DecidableEq, Repr

/-- Go `entity.Instance` (its field `Type` is `Type_` here); `Flavors` holds pointers, read
only, so each is the flavor it points to or `nil`. -/
structure Instance where
  Type_ : String
  Name : String
  Version : String
  Flavors : List (Option Flavor)
  deriving DecidableEq, Repr

/-- Go interface `repository.PricingRepository`.  The pricing source is an external
collaborator: each method is the answer it gives, a pair of a value and an `error`. -/
structure PricingRepository where
  ListInstances : String → List (Option Instance) × Option GoError
  GetInstanceByType : String → Option Instance × Option GoError
  GetFlavorPrice : String → String → Float64 × Option GoError

/-! ## Package `entity` : operations on instances and flavors (flavor.go, instance.go) -/

/-- Go `(*Flavor).MonthlyPrice`, with its constant `hoursPerMonth = 730`. -/
def Flavor.MonthlyPrice (f : Option Flavor) : Go Float64 :=
  match f with
  | none => Go.panic
  | some x => pure (x.PricePerHour * 730)

/-- Go `(*Flavor).IsHighMemory`. -/
def Flavor.IsHighMemory (f : Option Flavor) : Go Bool :=
  match f with
  | none => Go.panic
  | some x => pure (decide (x.Mem > 4096))

/-- The loop of `GetAvailableFlavors`: `for _, f := range i.Flavors`, with the slice
`available` built so far. -/
def Instance.GetAvailableFlavors.loop :
    List (Option Flavor) → List (Option Flavor) → Go (List (Option Flavor))
  | available, [] => pure available
  | available, f :: rest =>
    match f with
    | none => Go.panic
    | some x =>
      if x.Available then Instance.GetAvailableFlavors.loop (available ++ [f]) rest
      else Instance.GetAvailableFlavors.loop available rest

/-- Go `(*Instance).GetAvailableFlavors`. -/
def Instance.GetAvailableFlavors (i : Option Instance) : Go (List (Option Flavor)) :=
  match i with
  | none => Go.panic
  | some x => Instance.GetAvailableFlavors.loop [] x.Flavors

/-- The loop of `MinPrice`: `for _, f := range i.GetAvailableFlavors()`, with its variable
`minPrice`. -/
def Instance.MinPrice.loop : Float64 → List (Option Flavor) → Go Float64
  | minPrice, [] => pure minPrice
  | minPrice, f :: rest => do
    let monthlyPrice ← Flavor.MonthlyPrice f
    if minPrice < 0 ∨ monthlyPrice < minPrice then Instance.MinPrice.loop monthlyPrice rest
    else Instance.MinPrice.loop minPrice rest

/-- Go `(*Instance).MinPrice`. -/
def Instance.MinPrice (i : Option Instance) : Go Float64 := do
  let flavors ← Instance.GetAvailableFlavors i
  let minPrice ← Instance.MinPrice.loop (-1) flavors
  if minPrice < 0 then pure 0 else pure minPrice

/-- The loop of `MaxPrice`: `for _, f := range i.GetAvailableFlavors()`, with its variable
`maxPrice`. -/
def Instance.MaxPrice.loop : Float64 → List (Option Flavor) → Go Float64
  | maxPrice, [] => pure maxPrice
  | maxPrice, f :: rest => do
    let monthlyPrice ← Flavor.MonthlyPrice f
    if monthlyPrice > maxPrice then Instance.MaxPrice.loop monthlyPrice rest
    else Instance.MaxPrice.loop maxPrice rest

/-- Go `(*Instance).MaxPrice`. -/
def Instance.MaxPrice (i : Option Instance) : Go Float64 := do
  let flavors ← Instance.GetAvailableFlavors i
  Instance.MaxPrice.loop 0 flavors

/-! ## Package `command` : cost calculation (calculate_cost.go) -/

/-- Go constant `hoursPerMonth`. -/
def hoursPerMonth : Float64 := 730

/-- Go `command.RuntimeSpec`; the `int32` counts are integers, converted exactly by
`float64(...)`. -/
structure RuntimeSpec where
  InstanceType : String
  FlavorName : String
  MinInstances : Int
  MaxInstances : Int
  deriving DecidableEq, Repr

/-- Go `command.AddonSpec`. -/
structure AddonSpec where
  ProviderID : String
  PlanID : String
  deriving DecidableEq, Repr

/-- Go `command.CalculateCostCommand`; the slices hold pointers to specs, read only. -/
structure CalculateCostCommand where
  ProjectID : String
  RuntimeSpecs : List (Option RuntimeSpec)
  AddonSpecs : List (Option AddonSpec)
  deriving DecidableEq, Repr

/-- Go `command.CalculateCostHandler`. -/
structure CalculateCostHandler where
  pricingRepo : PricingRepository

/-- Go `(*CalculateCostHandler).calculateRuntimeCost`: the returned pair is
`(*entity.RuntimeCost, error)`. -/
def CalculateCostHandler.calculateRuntimeCost (h : CalculateCostHandler)
    (spec : Option RuntimeSpec) : Go (Ptr × Option GoError) :=
  match spec with
  | none => Go.panic
  | some s =>
    match h.pricingRepo.GetFlavorPrice s.InstanceType s.FlavorName with
    | (_, some err) => pure (none, some err)
    | (hourlyPrice, none) => do
      let monthlyPrice := hourlyPrice * hoursPerMonth
      let minCost := monthlyPrice * Float64.ofInt32 s.MinInstances
      let maxCost := monthlyPrice * Float64.ofInt32 s.MaxInstances
      let rc ← NewRuntimeCost (s.InstanceType ++ "-" ++ s.FlavorName)
        (s.InstanceType ++ " (" ++ s.FlavorName ++ ")") minCost maxCost
      pure (rc, none)

/-- Go `(*CalculateCostHandler).calculateAddonCost`: the returned pair is
`(*entity.AddonCost, error)`. -/
def CalculateCostHandler.calculateAddonCost (_h : CalculateCostHandler)
    (spec : Option AddonSpec) : Go (Ptr × Option GoError) :=
  match spec with
  | none => Go.panic
  | some s => do
    let ac ← NewAddonCost (s.ProviderID ++ "-" ++ s.PlanID)
      (s.ProviderID ++ " (" ++ s.PlanID ++ ")") 0
    pure (ac, none)

/-- The first loop of `Handle`: `for _, spec := range cmd.RuntimeSpecs`.  The result is the
error of the `return nil, fmt.Errorf(...)` that leaves the loop early, `none` when the loop
runs to its end. -/
def CalculateCostHandler.Handle.runtimeLoop (h : CalculateCostHandler) (estimation : Ptr) :
    List (Option RuntimeSpec) → Go (Option GoError)
  | [] => pure none
  | spec :: rest => do
    let res ← h.calculateRuntimeCost spec
    match res.2 with
    | some err =>
      match spec with
      | none => Go.panic
      | some s =>
        pure (some (GoError.wrapError
          ("failed to calculate runtime cost for " ++ s.InstanceType ++ ": " ++ err.Error) err))
    | none => do
      CostEstimation.AddRuntimeCost estimation res.1
      CalculateCostHandler.Handle.runtimeLoop h estimation rest

/-- The second loop of `Handle`: `for _, spec := range cmd.AddonSpecs`, with the same
convention for the result. -/
def CalculateCostHandler.Handle.addonLoop (h : CalculateCostHandler) (estimation : Ptr) :
    List (Option AddonSpec) → Go (Option GoError)
  | [] => pure none
  | spec :: rest => do
    let res ← h.calculateAddonCost spec
    match res.2 with
    | some err =>
      match spec with
      | none => Go.panic
      | some s =>
        pure (some (GoError.wrapError
          ("failed to calculate addon cost for " ++ s.ProviderID ++ ": " ++ err.Error) err))
    | none => do
      CostEstimation.AddAddonCost estimation res.1
      CalculateCostHandler.Handle.addonLoop h estimation rest

/-- Go `(*CalculateCostHandler).Handle`: the returned pair is `(*entity.CostEstimation, error)`;
`uuid` is the identifier `NewCostEstimation` generates in this call. -/
def CalculateCostHandler.Handle (h : CalculateCostHandler) (uuid : String)
    (cmd : Option CalculateCostCommand) : Go (Ptr × Option GoError) :=
  match cmd with
  | none => Go.panic
  | some c => do
    let estimation ← NewCostEstimation uuid c.ProjectID
    let err ← CalculateCostHandler.Handle.runtimeLoop h estimation c.RuntimeSpecs
    match err with
    | some e => pure (none, some e)
    | none => do
      let err ← CalculateCostHandler.Handle.addonLoop h estimation c.AddonSpecs
      match err with
      | some e => pure (none, some e)
      | none => pure (estimation, none)

/-! ## Package `repository` : the estimation store interface (pricing.go) -/

/-- Go interface `repository.EstimationRepository`: any store, each method a Go function. -/
structure EstimationRepository where
  Save : Ptr → Go (String × Option GoError)
  FindByID : String → Go (Ptr × Option GoError)
  FindByProjectID : String → Go (List Ptr × Option GoError)
  Delete : String → Go (Option GoError)

/-- The in-memory store behind the pointer `r`, seen through the interface (Go:
`var _ repository.EstimationRepository = (*MemoryRepository)(nil)`). -/
def MemoryRepository.asEstimationRepository (r : Ptr) : EstimationRepository :=
  { Save := MemoryRepository.Save r,
    FindByID := MemoryRepository.FindByID r,
    FindByProjectID := MemoryRepository.FindByProjectID r,
    Delete := MemoryRepository.Delete r }

/-! ## Package `query` (get_estimation.go, list_instances.go) -/

/-- Go variable `query.ErrEstimationNotFound`.  Go compares errors by identity; here two
errors are the same when they have the same text, and no other error of the program has this
text. -/
def ErrEstimationNotFound : GoError := GoError.errorString "estimation not found"

/-- Go `query.GetEstimationQuery`. -/
structure GetEstimationQuery where
  EstimationID : String
  deriving DecidableEq, Repr

/-- Go `query.GetEstimationResult`. -/
structure GetEstimationResult where
  Estimation : Ptr
  deriving DecidableEq, Repr

/-- Go `query.GetEstimationHandler`. -/
structure GetEstimationHandler where
  estimationRepo : EstimationRepository

/-- Go `(*GetEstimationHandler).Handle`: the returned pair is `(*GetEstimationResult, error)`. -/
def GetEstimationHandler.Handle (h : GetEstimationHandler) (query : Option GetEstimationQuery) :
    Go (Option GetEstimationResult × Option GoError) :=
  match query with
  | none => Go.panic
  | some q =>
    if q.EstimationID = "" then
      pure (none, some (GoError.errorString "estimation ID is required"))
    else do
      let res ← h.estimationRepo.FindByID q.EstimationID
      match res.2 with
      | some err => pure (none, some err)
      | none =>
        match res.1 with
        | none => pure (none, some ErrEstimationNotFound)
        | some a => pure (some { Estimation := some a }, none)

/-- Go `query.ListInstancesQuery`. -/
structure ListInstancesQuery where
  ZoneID : String
  deriving DecidableEq, Repr

/-- Go `query.ListInstancesResult`. -/
structure ListInstancesResult where
  Instances : List (Option Instance)
  deriving DecidableEq, Repr

/-- Go `query.ListInstancesHandler`. -/
structure ListInstancesHandler where
  pricingRepo : PricingRepository

/-- Go `(*ListInstancesHandler).Handle`: the returned pair is `(*ListInstancesResult, error)`. -/
def ListInstancesHandler.Handle (h : ListInstancesHandler) (query : Option ListInstancesQuery) :
    Go (Option ListInstancesResult × Option GoError) :=
  match query with
  | none => Go.panic
  | some q =>
    let zoneID := if q.ZoneID = "" then "par" else q.ZoneID
    match h.pricingRepo.ListInstances zoneID with
    | (_, some err) => pure (none, some err)
    | (instances, none) => pure (some { Instances := instances }, none)

/-! ## Package `command` : saving (save_estimation.go) -/

/-- Go `command.SaveEstimationCommand`. -/
structure SaveEstimationCommand where
  Estimation : Ptr
  deriving DecidableEq, Repr

/-- Go `command.SaveEstimationHandler`. -/
structure SaveEstimationHandler where
  estimationRepo : EstimationRepository

/-- Go `(*SaveEstimationHandler).Handle`: the returned pair is `(string, error)`. -/
def SaveEstimationHandler.Handle (h : SaveEstimationHandler) (cmd : Option SaveEstimationCommand) :
    Go (String × Option GoError) :=
  match cmd with
  | none => Go.panic
  | some c =>
    match c.Estimation with
    | none => pure ("", some (GoError.errorString "estimation is required"))
    | some a => do
      let res ← h.estimationRepo.Save (some a)
      match res.2 with
      | some err => pure ("", some err)
      | none => pure (res.1, none)

/-! ## Package `handler/pricing` : the RPC surface (handler.go) -/

/-- The status codes `connect.Code` of the library `connectrpc.com/connect`. -/
inductive ConnectCode where
  | CodeCanceled
  | CodeUnknown
  | CodeInvalidArgument
  | CodeDeadlineExceeded
  | CodeNotFound
  | CodeAlreadyExists
  | CodePermissionDenied
  | CodeResourceExhausted
  | CodeFailedPrecondition
  | CodeAborted
  | CodeOutOfRange
  | CodeUnimplemented
  | CodeInternal
  | CodeUnavailable
  | CodeDataLoss
  | CodeUnauthenticated
  deriving DecidableEq, Repr

/-- The error `connect.NewError(code, err)` builds: a status code and the underlying error. -/
structure ConnectError where
  code : ConnectCode
  err : GoError
  deriving DecidableEq, Repr

/-- Modelled from the spec: the wire message `pricingv1.RuntimeCost` of the generated package
`gen/proto/pricing/v1`, which is not among the sources; it mirrors the line item. -/
structure ProtoRuntimeCost where
  RuntimeId : String
  Name : String
  MinCost : Float64
  MaxCost : Float64
  deriving DecidableEq, Repr

/-- Modelled from the spec: the wire message `pricingv1.AddonCost` of the generated package,
which is not among the sources; it mirrors the line item. -/
structure ProtoAddonCost where
  AddonId : String
  Name : String
  Cost : Float64
  deriving DecidableEq, Repr

/-- Modelled from the spec: the wire message `pricingv1.CostEstimation` of the generated
package, which is not among the sources; it mirrors the aggregate, its repeated fields hold
pointers to messages. -/
structure ProtoCostEstimation where
  Id : String
  ProjectId : String
  MinMonthlyCost : Float64
  MaxMonthlyCost : Float64
  RuntimeCosts : List (Option ProtoRuntimeCost)
  AddonCosts : List (Option ProtoAddonCost)
  deriving DecidableEq, Repr

/-- Modelled from the spec: the request message `pricingv1.GetEstimationRequest`. -/
structure GetEstimationRequest where
  EstimationId : String
  deriving DecidableEq, Repr

/-- Modelled from the spec: the response message `pricingv1.GetEstimationResponse`. -/
structure GetEstimationResponse where
  Estimation : Option ProtoCostEstimation
  deriving DecidableEq, Repr

/-- Modelled from the spec: the request message `pricingv1.SaveEstimationRequest`. -/
structure SaveEstimationRequest where
  Estimation : Option ProtoCostEstimation
  deriving DecidableEq, Repr

/-- Modelled from the spec: the response message `pricingv1.SaveEstimationResponse`. -/
structure SaveEstimationResponse where
  EstimationId : String
  deriving DecidableEq, Repr

/-- Modelled from the spec: the generated getter `GetEstimationId`; like every generated
getter it answers the zero value on a `nil` message. -/
def GetEstimationRequest.GetEstimationId (m : Option GetEstimationRequest) : String :=
  match m with
  | none => ""
  | some x => x.EstimationId

/-- Modelled from the spec: the generated getter `GetEstimation` of the save request. -/
def SaveEstimationRequest.GetEstimation (m : Option SaveEstimationRequest) :
    Option ProtoCostEstimation :=
  match m with
  | none => none
  | some x => x.Estimation

/-- Modelled from the spec: the generated getters of `pricingv1.RuntimeCost`, read together:
the line item a message carries, the zero line item for a `nil` message. -/
def ProtoRuntimeCost.getters (m : Option ProtoRuntimeCost) : RuntimeCost :=
  match m with
  | none => { RuntimeID := "", Name := "", MinCost := 0, MaxCost := 0 }
  | some x => { RuntimeID := x.RuntimeId, Name := x.Name, MinCost := x.MinCost,
                MaxCost := x.MaxCost }

/-- Modelled from the spec: the generated getters of `pricingv1.AddonCost`, read together. -/
def ProtoAddonCost.getters (m : Option ProtoAddonCost) : AddonCost :=
  match m with
  | none => { AddonID := "", Name := "", Cost := 0 }
  | some x => { AddonID := x.AddonId, Name := x.Name, Cost := x.Cost }

/-- The first loop of `estimationToProto`: `for _, rc := range est.RuntimeCosts`, with the
slice `runtimeCosts` built so far. -/
def estimationToProto.runtimeLoop :
    List (Option ProtoRuntimeCost) → List Ptr → Go (List (Option ProtoRuntimeCost))
  | runtimeCosts, [] => pure runtimeCosts
  | runtimeCosts, rc :: rest => do
    let v ← derefRuntimeCost rc
    estimationToProto.runtimeLoop
      (runtimeCosts ++ [some { RuntimeId := v.RuntimeID, Name := v.Name, MinCost := v.MinCost,
                               MaxCost := v.MaxCost }]) rest

/-- The second loop of `estimationToProto`: `for _, ac := range est.AddonCosts`. -/
def estimationToProto.addonLoop :
    List (Option ProtoAddonCost) → List Ptr → Go (List (Option ProtoAddonCost))
  | addonCosts, [] => pure addonCosts
  | addonCosts, ac :: rest => do
    let v ← derefAddonCost ac
    estimationToProto.addonLoop
      (addonCosts ++ [some { AddonId := v.AddonID, Name := v.Name, Cost := v.Cost }]) rest

/-- Go `estimationToProto`: the returned pointer is never `nil`, so the message is returned
by value. -/
def estimationToProto (est : Ptr) : Go ProtoCostEstimation := do
  let c ← derefEstimation est
  let runtimeCosts ← estimationToProto.runtimeLoop [] c.RuntimeCosts
  let c ← derefEstimation est
  let addonCosts ← estimationToProto.addonLoop [] c.AddonCosts
  let c ← derefEstimation est
  pure { Id := c.ID, ProjectId := c.ProjectID, MinMonthlyCost := c.MinMonthlyCost,
         MaxMonthlyCost := c.MaxMonthlyCost, RuntimeCosts := runtimeCosts,
         AddonCosts := addonCosts }

/-- The first loop of `protoToEstimation`: `for _, rc := range proto.GetRuntimeCosts()`,
appending to `estimation.RuntimeCosts`. -/
def protoToEstimation.runtimeLoop (estimation : Ptr) : List (Option ProtoRuntimeCost) → Go Unit
  | [] => pure ()
  | rc :: rest => do
    let p ← allocRuntimeCost (ProtoRuntimeCost.getters rc)
    modifyEstimation estimation (fun c => { c with RuntimeCosts := c.RuntimeCosts ++ [p] })
    protoToEstimation.runtimeLoop estimation rest

/-- The second loop of `protoToEstimation`: `for _, ac := range proto.GetAddonCosts()`,
appending to `estimation.AddonCosts`. -/
def protoToEstimation.addonLoop (estimation : Ptr) : List (Option ProtoAddonCost) → Go Unit
  | [] => pure ()
  | ac :: rest => do
    let p ← allocAddonCost (ProtoAddonCost.getters ac)
    modifyEstimation estimation (fun c => { c with AddonCosts := c.AddonCosts ++ [p] })
    protoToEstimation.addonLoop estimation rest

/-- Go `protoToEstimation`. -/
def protoToEstimation (proto : Option ProtoCostEstimation) : Go Ptr :=
  match proto with
  | none => pure none
  | some p => do
    let estimation ← allocEstimation
      { ID := p.Id, ProjectID := p.ProjectId, MinMonthlyCost := p.MinMonthlyCost,
        MaxMonthlyCost := p.MaxMonthlyCost, RuntimeCosts := [], AddonCosts := [] }
    protoToEstimation.runtimeLoop estimation p.RuntimeCosts
    protoToEstimation.addonLoop estimation p.AddonCosts
    pure estimation

/-- Go `pricing.Handler`: the four handlers of the application layer. -/
structure Handler where
  listInstancesHandler : ListInstancesHandler
  getEstimationHandler : GetEstimationHandler
  calculateCostHandler : CalculateCostHandler
  saveEstimationHandler : SaveEstimationHandler

/-- Go `(*Handler).GetEstimation`; `msg` is `req.Msg`, the returned pair is the response
message and the error. -/
def Handler.GetEstimation (h : Handler) (msg : Option GetEstimationRequest) :
    Go (Option GetEstimationResponse × Option ConnectError) := do
  let res ← h.getEstimationHandler.Handle
    (some { EstimationID := GetEstimationRequest.GetEstimationId msg })
  match res.2 with
  | some err =>
    if err = ErrEstimationNotFound then
      pure (none, some { code := ConnectCode.CodeNotFound, err := err })
    else
      pure (none, some { code := ConnectCode.CodeInternal, err := err })
  | none =>
    match res.1 with
    | none => Go.panic
    | some result => do
      let proto ← estimationToProto result.Estimation
      pure (some { Estimation := some proto }, none)

/-- Go `(*Handler).SaveEstimation`; `msg` is `req.Msg`, the returned pair is the response
message and the error. -/
def Handler.SaveEstimation (h : Handler) (msg : Option SaveEstimationRequest) :
    Go (Option SaveEstimationResponse × Option ConnectError) := do
  let estimation ← protoToEstimation (SaveEstimationRequest.GetEstimation msg)
  let res ← h.saveEstimationHandler.Handle (some { Estimation := estimation })
  match res.2 with
  | some err => pure (none, some { code := ConnectCode.CodeInternal, err := err })
  | none => pure (some { EstimationId := res.1 }, none)

/-! ## Observations used to state the properties -/

/-- A line item list read through its pointers: the list of the values pointed to, when
every pointer designates a cell. -/
def readAll {α : Type} (cells : List α) : List Ptr → Option (List α)
  | [] => some []
  | p :: rest =>
    match cellAt cells p, readAll cells rest with
    | some v, some vs => some (v :: vs)
    | _, _ => none

/-- The content of an aggregate, line items included, with no pointer left in it: two
aggregates are deep-equal when they have the same content. -/
structure Content where
  ID : String
  ProjectID : String
  MinMonthlyCost : Float64
  MaxMonthlyCost : Float64
  RuntimeCosts : List RuntimeCost
  AddonCosts : List AddonCost
  deriving DecidableEq, Repr

/-- The content of the aggregate a pointer designates; `none` when the pointer is `nil` or a
line item pointer is `nil`. -/
def content (w : World) (e : Ptr) : Option Content :=
  match cellAt w.estimations e with
  | none => none
  | some c =>
    match readAll w.runtimeCosts c.RuntimeCosts, readAll w.addonCosts c.AddonCosts with
    | some rcs, some acs =>
      some { ID := c.ID, ProjectID := c.ProjectID, MinMonthlyCost := c.MinMonthlyCost,
             MaxMonthlyCost := c.MaxMonthlyCost, RuntimeCosts := rcs, AddonCosts := acs }
    | _, _ => none

/-- The `float64` sum a Go loop `for ... { total += x }` leaves in `total`: the values are
added to the start value one after the other, in the order of the slice, each addition
rounded. -/
def sumFrom (start : Float64) (xs : List Float64) : Float64 :=
  xs.foldl (fun total x => total + x) start

/-- The totals invariant of the aggregate behind `e`: every line item can be read, and each
total is the `float64` sum accumulated from 0 over the runtime line items, in order, and then
over the addon line items, in order. -/
def TotalsHold (w : World) (e : Ptr) : Prop :=
  ∃ v, content w e = some v ∧
    v.MinMonthlyCost
      = sumFrom (sumFrom 0 (v.RuntimeCosts.map RuntimeCost.MinCost))
          (v.AddonCosts.map AddonCost.Cost) ∧
    v.MaxMonthlyCost
      = sumFrom (sumFrom 0 (v.RuntimeCosts.map RuntimeCost.MaxCost))
          (v.AddonCosts.map AddonCost.Cost)

/-- One mutation of an aggregate: a call of `AddRuntimeCost` or of `AddAddonCost` with the
given line item pointer. -/
inductive AddCall where
  | runtime (cost : Ptr)
  | addon (cost : Ptr)
  deriving DecidableEq, Repr

/-- Execute one mutation on the aggregate behind `e`. -/
def AddCall.run (e : Ptr) : AddCall → Go Unit
  | .runtime cost => CostEstimation.AddRuntimeCost e cost
  | .addon cost => CostEstimation.AddAddonCost e cost

/-- The line item of a mutation is not `nil`: it designates a cell of its type. -/
def AddCall.NonNil (w : World) : AddCall → Prop
  | .runtime cost => (cellAt w.runtimeCosts cost).isSome
  | .addon cost => (cellAt w.addonCosts cost).isSome

/-- Execute a sequence of mutations, in order, on the aggregate behind `e`. -/
def runCalls (e : Ptr) : List AddCall → Go Unit
  | [] => pure ()
  | call :: rest => do
    call.run e
    runCalls e rest

/-- The struct `deepCopy` builds for an aggregate whose struct is `c`, in the world `w` of the
call: the scalar fields of `c`, and slices of the same lengths whose elements are the line
item cells allocated by the call, the next free addresses of `w` in increasing order. -/
def copyStruct (w : World) (c : CostEstimation) : CostEstimation :=
  { c with
    RuntimeCosts := (List.range' w.runtimeCosts.length c.RuntimeCosts.length).map some,
    AddonCosts := (List.range' w.addonCosts.length c.AddonCosts.length).map some }

/-- The world `deepCopy` leaves for an aggregate whose struct is `c` and whose line items are
`rcs` and `acs`: the copies are new cells, no existing cell is changed. -/
def World.withCopy (w : World) (c : CostEstimation) (rcs : List RuntimeCost)
    (acs : List AddonCost) : World :=
  { estimations := w.estimations ++ [copyStruct w c],
    runtimeCosts := w.runtimeCosts ++ rcs,
    addonCosts := w.addonCosts ++ acs,
    repositories := w.repositories }

/-- The aggregate behind `p` is made of the same cells in `w2` as in `w1`: the cell of its
struct and the cell of each of its line items hold the same values.  Any other cell may
differ between the two worlds. -/
def SameAggregate (w1 w2 : World) (p : Ptr) : Prop :=
  cellAt w2.estimations p = cellAt w1.estimations p ∧
  ∀ c, cellAt w1.estimations p = some c →
    (∀ q ∈ c.RuntimeCosts, cellAt w2.runtimeCosts q = cellAt w1.runtimeCosts q) ∧
    (∀ q ∈ c.AddonCosts, cellAt w2.addonCosts q = cellAt w1.addonCosts q)

/-- World `w2` is world `w1` after a caller holding the aggregate `p` has changed `p` or line
items of `p`: every cell of `w1` other than the struct cell of `p` and the cells of the line
items `p` lists in `w1` holds the same value in `w2`.  The cells of `p` may hold anything,
and `w2` may have more cells. -/
def ChangedOnlyAt (w1 w2 : World) (p : Ptr) : Prop :=
  (∀ q, (cellAt w1.repositories q).isSome →
    cellAt w2.repositories q = cellAt w1.repositories q) ∧
  (∀ q, q ≠ p → (cellAt w1.estimations q).isSome →
    cellAt w2.estimations q = cellAt w1.estimations q) ∧
  (∀ c, cellAt w1.estimations p = some c →
    (∀ q, q ∉ c.RuntimeCosts → (cellAt w1.runtimeCosts q).isSome →
      cellAt w2.runtimeCosts q = cellAt w1.runtimeCosts q) ∧
    (∀ q, q ∉ c.AddonCosts → (cellAt w1.addonCosts q).isSome →
      cellAt w2.addonCosts q = cellAt w1.addonCosts q))

/-- What a store holds, with no pointer left in it: for each entry of the map, in the order
of the entries, the key and the content of the aggregate stored under it.  Two stores are in
the same state when they hold the same thing. -/
def storeContent (w : World) (r : Ptr) : Option (List (String × Option Content)) :=
  (cellAt w.repositories r).map
    (fun m => m.estimations.map (fun kv => (kv.1, content w kv.2)))

/-- A store state the program can reach: the repository exists and every aggregate it stores
can be read, that is, no stored pointer and no line item pointer of a stored aggregate is
`nil`.  `NewMemoryRepository` establishes it and every operation of the store keeps it. -/
def StoreReadable (w : World) (r : Ptr) : Prop :=
  ∃ m, cellAt w.repositories r = some m ∧ ∀ kv ∈ m.estimations, (content w kv.2).isSome

/-- The error a failed calculation reports, as the specification describes it: the lookup
error of the first runtime spec, in input order, whose price lookup fails, wrapped with a
message that names the instance type of that spec; `none` when every lookup resolves. -/
def firstLookupFailure (repo : PricingRepository) : List RuntimeSpec → Option GoError
  | [] => none
  | s :: rest =>
    match (repo.GetFlavorPrice s.InstanceType s.FlavorName).2 with
    | some err =>
      some (GoError.wrapError
        ("failed to calculate runtime cost for " ++ s.InstanceType ++ ": " ++ err.Error) err)
    | none => firstLookupFailure repo rest

/-- The runtime line item the specification derives from a runtime spec whose lookup resolves
to the hourly price `p`: the id and the name built from the instance type and the flavor,
and the costs `(p × 730) × minInstances` and `(p × 730) × maxInstances`. -/
def runtimeCostOf (p : Float64) (s : RuntimeSpec) : RuntimeCost :=
  { RuntimeID := s.InstanceType ++ "-" ++ s.FlavorName,
    Name := s.InstanceType ++ " (" ++ s.FlavorName ++ ")",
    MinCost := (p * 730) * Float64.ofInt32 s.MinInstances,
    MaxCost := (p * 730) * Float64.ofInt32 s.MaxInstances }

/-- The addon line item the specification derives from an addon spec: the id and the name
built from the provider and the plan, and the cost 0. -/
def addonCostOf (s : AddonSpec) : AddonCost :=
  { AddonID := s.ProviderID ++ "-" ++ s.PlanID,
    Name := s.ProviderID ++ " (" ++ s.PlanID ++ ")",
    Cost := 0 }

/-- The hourly price the pricing source answers for a runtime spec. -/
def hourlyPriceOf (repo : PricingRepository) (s : RuntimeSpec) : Float64 :=
  (repo.GetFlavorPrice s.InstanceType s.FlavorName).1

/-- The monthly prices, `PricePerHour × 730`, of the available flavors among `flavors`, in
their order. -/
def availableMonthlyPrices (flavors : List Flavor) : List Float64 :=
  (flavors.filter (fun f => f.Available)).map (fun f => f.PricePerHour * 730)

/-- The content of the aggregate a wire message describes: its scalar fields and, for each
repeated field, the line items its getters read, in the order of the message. -/
def protoContent (p : ProtoCostEstimation) : Content :=
  { ID := p.Id, ProjectID := p.ProjectId, MinMonthlyCost := p.MinMonthlyCost,
    MaxMonthlyCost := p.MaxMonthlyCost,
    RuntimeCosts := p.RuntimeCosts.map ProtoRuntimeCost.getters,
    AddonCosts := p.AddonCosts.map ProtoAddonCost.getters }

/-- What a caller sees of `FindByID(id)` run in the world `w`: the content of the aggregate
returned (`none` for a `nil` pointer) and the error, or a panic.  The address of the copy is
left out: two calls return the same result when they return deep-equal aggregates. -/
def findByIDResult (r : Ptr) (id : String) (w : World) :
    Outcome (Option Content × Option GoError) :=
  match MemoryRepository.FindByID r id w with
  | (Outcome.ok res, w1) => Outcome.ok (content w1 res.1, res.2)
  | (Outcome.panic, _) => Outcome.panic

/-- What a caller sees of `FindByProjectID(projectID)` run in the world `w`: the contents of
the aggregates returned, in the order of the slice, and the error, or a panic. -/
def findByProjectIDResult (r : Ptr) (projectID : String) (w : World) :
    Outcome (List (Option Content) × Option GoError) :=
  match MemoryRepository.FindByProjectID r projectID w with
  | (Outcome.ok res, w1) => Outcome.ok (res.1.map (content w1), res.2)
  | (Outcome.panic, _) => Outcome.panic

/-! ## Sample data used to instantiate the properties -/

/-- A world with one repository (address 0) that stores the aggregate `"s0"` (address 0), and
two aggregates held by a caller, both with the id `"e1"` (addresses 1 and 2). -/
def sampleWorld : World :=
  { estimations :=
      [ { ID := "s0", ProjectID := "proj", MinMonthlyCost := 14.6, MaxMonthlyCost := 43.8,
          RuntimeCosts := [some 0], AddonCosts := [some 0] },
        { ID := "e1", ProjectID := "proj", MinMonthlyCost := 10, MaxMonthlyCost := 20,
          RuntimeCosts := [some 1], AddonCosts := [] },
        { ID := "e1", ProjectID := "other", MinMonthlyCost := 0, MaxMonthlyCost := 0,
          RuntimeCosts := [], AddonCosts := [some 0] } ],
    runtimeCosts :=
      [ { RuntimeID := "XS-pico", Name := "XS (pico)", MinCost := 14.6, MaxCost := 43.8 },
        { RuntimeID := "M-nano", Name := "M (nano)", MinCost := 10, MaxCost := 20 } ],
    addonCosts := [ { AddonID := "redis-s", Name := "redis (s)", Cost := 0 } ],
    repositories := [ { estimations := [("s0", some 0)] } ] }

/-- The content of the stored aggregate `"s0"` of `sampleWorld`. -/
def sampleStored : Content :=
  { ID := "s0", ProjectID := "proj", MinMonthlyCost := 14.6, MaxMonthlyCost := 43.8,
    RuntimeCosts :=
      [ { RuntimeID := "XS-pico", Name := "XS (pico)", MinCost := 14.6, MaxCost := 43.8 } ],
    AddonCosts := [ { AddonID := "redis-s", Name := "redis (s)", Cost := 0 } ] }

/-- The content of the aggregate `"e1"` at address 1 of `sampleWorld`. -/
def sampleHeld : Content :=
  { ID := "e1", ProjectID := "proj", MinMonthlyCost := 10, MaxMonthlyCost := 20,
    RuntimeCosts :=
      [ { RuntimeID := "M-nano", Name := "M (nano)", MinCost := 10, MaxCost := 20 } ],
    AddonCosts := [] }

/-- The content of the aggregate `"e1"` at address 2 of `sampleWorld`. -/
def sampleOther : Content :=
  { ID := "e1", ProjectID := "other", MinMonthlyCost := 0, MaxMonthlyCost := 0,
    RuntimeCosts := [],
    AddonCosts := [ { AddonID := "redis-s", Name := "redis (s)", Cost := 0 } ] }

/-- A world where a caller holds three aggregates, `"a"` and `"c"` of project `"p1"` and `"b"`
of project `"p2"`, and no repository exists yet. -/
def sampleCaller : World :=
  { estimations :=
      [ { ID := "a", ProjectID := "p1", MinMonthlyCost := 10, MaxMonthlyCost := 20,
          RuntimeCosts := [some 0], AddonCosts := [] },
        { ID := "b", ProjectID := "p2", MinMonthlyCost := 0, MaxMonthlyCost := 0,
          RuntimeCosts := [], AddonCosts := [some 0] },
        { ID := "c", ProjectID := "p1", MinMonthlyCost := 0, MaxMonthlyCost := 0,
          RuntimeCosts := [], AddonCosts := [] } ],
    runtimeCosts :=
      [ { RuntimeID := "M-nano", Name := "M (nano)", MinCost := 10, MaxCost := 20 } ],
    addonCosts := [ { AddonID := "redis-s", Name := "redis (s)", Cost := 0 } ],
    repositories := [] }

/-- The world `sampleCaller` after `NewMemoryRepository`: the repository is at address 0. -/
def sampleEmptyStore : World :=
  { estimations :=
      [ { ID := "a", ProjectID := "p1", MinMonthlyCost := 10, MaxMonthlyCost := 20,
          RuntimeCosts := [some 0], AddonCosts := [] },
        { ID := "b", ProjectID := "p2", MinMonthlyCost := 0, MaxMonthlyCost := 0,
          RuntimeCosts := [], AddonCosts := [some 0] },
        { ID := "c", ProjectID := "p1", MinMonthlyCost := 0, MaxMonthlyCost := 0,
          RuntimeCosts := [], AddonCosts := [] } ],
    runtimeCosts :=
      [ { RuntimeID := "M-nano", Name := "M (nano)", MinCost := 10, MaxCost := 20 } ],
    addonCosts := [ { AddonID := "redis-s", Name := "redis (s)", Cost := 0 } ],
    repositories := [ { estimations := [] } ] }

/-- The world `sampleEmptyStore` after `Save` of the aggregate `"a"`: its copy is at address 3. -/
def sampleOneSaved : World :=
  { estimations :=
      [ { ID := "a", ProjectID := "p1", MinMonthlyCost := 10, MaxMonthlyCost := 20,
          RuntimeCosts := [some 0], AddonCosts := [] },
        { ID := "b", ProjectID := "p2", MinMonthlyCost := 0, MaxMonthlyCost := 0,
          RuntimeCosts := [], AddonCosts := [some 0] },
        { ID := "c", ProjectID := "p1", MinMonthlyCost := 0, MaxMonthlyCost := 0,
          RuntimeCosts := [], AddonCosts := [] },
        { ID := "a", ProjectID := "p1", MinMonthlyCost := 10, MaxMonthlyCost := 20,
          RuntimeCosts := [some 1], AddonCosts := [] } ],
    runtimeCosts :=
      [ { RuntimeID := "M-nano", Name := "M (nano)", MinCost := 10, MaxCost := 20 },
        { RuntimeID := "M-nano", Name := "M (nano)", MinCost := 10, MaxCost := 20 } ],
    addonCosts := [ { AddonID := "redis-s", Name := "redis (s)", Cost := 0 } ],
    repositories := [ { estimations := [("a", some 3)] } ] }

/-- The world `sampleOneSaved` after `Save` of the aggregate `"b"`: its copy is at address 4. -/
def sampleTwoSaved : World :=
  { estimations :=
      [ { ID := "a", ProjectID := "p1", MinMonthlyCost := 10, MaxMonthlyCost := 20,
          RuntimeCosts := [some 0], AddonCosts := [] },
        { ID := "b", ProjectID := "p2", MinMonthlyCost := 0, MaxMonthlyCost := 0,
          RuntimeCosts := [], AddonCosts := [some 0] },
        { ID := "c", ProjectID := "p1", MinMonthlyCost := 0, MaxMonthlyCost := 0,
          RuntimeCosts := [], AddonCosts := [] },
        { ID := "a", ProjectID := "p1", MinMonthlyCost := 10, MaxMonthlyCost := 20,
          RuntimeCosts := [some 1], AddonCosts := [] },
        { ID := "b", ProjectID := "p2", MinMonthlyCost := 0, MaxMonthlyCost := 0,
          RuntimeCosts := [], AddonCosts := [some 1] } ],
    runtimeCosts :=
      [ { RuntimeID := "M-nano", Name := "M (nano)", MinCost := 10, MaxCost := 20 },
        { RuntimeID := "M-nano", Name := "M (nano)", MinCost := 10, MaxCost := 20 } ],
    addonCosts := [ { AddonID := "redis-s", Name := "redis (s)", Cost := 0 }, { AddonID := "redis-s", Name := "redis (s)", Cost := 0 } ],
    repositories := [ { estimations := [("a", some 3), ("b", some 4)] } ] }

/-- The world `sampleTwoSaved` after `Save` of the aggregate `"c"`: its copy is at address 5. -/
def sampleThreeSaved : World :=
  { estimations :=
      [ { ID := "a", ProjectID := "p1", MinMonthlyCost := 10, MaxMonthlyCost := 20,
          RuntimeCosts := [some 0], AddonCosts := [] },
        { ID := "b", ProjectID := "p2", MinMonthlyCost := 0, MaxMonthlyCost := 0,
          RuntimeCosts := [], AddonCosts := [some 0] },
        { ID := "c", ProjectID := "p1", MinMonthlyCost := 0, MaxMonthlyCost := 0,
          RuntimeCosts := [], AddonCosts := [] },
        { ID := "a", ProjectID := "p1", MinMonthlyCost := 10, MaxMonthlyCost := 20,
          RuntimeCosts := [some 1], AddonCosts := [] },
        { ID := "b", ProjectID := "p2", MinMonthlyCost := 0, MaxMonthlyCost := 0,
          RuntimeCosts := [], AddonCosts := [some 1] },
        { ID := "c", ProjectID := "p1", MinMonthlyCost := 0, MaxMonthlyCost := 0,
          RuntimeCosts := [], AddonCosts := [] } ],
    runtimeCosts :=
      [ { RuntimeID := "M-nano", Name := "M (nano)", MinCost := 10, MaxCost := 20 },
        { RuntimeID := "M-nano", Name := "M (nano)", MinCost := 10, MaxCost := 20 } ],
    addonCosts := [ { AddonID := "redis-s", Name := "redis (s)", Cost := 0 }, { AddonID := "redis-s", Name := "redis (s)", Cost := 0 } ],
    repositories := [ { estimations := [("a", some 3), ("b", some 4), ("c", some 5)] } ] }

/-- Create a repository and save into it the three aggregates a caller holds at the addresses
0, 1 and 2. -/
def saveThree : Go Ptr := do
  let r ← NewMemoryRepository
  let _ ← MemoryRepository.Save r (some 0)
  let _ ← MemoryRepository.Save r (some 1)
  let _ ← MemoryRepository.Save r (some 2)
  pure r

/-- A pricing source that knows one flavor, `pico` of the instance type `XS`, at 0.02 per hour;
any other lookup fails. -/
def samplePricing : PricingRepository :=
  { ListInstances := fun _ => ([], none),
    GetInstanceByType := fun t =>
      (none, some (GoError.errorString ("instance type " ++ t ++ " not found"))),
    GetFlavorPrice := fun t f =>
      if t = "XS" ∧ f = "pico" then (0.02, none)
      else (0, some (GoError.errorString
        ("flavor " ++ f ++ " not found for instance type " ++ t))) }

/-- Three flavors: `pico` at 0.02 and `M` at 0.05 per hour are available, `nano` at 0.01 per
hour is not. -/
def sampleFlavors : List Flavor :=
  [ { Name := "pico", Mem := 256, CPUs := 1, PricePerHour := 0.02, Available := true },
    { Name := "nano", Mem := 512, CPUs := 1, PricePerHour := 0.01, Available := false },
    { Name := "M", Mem := 4096, CPUs := 2, PricePerHour := 0.05, Available := true } ]

/-- An instance with the flavors `sampleFlavors`. -/
def sampleInstance : Instance :=
  { Type_ := "node", Name := "Node", Version := "20", Flavors := sampleFlavors.map some }

/-- An RPC handler whose estimation store is the in-memory repository at address 0 and whose
pricing source is `samplePricing`. -/
def sampleHandler : Handler :=
  { listInstancesHandler := { pricingRepo := samplePricing },
    getEstimationHandler :=
      { estimationRepo := MemoryRepository.asEstimationRepository (some 0) },
    calculateCostHandler := { pricingRepo := samplePricing },
    saveEstimationHandler :=
      { estimationRepo := MemoryRepository.asEstimationRepository (some 0) } }

/-- A wire message of an estimation that carries no id: one runtime line item, no addon. -/
def sampleUnidentified : ProtoCostEstimation :=
  { Id := "", ProjectId := "proj", MinMonthlyCost := 10, MaxMonthlyCost := 20,
    RuntimeCosts :=
      [ some { RuntimeId := "M-nano", Name := "M (nano)", MinCost := 10, MaxCost := 20 } ],
    AddonCosts := [] }

/-- The same wire message with the id `"e7"`. -/
def sampleIdentified : ProtoCostEstimation :=
  { sampleUnidentified with Id := "e7" }

/-- A pricing source that knows one flavor, `L` / `big`, at 1.1 per hour. -/
def sampleCostly : PricingRepository :=
  { ListInstances := fun _ => ([], none),
    GetInstanceByType := fun t =>
      (none, some (GoError.errorString ("instance type " ++ t ++ " not found"))),
    GetFlavorPrice := fun t f =>
      if t = "L" ∧ f = "big" then (1.1, none)
      else (0, some (GoError.errorString
        ("flavor " ++ f ++ " not found for instance type " ++ t))) }

/-- A world in which a caller holds one runtime line item of cost 0.1 and two addon line
items of cost 0.2 and 0.3, and no aggregate exists yet. -/
def sampleTenths : World :=
  { estimations := [],
    runtimeCosts := [ { RuntimeID := "r", Name := "r", MinCost := 0.1, MaxCost := 0.1 } ],
    addonCosts :=
      [ { AddonID := "a", Name := "a", Cost := 0.2 },
        { AddonID := "b", Name := "b", Cost := 0.3 } ],
    repositories := [] }

/-- Four runtime specs of `XS` / `pico`: 1 to 1, 2 to 2, 4 to 4 and 7 to 9 instances. -/
def sampleFourSpecs : List RuntimeSpec :=
  [ ⟨"XS", "pico", 1, 1⟩, ⟨"XS", "pico", 2, 2⟩, ⟨"XS", "pico", 4, 4⟩, ⟨"XS", "pico", 7, 9⟩ ]

/-- A pricing source that knows one flavor, `H` / `max`, at 1e306 per hour. -/
def sampleHuge : PricingRepository :=
  { ListInstances := fun _ => ([], none),
    GetInstanceByType := fun t =>
      (none, some (GoError.errorString ("instance type " ++ t ++ " not found"))),
    GetFlavorPrice := fun t f =>
      if t = "H" ∧ f = "max" then (1e306, none)
      else (0, some (GoError.errorString
        ("flavor " ++ f ++ " not found for instance type " ++ t))) }

/-! # Properties -/

/-! ## Go `float64`: rounding -/

theorem roundHalfEven_le_of_le {x : ℚ} {M : ℤ} (h : x ≤ M) : roundHalfEven x ≤ M := by
  have hfl : ⌊x⌋ ≤ M := by
    have := Int.floor_le x
    exact_mod_cast le_trans this h
  have hlt : x < (⌊x⌋ : ℚ) + 1 := Int.lt_floor_add_one x
  unfold roundHalfEven
  rcases lt_or_eq_of_le hfl with h1 | h1
  · split_ifs <;> omega
  · have hx : x - ⌊x⌋ < 1 / 2 := by
      have : x ≤ (⌊x⌋ : ℚ) := by rw [h1]; exact h
      linarith
    rw [if_pos hx]
    exact hfl

theorem le_roundHalfEven_of_le {x : ℚ} {M : ℤ} (h : (M : ℚ) ≤ x) : M ≤ roundHalfEven x := by
  have hfl : M ≤ ⌊x⌋ := Int.le_floor.mpr h
  unfold roundHalfEven
  split_ifs <;> omega

theorem roundHalfEven_mono {x y : ℚ} (h : x ≤ y) : roundHalfEven x ≤ roundHalfEven y := by
  have hfl : ⌊x⌋ ≤ ⌊y⌋ := Int.floor_mono h
  rcases lt_or_eq_of_le hfl with h1 | h1
  · have hx : roundHalfEven x ≤ ⌊x⌋ + 1 := by
      apply roundHalfEven_le_of_le
      push_cast
      exact le_of_lt (Int.lt_floor_add_one x)
    have hy : ⌊y⌋ ≤ roundHalfEven y := le_roundHalfEven_of_le (Int.floor_le y)
    omega
  · unfold roundHalfEven
    rw [← h1]
    have hd : x - ⌊x⌋ ≤ y - ⌊x⌋ := by linarith
    split_ifs <;> first | omega | (exfalso; linarith)

theorem roundHalfEven_intCast (n : ℤ) : roundHalfEven (n : ℚ) = n := by
  unfold roundHalfEven
  simp

theorem roundHalfEven_of_near {x : ℚ} {n : ℤ} (h1 : x - n < 1 / 2) (h2 : (n : ℚ) - x < 1 / 2) :
    roundHalfEven x = n := by
  have hlo : n - 1 ≤ roundHalfEven x ∧ roundHalfEven x ≤ n + 1 := by
    constructor
    · apply le_roundHalfEven_of_le
      push_cast
      linarith
    · apply roundHalfEven_le_of_le
      push_cast
      linarith
  have hfl1 : (⌊x⌋ : ℚ) ≤ x := Int.floor_le x
  have hfl2 : x < (⌊x⌋ : ℚ) + 1 := Int.lt_floor_add_one x
  have hfl : ⌊x⌋ = n ∨ ⌊x⌋ = n - 1 := by
    have h3 : n - 1 ≤ ⌊x⌋ := by
      apply Int.le_floor.mpr
      push_cast
      linarith
    have h4 : ⌊x⌋ < n + 1 := by
      have : (⌊x⌋ : ℚ) < ((n + 1 : ℤ) : ℚ) := by
        push_cast
        linarith
      exact_mod_cast this
    omega
  unfold roundHalfEven
  rcases hfl with h | h
  · have hx : x - ⌊x⌋ < 1 / 2 := by rw [h]; exact h1
    rw [if_pos hx, h]
  · have hx : ¬ (x - ⌊x⌋ < 1 / 2) := by
      rw [h]
      push_cast
      linarith
    have hx2 : 1 / 2 < x - ⌊x⌋ := by
      rw [h]
      push_cast
      linarith
    rw [if_neg hx, if_pos hx2, h]
    omega

theorem two_zpow_pos (t : ℤ) : (0 : ℚ) < 2 ^ t := zpow_pos (by norm_num) t

theorem two_pow_mul_zpow (k : ℕ) (t e : ℤ) (h : (k : ℤ) + t = e) :
    ((2 ^ k : ℤ) : ℚ) * 2 ^ t = 2 ^ e := by
  rw [Int.cast_pow, Int.cast_ofNat, ← zpow_natCast, ← zpow_add₀ (by norm_num), h]

theorem roundToPrecision_nonneg {q : ℚ} (h : 0 ≤ q) : 0 ≤ roundToPrecision q := by
  unfold roundToPrecision
  apply mul_nonneg _ (le_of_lt (two_zpow_pos _))
  have : (0 : ℤ) ≤ roundHalfEven (q / 2 ^ ulpExponent q) := by
    apply le_roundHalfEven_of_le
    push_cast
    exact div_nonneg h (le_of_lt (two_zpow_pos _))
  exact_mod_cast this

theorem roundToPrecision_nonpos {q : ℚ} (h : q ≤ 0) : roundToPrecision q ≤ 0 := by
  unfold roundToPrecision
  apply mul_nonpos_of_nonpos_of_nonneg _ (le_of_lt (two_zpow_pos _))
  have : roundHalfEven (q / 2 ^ ulpExponent q) ≤ (0 : ℤ) := by
    apply roundHalfEven_le_of_le
    push_cast
    exact div_nonpos_of_nonpos_of_nonneg h (le_of_lt (two_zpow_pos _))
  exact_mod_cast this

theorem log_le_self_pos {q : ℚ} (h : 0 < q) : (2 : ℚ) ^ Int.log 2 q ≤ q := by
  have := @Int.zpow_log_le_self ℚ _ _ 2 q (by norm_num) h
  simpa using this

theorem self_lt_log_succ (q : ℚ) : q < (2 : ℚ) ^ (Int.log 2 q + 1) := by
  have := @Int.lt_zpow_succ_log_self ℚ _ _ 2 (by norm_num) q
  simpa using this

/-- Rounding to precision is monotone on positive values. -/
theorem roundToPrecision_mono_pos {q1 q2 : ℚ} (h1 : 0 < q1) (h : q1 ≤ q2) :
    roundToPrecision q1 ≤ roundToPrecision q2 := by
  have h2 : 0 < q2 := lt_of_lt_of_le h1 h
  have he : Int.log 2 q1 ≤ Int.log 2 q2 := Int.log_mono_right h1 h
  have ht : ulpExponent q1 ≤ ulpExponent q2 := by
    unfold ulpExponent
    rw [abs_of_pos h1, abs_of_pos h2]
    omega
  rcases lt_or_eq_of_le ht with hlt | heq
  · -- different binades: a power of two lies between the two results
    have ht2 : ulpExponent q2 = Int.log 2 q2 - 52 := by
      unfold ulpExponent at hlt ⊢
      rw [abs_of_pos h1, abs_of_pos h2] at hlt
      rw [abs_of_pos h2]
      omega
    have ht1 : Int.log 2 q1 - 52 ≤ ulpExponent q1 := by
      unfold ulpExponent
      rw [abs_of_pos h1]
      omega
    have hmid2 : (2 : ℚ) ^ Int.log 2 q2 ≤ roundToPrecision q2 := by
      unfold roundToPrecision
      have hx : ((2 ^ 52 : ℤ) : ℚ) ≤ q2 / 2 ^ ulpExponent q2 := by
        rw [le_div_iff₀ (two_zpow_pos _)]
        rw [two_pow_mul_zpow 52 _ (Int.log 2 q2) (by omega)]
        exact log_le_self_pos h2
      have hr := le_roundHalfEven_of_le hx
      have hr2 : ((2 ^ 52 : ℤ) : ℚ) ≤ (roundHalfEven (q2 / 2 ^ ulpExponent q2) : ℚ) := by
        exact_mod_cast hr
      calc (2 : ℚ) ^ Int.log 2 q2
          = ((2 ^ 52 : ℤ) : ℚ) * 2 ^ ulpExponent q2 :=
            (two_pow_mul_zpow 52 _ (Int.log 2 q2) (by omega)).symm
        _ ≤ _ := mul_le_mul_of_nonneg_right hr2 (le_of_lt (two_zpow_pos _))
    have hmid1 : roundToPrecision q1 ≤ (2 : ℚ) ^ Int.log 2 q2 := by
      unfold roundToPrecision
      obtain ⟨k, hk⟩ : ∃ k : ℕ, (k : ℤ) = Int.log 2 q2 - ulpExponent q1 :=
        ⟨(Int.log 2 q2 - ulpExponent q1).toNat, by omega⟩
      have hpow : ((2 ^ k : ℤ) : ℚ) * 2 ^ ulpExponent q1 = 2 ^ Int.log 2 q2 :=
        two_pow_mul_zpow k _ _ (by omega)
      have hx : q1 / 2 ^ ulpExponent q1 ≤ ((2 ^ k : ℤ) : ℚ) := by
        rw [div_le_iff₀ (two_zpow_pos _), hpow]
        have hq1 : q1 < (2 : ℚ) ^ (Int.log 2 q1 + 1) := self_lt_log_succ q1
        have hle : (2 : ℚ) ^ (Int.log 2 q1 + 1) ≤ 2 ^ Int.log 2 q2 :=
          zpow_le_zpow_right₀ (by norm_num) (by omega)
        exact le_of_lt (lt_of_lt_of_le hq1 hle)
      have hr := roundHalfEven_le_of_le hx
      have hr2 : (roundHalfEven (q1 / 2 ^ ulpExponent q1) : ℚ) ≤ ((2 ^ k : ℤ) : ℚ) := by
        exact_mod_cast hr
      calc (roundHalfEven (q1 / 2 ^ ulpExponent q1) : ℚ) * 2 ^ ulpExponent q1
          ≤ ((2 ^ k : ℤ) : ℚ) * 2 ^ ulpExponent q1 :=
            mul_le_mul_of_nonneg_right hr2 (le_of_lt (two_zpow_pos _))
        _ = _ := hpow
    exact le_trans hmid1 hmid2
  · unfold roundToPrecision
    rw [heq]
    have hx : q1 / 2 ^ ulpExponent q2 ≤ q2 / 2 ^ ulpExponent q2 :=
      div_le_div_of_nonneg_right h (le_of_lt (two_zpow_pos _))
    have hr : (roundHalfEven (q1 / 2 ^ ulpExponent q2) : ℚ)
        ≤ (roundHalfEven (q2 / 2 ^ ulpExponent q2) : ℚ) := by
      exact_mod_cast roundHalfEven_mono hx
    exact mul_le_mul_of_nonneg_right hr (le_of_lt (two_zpow_pos _))

theorem roundHalfEven_of_tie {x : ℚ} {n : ℤ} (h : x - n = 1 / 2 ∨ (n : ℚ) - x = 1 / 2)
    (heven : n % 2 = 0) : roundHalfEven x = n := by
  unfold roundHalfEven
  rcases h with h | h
  · have hfl : ⌊x⌋ = n := by
      rw [Int.floor_eq_iff]
      constructor <;> linarith
    rw [hfl]
    have h1 : ¬ (x - n < 1 / 2) := by rw [h]; exact lt_irrefl _
    have h2 : ¬ (1 / 2 < x - n) := by rw [h]; exact lt_irrefl _
    rw [if_neg h1, if_neg h2, if_pos heven]
  · have hfl : ⌊x⌋ = n - 1 := by
      rw [Int.floor_eq_iff]
      push_cast
      constructor <;> linarith
    rw [hfl]
    have hx : x - ((n - 1 : ℤ) : ℚ) = 1 / 2 := by
      push_cast
      linarith
    have h1 : ¬ (x - ((n - 1 : ℤ) : ℚ) < 1 / 2) := by rw [hx]; exact lt_irrefl _
    have h2 : ¬ (1 / 2 < x - ((n - 1 : ℤ) : ℚ)) := by rw [hx]; exact lt_irrefl _
    have h3 : ¬ ((n - 1) % 2 = 0) := by omega
    rw [if_neg h1, if_neg h2, if_neg h3]
    omega

/-- The rounded integer is the nearest one, and the even one on a tie. -/
theorem roundHalfEven_spec (x : ℚ) :
    (x - roundHalfEven x < 1 / 2 ∧ (roundHalfEven x : ℚ) - x < 1 / 2) ∨
    ((x - roundHalfEven x = 1 / 2 ∨ (roundHalfEven x : ℚ) - x = 1 / 2) ∧
      roundHalfEven x % 2 = 0) := by
  have hfl1 : (⌊x⌋ : ℚ) ≤ x := Int.floor_le x
  have hfl2 : x < (⌊x⌋ : ℚ) + 1 := Int.lt_floor_add_one x
  unfold roundHalfEven
  by_cases h1 : x - ⌊x⌋ < 1 / 2
  · rw [if_pos h1]
    exact Or.inl ⟨h1, by linarith⟩
  · rw [if_neg h1]
    by_cases h2 : 1 / 2 < x - ⌊x⌋
    · rw [if_pos h2]
      left
      push_cast
      constructor <;> linarith
    · rw [if_neg h2]
      have heq : x - ⌊x⌋ = 1 / 2 := le_antisymm (not_lt.mp h2) (not_lt.mp h1)
      by_cases h3 : ⌊x⌋ % 2 = 0
      · rw [if_pos h3]
        exact Or.inr ⟨Or.inl heq, h3⟩
      · rw [if_neg h3]
        right
        refine ⟨Or.inr ?_, by omega⟩
        push_cast
        linarith

theorem roundHalfEven_neg (x : ℚ) : roundHalfEven (-x) = -roundHalfEven x := by
  rcases roundHalfEven_spec x with ⟨h1, h2⟩ | ⟨h, heven⟩
  · apply roundHalfEven_of_near
    · push_cast
      linarith
    · push_cast
      linarith
  · apply roundHalfEven_of_tie
    · push_cast
      rcases h with h | h
      · right; linarith
      · left; linarith
    · omega

theorem ulpExponent_neg (q : ℚ) : ulpExponent (-q) = ulpExponent q := by
  unfold ulpExponent
  rw [abs_neg]

theorem roundToPrecision_neg (q : ℚ) : roundToPrecision (-q) = -roundToPrecision q := by
  unfold roundToPrecision
  rw [ulpExponent_neg, neg_div, roundHalfEven_neg]
  push_cast
  ring

/-- Rounding to precision is monotone. -/
theorem roundToPrecision_mono {q1 q2 : ℚ} (h : q1 ≤ q2) :
    roundToPrecision q1 ≤ roundToPrecision q2 := by
  rcases lt_or_le 0 q1 with h1 | h1
  · exact roundToPrecision_mono_pos h1 h
  · rcases le_or_lt 0 q2 with h2 | h2
    · exact le_trans (roundToPrecision_nonpos h1) (roundToPrecision_nonneg h2)
    · have hpos : 0 < -q2 := by linarith
      have hle : -q2 ≤ -q1 := by linarith
      have := roundToPrecision_mono_pos hpos hle
      rw [roundToPrecision_neg, roundToPrecision_neg] at this
      linarith

/-! ## Go `float64`: order and arithmetic -/

theorem Float64.fin_le_fin {a b : ℚ} : Float64.fin a ≤ Float64.fin b ↔ a ≤ b := by
  show Float64.ble (Float64.fin a) (Float64.fin b) = true ↔ a ≤ b
  simp [Float64.ble]

theorem Float64.fin_lt_fin {a b : ℚ} : Float64.fin a < Float64.fin b ↔ a < b := by
  show Float64.blt (Float64.fin a) (Float64.fin b) = true ↔ a < b
  simp [Float64.blt]

theorem Float64.ofNat_eq (n : ℕ) [n.AtLeastTwo] :
    (OfNat.ofNat n : Float64) = Float64.fin (OfNat.ofNat n) := by
  show Float64.fin ((OfNat.ofNat n : ℕ) : ℚ) = _
  simp

theorem Float64.zero_eq : (0 : Float64) = Float64.fin 0 := by
  show Float64.fin ((0 : ℕ) : ℚ) = _
  simp

theorem Float64.le_def (a b : Float64) : a ≤ b ↔ Float64.ble a b = true := Iff.rfl

theorem Float64.lt_def (a b : Float64) : a < b ↔ Float64.blt a b = true := Iff.rfl

theorem float64_le_trans {a b c : Float64} (h1 : a ≤ b) (h2 : b ≤ c) : a ≤ c := by
  rw [Float64.le_def] at h1 h2 ⊢
  cases a <;> cases b <;> cases c <;> simp [Float64.ble] at h1 h2 ⊢
  exact le_trans h1 h2

theorem float64_le_of_lt {a b : Float64} (h : a < b) : a ≤ b := by
  rw [Float64.lt_def] at h
  rw [Float64.le_def]
  cases a <;> cases b <;> simp [Float64.blt, Float64.ble] at h ⊢
  exact le_of_lt h

theorem float64_le_antisymm {a b : Float64} (h1 : a ≤ b) (h2 : b ≤ a) : a = b := by
  rw [Float64.le_def] at h1 h2
  cases a <;> cases b <;> simp [Float64.ble] at h1 h2 ⊢
  exact le_antisymm h1 h2

/-- A value that compares with some value is not a NaN: it compares with itself. -/
theorem float64_le_refl_of_le {a b : Float64} (h : a ≤ b) : a ≤ a ∧ b ≤ b := by
  rw [Float64.le_def] at h
  simp only [Float64.le_def]
  cases a <;> cases b <;> simp [Float64.ble] at h ⊢

/-- On values that are not NaN the order is total. -/
theorem float64_le_of_not_lt {a b : Float64} (ha : a ≤ a) (hb : b ≤ b) (h : ¬ a < b) : b ≤ a := by
  rw [Float64.le_def] at ha hb
  rw [Float64.lt_def] at h
  rw [Float64.le_def]
  cases a <;> cases b <;> simp [Float64.ble, Float64.blt] at ha hb h ⊢
  exact h

theorem float64_not_lt_of_le {a b : Float64} (h : a ≤ b) : ¬ b < a := by
  rw [Float64.le_def] at h
  rw [Float64.lt_def]
  cases a <;> cases b <;> simp [Float64.ble, Float64.blt] at h ⊢
  exact h

theorem round64_ne_nan (q : ℚ) : round64 q ≠ Float64.nan := by
  unfold round64
  split_ifs <;> exact fun h => Float64.noConfusion h

theorem round64_nonneg {q : ℚ} (h : 0 ≤ q) : (0 : Float64) ≤ round64 q := by
  have hr := roundToPrecision_nonneg h
  rw [Float64.zero_eq]
  unfold round64
  split_ifs with h1 h2
  · decide
  · exfalso
    have : (0 : ℚ) < 2 ^ 1024 := by positivity
    linarith
  · exact Float64.fin_le_fin.mpr hr

/-- IEEE rounding is monotone. -/
theorem round64_mono {q1 q2 : ℚ} (h : q1 ≤ q2) : round64 q1 ≤ round64 q2 := by
  have hr := roundToPrecision_mono h
  have hpos : (0 : ℚ) < 2 ^ 1024 := by positivity
  unfold round64
  split_ifs <;>
    first
    | (exfalso; linarith)
    | exact Float64.fin_le_fin.mpr hr
    | (rw [Float64.le_def]; simp [Float64.ble])

/-- The product of two finite values is the rounded product. -/
theorem Float64.fin_mul_fin (a b : ℚ) : Float64.fin a * Float64.fin b = round64 (a * b) := rfl

/-- The sum of two finite values is the rounded sum. -/
theorem Float64.fin_add_fin (a b : ℚ) : Float64.fin a + Float64.fin b = round64 (a + b) := rfl

/-- A non-negative hourly price has a non-negative monthly price. -/
theorem float64_mul_730_nonneg {p : Float64} (h : (0 : Float64) ≤ p) : (0 : Float64) ≤ p * 730 := by
  rw [Float64.zero_eq] at h
  cases p with
  | nan => exact absurd h (by decide)
  | negInf => exact absurd h (by decide)
  | posInf =>
    rw [Float64.zero_eq, show (730 : Float64) = Float64.fin 730 from Float64.ofNat_eq 730]
    show Float64.fin 0 ≤ Float64.infTimes true 730
    unfold Float64.infTimes
    norm_num
    decide
  | fin q =>
    rw [show (730 : Float64) = Float64.fin 730 from Float64.ofNat_eq 730, Float64.fin_mul_fin]
    exact round64_nonneg (mul_nonneg (Float64.fin_le_fin.mp h) (by norm_num))

/-! ## Go `float64`: evaluating a rounding -/

theorem ulpExponent_of_bounds {q : ℚ} (e : ℤ) (hlo : (2 : ℚ) ^ e ≤ |q|)
    (hhi : |q| < (2 : ℚ) ^ (e + 1)) : ulpExponent q = max (e - 52) (-1074) := by
  have hpos : 0 < |q| := lt_of_lt_of_le (two_zpow_pos e) hlo
  have h1 : e ≤ Int.log 2 |q| := by
    apply (@Int.zpow_le_iff_le_log ℚ _ _ 2 (by norm_num) e |q| hpos).mp
    simpa using hlo
  have h2 : Int.log 2 |q| < e + 1 := by
    apply (@Int.lt_zpow_iff_log_lt ℚ _ _ 2 (by norm_num) (e + 1) |q| hpos).mp
    simpa using hhi
  unfold ulpExponent
  have : Int.log 2 |q| = e := by omega
  rw [this]

/-- A rounding read off a certificate: `q` lies in the binade of `2 ^ e`, `t` is the exponent
of the unit in the last place there, and `n` is `q / 2 ^ t` rounded to an integer. -/
theorem round64_eq_fin {q : ℚ} (e t n : ℤ) (r : ℚ) (hlo : (2 : ℚ) ^ e ≤ |q|)
    (hhi : |q| < (2 : ℚ) ^ (e + 1)) (ht : t = max (e - 52) (-1074))
    (hn : roundHalfEven (q / 2 ^ t) = n)
    (hr : r = n * 2 ^ t) (hmax : r < 2 ^ 1024) (hmin : -2 ^ 1024 < r) :
    round64 q = Float64.fin r := by
  have hu : ulpExponent q = t := by rw [ulpExponent_of_bounds e hlo hhi, ht]
  have hp : roundToPrecision q = r := by
    unfold roundToPrecision
    rw [hu, hn, hr]
  unfold round64
  rw [hp, if_neg (not_le.mpr hmax), if_neg (not_le.mpr hmin)]

theorem round64_zero : round64 0 = Float64.fin 0 := by
  unfold round64 roundToPrecision roundHalfEven
  norm_num


/-- A rounding that overflows, read off a certificate. -/
theorem round64_eq_posInf {q : ℚ} (e t n : ℤ) (hlo : (2 : ℚ) ^ e ≤ |q|)
    (hhi : |q| < (2 : ℚ) ^ (e + 1)) (ht : t = max (e - 52) (-1074))
    (hn : roundHalfEven (q / 2 ^ t) = n) (hge : (2 : ℚ) ^ 1024 ≤ n * 2 ^ t) :
    round64 q = Float64.posInf := by
  have hu : ulpExponent q = t := by rw [ulpExponent_of_bounds e hlo hhi, ht]
  have hp : roundToPrecision q = n * 2 ^ t := by
    unfold roundToPrecision
    rw [hu, hn]
  unfold round64
  rw [hp, if_pos hge]

/-! ## Go `float64`: the values of the samples

Each fact is one rounding, read off its certificate: the binade, the unit in the last place
and the rounded integer. -/

theorem Float64.ofInt32_eq (n : ℤ) : Float64.ofInt32 n = Float64.fin n := rfl

theorem float64_lit_0_1 :
    (0.1 : Float64) = Float64.fin (3602879701896397 / 2 ^ 55) := by
  show round64 (0.1 : ℚ) = _
  have h : (0.1 : ℚ) = 1 / 10 := by norm_num
  rw [h]
  exact round64_eq_fin (-4) (-56) 7205759403792794 _
    (by norm_num [abs_of_pos]) (by norm_num [abs_of_pos])
    (by decide) (roundHalfEven_of_near (by norm_num) (by norm_num))
    (by norm_num) (by norm_num) (by norm_num)

theorem float64_lit_0_2 :
    (0.2 : Float64) = Float64.fin (3602879701896397 / 2 ^ 54) := by
  show round64 (0.2 : ℚ) = _
  have h : (0.2 : ℚ) = 1 / 5 := by norm_num
  rw [h]
  exact round64_eq_fin (-3) (-55) 7205759403792794 _
    (by norm_num [abs_of_pos]) (by norm_num [abs_of_pos])
    (by decide) (roundHalfEven_of_near (by norm_num) (by norm_num))
    (by norm_num) (by norm_num) (by norm_num)

theorem float64_lit_0_3 :
    (0.3 : Float64) = Float64.fin (5404319552844595 / 2 ^ 54) := by
  show round64 (0.3 : ℚ) = _
  have h : (0.3 : ℚ) = 3 / 10 := by norm_num
  rw [h]
  exact round64_eq_fin (-2) (-54) 5404319552844595 _
    (by norm_num [abs_of_pos]) (by norm_num [abs_of_pos])
    (by decide) (roundHalfEven_of_near (by norm_num) (by norm_num))
    (by norm_num) (by norm_num) (by norm_num)

theorem float64_sum_0_1 :
    Float64.fin 0 + Float64.fin (3602879701896397 / 2 ^ 55)
      = Float64.fin (3602879701896397 / 2 ^ 55) := by
  rw [Float64.fin_add_fin]
  have h : ((0) + (3602879701896397 / 2 ^ 55) : ℚ)
      = 3602879701896397 / 2 ^ 55 := by norm_num
  rw [h]
  exact round64_eq_fin (-4) (-56) 7205759403792794 _
    (by norm_num [abs_of_pos]) (by norm_num [abs_of_pos])
    (by decide) (roundHalfEven_of_near (by norm_num) (by norm_num))
    (by norm_num) (by norm_num) (by norm_num)

theorem float64_sum_0_1_0_2 :
    Float64.fin (3602879701896397 / 2 ^ 55) + Float64.fin (3602879701896397 / 2 ^ 54)
      = Float64.fin (1351079888211149 / 2 ^ 52) := by
  rw [Float64.fin_add_fin]
  have h : ((3602879701896397 / 2 ^ 55) + (3602879701896397 / 2 ^ 54) : ℚ)
      = 10808639105689191 / 2 ^ 55 := by norm_num
  rw [h]
  exact round64_eq_fin (-2) (-54) 5404319552844596 _
    (by norm_num [abs_of_pos]) (by norm_num [abs_of_pos])
    (by decide) (roundHalfEven_of_tie (by norm_num) (by decide))
    (by norm_num) (by norm_num) (by norm_num)

theorem float64_sum_0_1_0_2_0_3 :
    Float64.fin (1351079888211149 / 2 ^ 52) + Float64.fin (5404319552844595 / 2 ^ 54)
      = Float64.fin (1351079888211149 / 2 ^ 51) := by
  rw [Float64.fin_add_fin]
  have h : ((1351079888211149 / 2 ^ 52) + (5404319552844595 / 2 ^ 54) : ℚ)
      = 10808639105689191 / 2 ^ 54 := by norm_num
  rw [h]
  exact round64_eq_fin (-1) (-53) 5404319552844596 _
    (by norm_num [abs_of_pos]) (by norm_num [abs_of_pos])
    (by decide) (roundHalfEven_of_tie (by norm_num) (by decide))
    (by norm_num) (by norm_num) (by norm_num)

theorem float64_sum_0_2 :
    Float64.fin 0 + Float64.fin (3602879701896397 / 2 ^ 54)
      = Float64.fin (3602879701896397 / 2 ^ 54) := by
  rw [Float64.fin_add_fin]
  have h : ((0) + (3602879701896397 / 2 ^ 54) : ℚ)
      = 3602879701896397 / 2 ^ 54 := by norm_num
  rw [h]
  exact round64_eq_fin (-3) (-55) 7205759403792794 _
    (by norm_num [abs_of_pos]) (by norm_num [abs_of_pos])
    (by decide) (roundHalfEven_of_near (by norm_num) (by norm_num))
    (by norm_num) (by norm_num) (by norm_num)

theorem float64_sum_0_2_0_3 :
    Float64.fin (3602879701896397 / 2 ^ 54) + Float64.fin (5404319552844595 / 2 ^ 54)
      = Float64.fin (1 / 2 ^ 1) := by
  rw [Float64.fin_add_fin]
  have h : ((3602879701896397 / 2 ^ 54) + (5404319552844595 / 2 ^ 54) : ℚ)
      = 1 / 2 ^ 1 := by norm_num
  rw [h]
  exact round64_eq_fin (-1) (-53) 4503599627370496 _
    (by norm_num [abs_of_pos]) (by norm_num [abs_of_pos])
    (by decide) (roundHalfEven_of_near (by norm_num) (by norm_num))
    (by norm_num) (by norm_num) (by norm_num)

theorem float64_sum_0_1_0_5 :
    Float64.fin (3602879701896397 / 2 ^ 55) + Float64.fin (1 / 2 ^ 1)
      = Float64.fin (5404319552844595 / 2 ^ 53) := by
  rw [Float64.fin_add_fin]
  have h : ((3602879701896397 / 2 ^ 55) + (1 / 2 ^ 1) : ℚ)
      = 21617278211378381 / 2 ^ 55 := by norm_num
  rw [h]
  exact round64_eq_fin (-1) (-53) 5404319552844595 _
    (by norm_num [abs_of_pos]) (by norm_num [abs_of_pos])
    (by decide) (roundHalfEven_of_near (by norm_num) (by norm_num))
    (by norm_num) (by norm_num) (by norm_num)

theorem float64_lit_0_02 :
    (0.02 : Float64) = Float64.fin (5764607523034235 / 2 ^ 58) := by
  show round64 (0.02 : ℚ) = _
  have h : (0.02 : ℚ) = 1 / 50 := by norm_num
  rw [h]
  exact round64_eq_fin (-6) (-58) 5764607523034235 _
    (by norm_num [abs_of_pos]) (by norm_num [abs_of_pos])
    (by decide) (roundHalfEven_of_near (by norm_num) (by norm_num))
    (by norm_num) (by norm_num) (by norm_num)

theorem float64_lit_14_6 :
    (14.6 : Float64) = Float64.fin (8219069319951155 / 2 ^ 49) := by
  show round64 (14.6 : ℚ) = _
  have h : (14.6 : ℚ) = 73 / 5 := by norm_num
  rw [h]
  exact round64_eq_fin 3 (-49) 8219069319951155 _
    (by norm_num [abs_of_pos]) (by norm_num [abs_of_pos])
    (by decide) (roundHalfEven_of_near (by norm_num) (by norm_num))
    (by norm_num) (by norm_num) (by norm_num)

theorem float64_lit_43_8 :
    (43.8 : Float64) = Float64.fin (3082150994981683 / 2 ^ 46) := by
  show round64 (43.8 : ℚ) = _
  have h : (43.8 : ℚ) = 219 / 5 := by norm_num
  rw [h]
  exact round64_eq_fin 5 (-47) 6164301989963366 _
    (by norm_num [abs_of_pos]) (by norm_num [abs_of_pos])
    (by decide) (roundHalfEven_of_near (by norm_num) (by norm_num))
    (by norm_num) (by norm_num) (by norm_num)

theorem float64_lit_1_1 :
    (1.1 : Float64) = Float64.fin (2476979795053773 / 2 ^ 51) := by
  show round64 (1.1 : ℚ) = _
  have h : (1.1 : ℚ) = 11 / 10 := by norm_num
  rw [h]
  exact round64_eq_fin 0 (-52) 4953959590107546 _
    (by norm_num [abs_of_pos]) (by norm_num [abs_of_pos])
    (by decide) (roundHalfEven_of_near (by norm_num) (by norm_num))
    (by norm_num) (by norm_num) (by norm_num)

theorem float64_lit_0_05 :
    (0.05 : Float64) = Float64.fin (3602879701896397 / 2 ^ 56) := by
  show round64 (0.05 : ℚ) = _
  have h : (0.05 : ℚ) = 1 / 20 := by norm_num
  rw [h]
  exact round64_eq_fin (-5) (-57) 7205759403792794 _
    (by norm_num [abs_of_pos]) (by norm_num [abs_of_pos])
    (by decide) (roundHalfEven_of_near (by norm_num) (by norm_num))
    (by norm_num) (by norm_num) (by norm_num)

theorem float64_lit_36_5 :
    (36.5 : Float64) = Float64.fin (73 / 2 ^ 1) := by
  show round64 (36.5 : ℚ) = _
  have h : (36.5 : ℚ) = 73 / 2 ^ 1 := by norm_num
  rw [h]
  exact round64_eq_fin 5 (-47) 5136918324969472 _
    (by norm_num [abs_of_pos]) (by norm_num [abs_of_pos])
    (by decide) (roundHalfEven_of_near (by norm_num) (by norm_num))
    (by norm_num) (by norm_num) (by norm_num)

theorem float64_monthly_0_02 :
    Float64.fin (5764607523034235 / 2 ^ 58) * Float64.fin 730
      = Float64.fin (8219069319951155 / 2 ^ 49) := by
  rw [Float64.fin_mul_fin]
  have h : ((5764607523034235 / 2 ^ 58) * (730) : ℚ)
      = 2104081745907495775 / 2 ^ 57 := by norm_num
  rw [h]
  exact round64_eq_fin 3 (-49) 8219069319951155 _
    (by norm_num [abs_of_pos]) (by norm_num [abs_of_pos])
    (by decide) (roundHalfEven_of_near (by norm_num) (by norm_num))
    (by norm_num) (by norm_num) (by norm_num)

theorem float64_monthly_0_02_times_1 :
    Float64.fin (8219069319951155 / 2 ^ 49) * Float64.fin 1
      = Float64.fin (8219069319951155 / 2 ^ 49) := by
  rw [Float64.fin_mul_fin]
  have h : ((8219069319951155 / 2 ^ 49) * (1) : ℚ)
      = 8219069319951155 / 2 ^ 49 := by norm_num
  rw [h]
  exact round64_eq_fin 3 (-49) 8219069319951155 _
    (by norm_num [abs_of_pos]) (by norm_num [abs_of_pos])
    (by decide) (roundHalfEven_of_near (by norm_num) (by norm_num))
    (by norm_num) (by norm_num) (by norm_num)

theorem float64_monthly_0_02_times_3 :
    Float64.fin (8219069319951155 / 2 ^ 49) * Float64.fin 3
      = Float64.fin (3082150994981683 / 2 ^ 46) := by
  rw [Float64.fin_mul_fin]
  have h : ((8219069319951155 / 2 ^ 49) * (3) : ℚ)
      = 24657207959853465 / 2 ^ 49 := by norm_num
  rw [h]
  exact round64_eq_fin 5 (-47) 6164301989963366 _
    (by norm_num [abs_of_pos]) (by norm_num [abs_of_pos])
    (by decide) (roundHalfEven_of_near (by norm_num) (by norm_num))
    (by norm_num) (by norm_num) (by norm_num)

theorem float64_monthly_1_1 :
    Float64.fin (2476979795053773 / 2 ^ 51) * Float64.fin 730
      = Float64.fin (7063262696833025 / 2 ^ 43) := by
  rw [Float64.fin_mul_fin]
  have h : ((2476979795053773 / 2 ^ 51) * (730) : ℚ)
      = 904097625194627145 / 2 ^ 50 := by norm_num
  rw [h]
  exact round64_eq_fin 9 (-43) 7063262696833025 _
    (by norm_num [abs_of_pos]) (by norm_num [abs_of_pos])
    (by decide) (roundHalfEven_of_near (by norm_num) (by norm_num))
    (by norm_num) (by norm_num) (by norm_num)

theorem float64_monthly_1_1_times_1 :
    Float64.fin (7063262696833025 / 2 ^ 43) * Float64.fin 1
      = Float64.fin (7063262696833025 / 2 ^ 43) := by
  rw [Float64.fin_mul_fin]
  have h : ((7063262696833025 / 2 ^ 43) * (1) : ℚ)
      = 7063262696833025 / 2 ^ 43 := by norm_num
  rw [h]
  exact round64_eq_fin 9 (-43) 7063262696833025 _
    (by norm_num [abs_of_pos]) (by norm_num [abs_of_pos])
    (by decide) (roundHalfEven_of_near (by norm_num) (by norm_num))
    (by norm_num) (by norm_num) (by norm_num)

theorem float64_monthly_1_1_times_3 :
    Float64.fin (7063262696833025 / 2 ^ 43) * Float64.fin 3
      = Float64.fin (5297447022624769 / 2 ^ 41) := by
  rw [Float64.fin_mul_fin]
  have h : ((7063262696833025 / 2 ^ 43) * (3) : ℚ)
      = 21189788090499075 / 2 ^ 43 := by norm_num
  rw [h]
  exact round64_eq_fin 11 (-41) 5297447022624769 _
    (by norm_num [abs_of_pos]) (by norm_num [abs_of_pos])
    (by decide) (roundHalfEven_of_near (by norm_num) (by norm_num))
    (by norm_num) (by norm_num) (by norm_num)

theorem float64_monthly_0_05 :
    Float64.fin (3602879701896397 / 2 ^ 56) * Float64.fin 730
      = Float64.fin (73 / 2 ^ 1) := by
  rw [Float64.fin_mul_fin]
  have h : ((3602879701896397 / 2 ^ 56) * (730) : ℚ)
      = 1315051091192184905 / 2 ^ 55 := by norm_num
  rw [h]
  exact round64_eq_fin 5 (-47) 5136918324969472 _
    (by norm_num [abs_of_pos]) (by norm_num [abs_of_pos])
    (by decide) (roundHalfEven_of_near (by norm_num) (by norm_num))
    (by norm_num) (by norm_num) (by norm_num)
theorem float64_14_6_times_2 :
    Float64.fin (8219069319951155 / 2 ^ 49) * Float64.fin 2
      = Float64.fin (8219069319951155 / 2 ^ 48) := by
  rw [Float64.fin_mul_fin]
  have h : ((8219069319951155 / 2 ^ 49) * (2) : ℚ)
      = 8219069319951155 / 2 ^ 48 := by norm_num
  rw [h]
  exact round64_eq_fin 4 (-48) 8219069319951155 _
    (by norm_num [abs_of_pos]) (by norm_num [abs_of_pos])
    (by decide) (roundHalfEven_of_near (by norm_num) (by norm_num))
    (by norm_num) (by norm_num) (by norm_num)

theorem float64_14_6_times_4 :
    Float64.fin (8219069319951155 / 2 ^ 49) * Float64.fin 4
      = Float64.fin (8219069319951155 / 2 ^ 47) := by
  rw [Float64.fin_mul_fin]
  have h : ((8219069319951155 / 2 ^ 49) * (4) : ℚ)
      = 8219069319951155 / 2 ^ 47 := by norm_num
  rw [h]
  exact round64_eq_fin 5 (-47) 8219069319951155 _
    (by norm_num [abs_of_pos]) (by norm_num [abs_of_pos])
    (by decide) (roundHalfEven_of_near (by norm_num) (by norm_num))
    (by norm_num) (by norm_num) (by norm_num)

theorem float64_14_6_times_7 :
    Float64.fin (8219069319951155 / 2 ^ 49) * Float64.fin 7
      = Float64.fin (7191685654957261 / 2 ^ 46) := by
  rw [Float64.fin_mul_fin]
  have h : ((8219069319951155 / 2 ^ 49) * (7) : ℚ)
      = 57533485239658085 / 2 ^ 49 := by norm_num
  rw [h]
  exact round64_eq_fin 6 (-46) 7191685654957261 _
    (by norm_num [abs_of_pos]) (by norm_num [abs_of_pos])
    (by decide) (roundHalfEven_of_near (by norm_num) (by norm_num))
    (by norm_num) (by norm_num) (by norm_num)

theorem float64_14_6_times_9 :
    Float64.fin (8219069319951155 / 2 ^ 49) * Float64.fin 9
      = Float64.fin (4623226492472525 / 2 ^ 45) := by
  rw [Float64.fin_mul_fin]
  have h : ((8219069319951155 / 2 ^ 49) * (9) : ℚ)
      = 73971623879560395 / 2 ^ 49 := by norm_num
  rw [h]
  exact round64_eq_fin 7 (-45) 4623226492472525 _
    (by norm_num [abs_of_pos]) (by norm_num [abs_of_pos])
    (by decide) (roundHalfEven_of_near (by norm_num) (by norm_num))
    (by norm_num) (by norm_num) (by norm_num)

theorem float64_sum_14_6 :
    Float64.fin 0 + Float64.fin (8219069319951155 / 2 ^ 49)
      = Float64.fin (8219069319951155 / 2 ^ 49) := by
  rw [Float64.fin_add_fin]
  have h : ((0) + (8219069319951155 / 2 ^ 49) : ℚ)
      = 8219069319951155 / 2 ^ 49 := by norm_num
  rw [h]
  exact round64_eq_fin 3 (-49) 8219069319951155 _
    (by norm_num [abs_of_pos]) (by norm_num [abs_of_pos])
    (by decide) (roundHalfEven_of_near (by norm_num) (by norm_num))
    (by norm_num) (by norm_num) (by norm_num)

theorem float64_sum_14_6_29_2 :
    Float64.fin (8219069319951155 / 2 ^ 49) + Float64.fin (8219069319951155 / 2 ^ 48)
      = Float64.fin (3082150994981683 / 2 ^ 46) := by
  rw [Float64.fin_add_fin]
  have h : ((8219069319951155 / 2 ^ 49) + (8219069319951155 / 2 ^ 48) : ℚ)
      = 24657207959853465 / 2 ^ 49 := by norm_num
  rw [h]
  exact round64_eq_fin 5 (-47) 6164301989963366 _
    (by norm_num [abs_of_pos]) (by norm_num [abs_of_pos])
    (by decide) (roundHalfEven_of_near (by norm_num) (by norm_num))
    (by norm_num) (by norm_num) (by norm_num)

theorem float64_sum_43_8_58_4 :
    Float64.fin (3082150994981683 / 2 ^ 46) + Float64.fin (8219069319951155 / 2 ^ 47)
      = Float64.fin (1797921413739315 / 2 ^ 44) := by
  rw [Float64.fin_add_fin]
  have h : ((3082150994981683 / 2 ^ 46) + (8219069319951155 / 2 ^ 47) : ℚ)
      = 14383371309914521 / 2 ^ 47 := by norm_num
  rw [h]
  exact round64_eq_fin 6 (-46) 7191685654957260 _
    (by norm_num [abs_of_pos]) (by norm_num [abs_of_pos])
    (by decide) (roundHalfEven_of_tie (by norm_num) (by decide))
    (by norm_num) (by norm_num) (by norm_num)

theorem float64_sum_102_2_102_2 :
    Float64.fin (1797921413739315 / 2 ^ 44) + Float64.fin (7191685654957261 / 2 ^ 46)
      = Float64.fin (1797921413739315 / 2 ^ 43) := by
  rw [Float64.fin_add_fin]
  have h : ((1797921413739315 / 2 ^ 44) + (7191685654957261 / 2 ^ 46) : ℚ)
      = 14383371309914521 / 2 ^ 46 := by norm_num
  rw [h]
  exact round64_eq_fin 7 (-45) 7191685654957260 _
    (by norm_num [abs_of_pos]) (by norm_num [abs_of_pos])
    (by decide) (roundHalfEven_of_tie (by norm_num) (by decide))
    (by norm_num) (by norm_num) (by norm_num)

theorem float64_sum_102_2_131_4 :
    Float64.fin (1797921413739315 / 2 ^ 44) + Float64.fin (4623226492472525 / 2 ^ 45)
      = Float64.fin (8219069319951155 / 2 ^ 45) := by
  rw [Float64.fin_add_fin]
  have h : ((1797921413739315 / 2 ^ 44) + (4623226492472525 / 2 ^ 45) : ℚ)
      = 8219069319951155 / 2 ^ 45 := by norm_num
  rw [h]
  exact round64_eq_fin 7 (-45) 8219069319951155 _
    (by norm_num [abs_of_pos]) (by norm_num [abs_of_pos])
    (by decide) (roundHalfEven_of_near (by norm_num) (by norm_num))
    (by norm_num) (by norm_num) (by norm_num)

theorem float64_sum_43_8 :
    Float64.fin 0 + Float64.fin (3082150994981683 / 2 ^ 46)
      = Float64.fin (3082150994981683 / 2 ^ 46) := by
  rw [Float64.fin_add_fin]
  have h : ((0) + (3082150994981683 / 2 ^ 46) : ℚ)
      = 3082150994981683 / 2 ^ 46 := by norm_num
  rw [h]
  exact round64_eq_fin 5 (-47) 6164301989963366 _
    (by norm_num [abs_of_pos]) (by norm_num [abs_of_pos])
    (by decide) (roundHalfEven_of_near (by norm_num) (by norm_num))
    (by norm_num) (by norm_num) (by norm_num)

theorem float64_sum_43_8_29_2 :
    Float64.fin (3082150994981683 / 2 ^ 46) + Float64.fin (8219069319951155 / 2 ^ 48)
      = Float64.fin 73 := by
  rw [Float64.fin_add_fin]
  have h : ((3082150994981683 / 2 ^ 46) + (8219069319951155 / 2 ^ 48) : ℚ)
      = 20547673299877887 / 2 ^ 48 := by norm_num
  rw [h]
  exact round64_eq_fin 6 (-46) 5136918324969472 _
    (by norm_num [abs_of_pos]) (by norm_num [abs_of_pos])
    (by decide) (roundHalfEven_of_near (by norm_num) (by norm_num))
    (by norm_num) (by norm_num) (by norm_num)

theorem float64_sum_43_8_0 :
    Float64.fin (3082150994981683 / 2 ^ 46) + Float64.fin 0
      = Float64.fin (3082150994981683 / 2 ^ 46) := by
  rw [Float64.fin_add_fin]
  have h : ((3082150994981683 / 2 ^ 46) + (0) : ℚ)
      = 3082150994981683 / 2 ^ 46 := by norm_num
  rw [h]
  exact round64_eq_fin 5 (-47) 6164301989963366 _
    (by norm_num [abs_of_pos]) (by norm_num [abs_of_pos])
    (by decide) (roundHalfEven_of_near (by norm_num) (by norm_num))
    (by norm_num) (by norm_num) (by norm_num)

theorem float64_sum_73_0 :
    Float64.fin 73 + Float64.fin 0
      = Float64.fin 73 := by
  rw [Float64.fin_add_fin]
  have h : ((73) + (0) : ℚ)
      = 73 := by norm_num
  rw [h]
  exact round64_eq_fin 6 (-46) 5136918324969472 _
    (by norm_num [abs_of_pos]) (by norm_num [abs_of_pos])
    (by decide) (roundHalfEven_of_near (by norm_num) (by norm_num))
    (by norm_num) (by norm_num) (by norm_num)

theorem float64_lit_1e306 :
    (1e306 : Float64) = Float64.fin (6413338752028713 * 2 ^ 964) := by
  show round64 (1e306 : ℚ) = _
  have h : (1e306 : ℚ) = 10 ^ 306 := by norm_num
  rw [h]
  exact round64_eq_fin 1016 964 6413338752028713 _
    (by norm_num [abs_of_pos]) (by norm_num [abs_of_pos])
    (by decide) (roundHalfEven_of_near (by norm_num) (by norm_num))
    (by norm_num) (by norm_num) (by norm_num)

theorem float64_monthly_1e306 :
    Float64.fin (6413338752028713 * 2 ^ 964) * Float64.fin 730 = Float64.posInf := by
  rw [Float64.fin_mul_fin]
  exact round64_eq_posInf 1026 974 4572009071270469
    (by norm_num [abs_of_pos]) (by norm_num [abs_of_pos])
    (by decide) (roundHalfEven_of_near (by norm_num) (by norm_num)) (by norm_num)

theorem float64_lit_0_01 :
    (0.01 : Float64) = Float64.fin (5764607523034235 / 2 ^ 59) := by
  show round64 (0.01 : ℚ) = _
  have h : (0.01 : ℚ) = 1 / 100 := by norm_num
  rw [h]
  exact round64_eq_fin (-7) (-59) 5764607523034235 _
    (by norm_num [abs_of_pos]) (by norm_num [abs_of_pos])
    (by decide) (roundHalfEven_of_near (by norm_num) (by norm_num))
    (by norm_num) (by norm_num) (by norm_num)

/-! ## The Go monad and the heap cells -/

@[simp] theorem go_pure {α : Type} (a : α) (w : World) :
    (Pure.pure a : Go α) w = (Outcome.ok a, w) := rfl

theorem go_bind {α β : Type} (x : Go α) (f : α → Go β) (w : World) :
    (x >>= f) w = match x w with
      | (Outcome.ok a, w1) => f a w1
      | (Outcome.panic, w1) => (Outcome.panic, w1) := rfl

theorem go_bind_ok {α β : Type} {x : Go α} {f : α → Go β} {w w1 : World} {a : α}
    (h : x w = (Outcome.ok a, w1)) : (x >>= f) w = f a w1 := by
  rw [go_bind, h]

theorem go_bind_panic {α β : Type} {x : Go α} {f : α → Go β} {w w1 : World}
    (h : x w = (Outcome.panic, w1)) : (x >>= f) w = (Outcome.panic, w1) := by
  rw [go_bind, h]

theorem cellAt_lt {α : Type} {cells : List α} {a : Nat} {c : α}
    (h : cellAt cells (some a) = some c) : a < cells.length :=
  (List.getElem?_eq_some_iff.mp h).1

theorem cellAt_isSome_iff {α : Type} {cells : List α} {p : Ptr} :
    (cellAt cells p).isSome ↔ ∃ a, p = some a ∧ a < cells.length := by
  cases p with
  | none => simp [cellAt]
  | some a =>
    simp only [cellAt, Option.some.injEq, exists_eq_left']
    constructor
    · intro h
      obtain ⟨c, hc⟩ := Option.isSome_iff_exists.mp h
      exact (List.getElem?_eq_some_iff.mp hc).1
    · intro h
      simp [List.getElem?_eq_getElem h]

theorem cellAt_setCell_self {α : Type} {cells : List α} {p : Ptr} {c : α} (v : α)
    (h : cellAt cells p = some c) : cellAt (setCell cells p v) p = some v := by
  cases p with
  | none => simp [cellAt] at h
  | some a => simp [cellAt, setCell, cellAt_lt h]

theorem cellAt_setCell_ne {α : Type} (cells : List α) {p q : Ptr} (v : α) (h : p ≠ q) :
    cellAt (setCell cells p v) q = cellAt cells q := by
  cases p with
  | none => rfl
  | some a =>
    cases q with
    | none => rfl
    | some b =>
      have hab : a ≠ b := fun hab => h (by rw [hab])
      simp [cellAt, setCell, List.getElem?_set, hab]

theorem setCell_setCell {α : Type} (cells : List α) (p : Ptr) (u v : α) :
    setCell (setCell cells p u) p v = setCell cells p v := by
  cases p with
  | none => rfl
  | some a => simp [setCell]

theorem setCell_cellAt {α : Type} {cells : List α} {p : Ptr} {c : α}
    (h : cellAt cells p = some c) : setCell cells p c = cells := by
  cases p with
  | none => rfl
  | some a =>
    simp only [cellAt] at h
    simp only [setCell]
    apply List.ext_getElem?
    intro i
    by_cases hi : a = i
    · subst hi
      obtain ⟨hlt, _⟩ := List.getElem?_eq_some_iff.mp h
      simp [hlt, h]
    · simp [List.getElem?_set, hi]

@[simp] theorem length_setCell {α : Type} (cells : List α) (p : Ptr) (v : α) :
    (setCell cells p v).length = cells.length := by
  cases p with
  | none => rfl
  | some a => simp [setCell]

theorem cellAt_append {α : Type} {cells : List α} {p : Ptr} {c : α} (more : List α)
    (h : cellAt cells p = some c) : cellAt (cells ++ more) p = some c := by
  cases p with
  | none => simp [cellAt] at h
  | some a =>
    simp only [cellAt] at h ⊢
    rw [List.getElem?_append_left (List.getElem?_eq_some_iff.mp h).1]
    exact h

theorem cellAt_append_fresh {α : Type} (cells more : List α) (i : Nat) :
    cellAt (cells ++ more) (some (cells.length + i)) = more[i]? := by
  simp [cellAt, List.getElem?_append_right]

@[simp] theorem World.writeEstimation_writeEstimation (w : World) (p : Ptr)
    (u v : CostEstimation) :
    (w.writeEstimation p u).writeEstimation p v = w.writeEstimation p v := by
  simp [World.writeEstimation, setCell_setCell]

@[simp] theorem World.writeEstimation_runtimeCosts (w : World) (p : Ptr) (v : CostEstimation) :
    (w.writeEstimation p v).runtimeCosts = w.runtimeCosts := rfl

@[simp] theorem World.writeEstimation_addonCosts (w : World) (p : Ptr) (v : CostEstimation) :
    (w.writeEstimation p v).addonCosts = w.addonCosts := rfl

@[simp] theorem World.writeEstimation_repositories (w : World) (p : Ptr) (v : CostEstimation) :
    (w.writeEstimation p v).repositories = w.repositories := rfl

@[simp] theorem World.writeEstimation_estimations (w : World) (p : Ptr) (v : CostEstimation) :
    (w.writeEstimation p v).estimations = setCell w.estimations p v := rfl

theorem World.cellAt_writeEstimation {w : World} {p : Ptr} {c : CostEstimation}
    (v : CostEstimation) (h : cellAt w.estimations p = some c) :
    cellAt (w.writeEstimation p v).estimations p = some v :=
  cellAt_setCell_self v h

theorem World.writeEstimation_self {w : World} {p : Ptr} {c : CostEstimation}
    (h : cellAt w.estimations p = some c) : w.writeEstimation p c = w := by
  simp [World.writeEstimation, setCell_cellAt h]

/-! ## Reading line items and contents -/

theorem readAll_cons_eq_some {α : Type} {cells : List α} {p : Ptr} {ps : List Ptr}
    {vs : List α} (h : readAll cells (p :: ps) = some vs) :
    ∃ v rest, vs = v :: rest ∧ cellAt cells p = some v ∧ readAll cells ps = some rest := by
  simp only [readAll] at h
  split at h
  · rename_i v rest hv hrest
    exact ⟨v, rest, by simpa using h.symm, hv, hrest⟩
  · exact Option.noConfusion h

theorem readAll_cons_of {α : Type} {cells : List α} {p : Ptr} {ps : List Ptr} {v : α}
    {vs : List α} (hv : cellAt cells p = some v) (hvs : readAll cells ps = some vs) :
    readAll cells (p :: ps) = some (v :: vs) := by
  simp [readAll, hv, hvs]

theorem readAll_append_of {α : Type} {cells : List α} :
    ∀ {ps qs : List Ptr} {vs us : List α}, readAll cells ps = some vs →
      readAll cells qs = some us → readAll cells (ps ++ qs) = some (vs ++ us) := by
  intro ps
  induction ps with
  | nil =>
    intro qs vs us hvs hus
    simp only [readAll, Option.some.injEq] at hvs
    subst hvs
    simpa using hus
  | cons p ps ih =>
    intro qs vs us hvs hus
    obtain ⟨v, rest, rfl, hv, hrest⟩ := readAll_cons_eq_some hvs
    exact readAll_cons_of hv (ih hrest hus)

theorem readAll_length {α : Type} {cells : List α} :
    ∀ {ps : List Ptr} {vs : List α}, readAll cells ps = some vs → vs.length = ps.length := by
  intro ps
  induction ps with
  | nil =>
    intro vs h
    simp only [readAll, Option.some.injEq] at h
    subst h
    rfl
  | cons p ps ih =>
    intro vs h
    obtain ⟨v, rest, rfl, _, hrest⟩ := readAll_cons_eq_some h
    simp [ih hrest]

theorem readAll_mem {α : Type} {cells : List α} :
    ∀ {ps : List Ptr} {vs : List α}, readAll cells ps = some vs →
      ∀ p ∈ ps, (cellAt cells p).isSome := by
  intro ps
  induction ps with
  | nil => intro vs _ p hp; simp at hp
  | cons q ps ih =>
    intro vs h p hp
    obtain ⟨v, rest, rfl, hv, hrest⟩ := readAll_cons_eq_some h
    rcases List.mem_cons.mp hp with rfl | hmem
    · simp [hv]
    · exact ih hrest p hmem

theorem readAll_congr {α : Type} {cells cells2 : List α} :
    ∀ {ps : List Ptr}, (∀ p ∈ ps, cellAt cells2 p = cellAt cells p) →
      readAll cells2 ps = readAll cells ps := by
  intro ps
  induction ps with
  | nil => intro _; rfl
  | cons q ps ih =>
    intro h
    simp only [readAll]
    rw [h q (List.mem_cons_self q ps), ih (fun p hp => h p (List.mem_cons_of_mem q hp))]

theorem readAll_append_cells {α : Type} {cells : List α} (more : List α) {ps : List Ptr}
    {vs : List α} (h : readAll cells ps = some vs) : readAll (cells ++ more) ps = some vs := by
  rw [← h]
  apply readAll_congr
  intro p hp
  obtain ⟨c, hc⟩ := Option.isSome_iff_exists.mp (readAll_mem h p hp)
  rw [hc]
  exact cellAt_append more hc

theorem content_eq_some_iff {w : World} {e : Ptr} {v : Content} :
    content w e = some v ↔
      ∃ c rcs acs, cellAt w.estimations e = some c ∧
        readAll w.runtimeCosts c.RuntimeCosts = some rcs ∧
        readAll w.addonCosts c.AddonCosts = some acs ∧
        v = { ID := c.ID, ProjectID := c.ProjectID, MinMonthlyCost := c.MinMonthlyCost,
              MaxMonthlyCost := c.MaxMonthlyCost, RuntimeCosts := rcs, AddonCosts := acs } := by
  unfold content
  constructor
  · intro h
    split at h
    · exact Option.noConfusion h
    · rename_i c hc
      split at h
      · rename_i rcs acs hr ha
        exact ⟨c, rcs, acs, hc, hr, ha, (Option.some.inj h).symm⟩
      · exact Option.noConfusion h
  · rintro ⟨c, rcs, acs, hc, hr, ha, rfl⟩
    simp [hc, hr, ha]

/-! ## The aggregate: totals -/

theorem sumFrom_nil (start : Float64) : sumFrom start [] = start := rfl

theorem sumFrom_cons (start x : Float64) (xs : List Float64) :
    sumFrom start (x :: xs) = sumFrom (start + x) xs := rfl

theorem sumFrom_append (start : Float64) (xs ys : List Float64) :
    sumFrom start (xs ++ ys) = sumFrom (sumFrom start xs) ys := by
  simp [sumFrom, List.foldl_append]

/-- The runtime loop of `recalculateTotals` adds the line items to the totals, one after the
other. -/
theorem recalculateTotals_runtimeLoop_eq (e : Ptr) :
    ∀ (ps : List Ptr) (w : World) (c : CostEstimation) (vs : List RuntimeCost),
      cellAt w.estimations e = some c → readAll w.runtimeCosts ps = some vs →
      CostEstimation.recalculateTotals.runtimeLoop e ps w
        = (Outcome.ok (), w.writeEstimation e
            { c with
              MinMonthlyCost := sumFrom c.MinMonthlyCost (vs.map RuntimeCost.MinCost),
              MaxMonthlyCost := sumFrom c.MaxMonthlyCost (vs.map RuntimeCost.MaxCost) }) := by
  intro ps
  induction ps with
  | nil =>
    intro w c vs hc hvs
    simp only [readAll, Option.some.injEq] at hvs
    subst hvs
    simp only [CostEstimation.recalculateTotals.runtimeLoop, List.map_nil, sumFrom_nil,
      World.writeEstimation_self hc]
    rfl
  | cons p ps ih =>
    intro w c vs hc hvs
    obtain ⟨v, rest, rfl, hv, hrest⟩ := readAll_cons_eq_some hvs
    simp only [CostEstimation.recalculateTotals.runtimeLoop, go_bind, derefRuntimeCost,
      modifyEstimation, hv, hc, World.cellAt_writeEstimation _ hc,
      World.writeEstimation_writeEstimation, World.writeEstimation_runtimeCosts]
    rw [ih _ _ rest (World.cellAt_writeEstimation _ hc) hrest]
    simp [sumFrom_cons]

/-- The addon loop of `recalculateTotals` adds the line items to both totals, one after the
other. -/
theorem recalculateTotals_addonLoop_eq (e : Ptr) :
    ∀ (ps : List Ptr) (w : World) (c : CostEstimation) (vs : List AddonCost),
      cellAt w.estimations e = some c → readAll w.addonCosts ps = some vs →
      CostEstimation.recalculateTotals.addonLoop e ps w
        = (Outcome.ok (), w.writeEstimation e
            { c with
              MinMonthlyCost := sumFrom c.MinMonthlyCost (vs.map AddonCost.Cost),
              MaxMonthlyCost := sumFrom c.MaxMonthlyCost (vs.map AddonCost.Cost) }) := by
  intro ps
  induction ps with
  | nil =>
    intro w c vs hc hvs
    simp only [readAll, Option.some.injEq] at hvs
    subst hvs
    simp only [CostEstimation.recalculateTotals.addonLoop, List.map_nil, sumFrom_nil,
      World.writeEstimation_self hc]
    rfl
  | cons p ps ih =>
    intro w c vs hc hvs
    obtain ⟨v, rest, rfl, hv, hrest⟩ := readAll_cons_eq_some hvs
    simp only [CostEstimation.recalculateTotals.addonLoop, go_bind, derefAddonCost,
      modifyEstimation, hv, hc, World.cellAt_writeEstimation _ hc,
      World.writeEstimation_writeEstimation, World.writeEstimation_addonCosts]
    rw [ih _ _ rest (World.cellAt_writeEstimation _ hc) hrest]
    simp [sumFrom_cons]

/-- What `recalculateTotals` leaves in the aggregate. -/
theorem recalculateTotals_eq {w : World} {e : Ptr} {c : CostEstimation}
    {rcs : List RuntimeCost} {acs : List AddonCost}
    (hc : cellAt w.estimations e = some c)
    (hr : readAll w.runtimeCosts c.RuntimeCosts = some rcs)
    (ha : readAll w.addonCosts c.AddonCosts = some acs) :
    CostEstimation.recalculateTotals e w
      = (Outcome.ok (), w.writeEstimation e
          { c with
            MinMonthlyCost :=
              sumFrom (sumFrom 0 (rcs.map RuntimeCost.MinCost)) (acs.map AddonCost.Cost),
            MaxMonthlyCost :=
              sumFrom (sumFrom 0 (rcs.map RuntimeCost.MaxCost)) (acs.map AddonCost.Cost) }) := by
  simp only [CostEstimation.recalculateTotals, go_bind, modifyEstimation, derefEstimation,
    hc, World.cellAt_writeEstimation _ hc, World.writeEstimation_writeEstimation]
  rw [recalculateTotals_runtimeLoop_eq e _ _ _ rcs (World.cellAt_writeEstimation _ hc) hr]
  simp only [World.cellAt_writeEstimation _ hc, World.writeEstimation_writeEstimation]
  rw [recalculateTotals_addonLoop_eq e _ _ _ acs (World.cellAt_writeEstimation _ hc) ha]
  simp

/-- What `AddRuntimeCost` leaves in the aggregate. -/
theorem AddRuntimeCost_eq {w : World} {e cost : Ptr} {c : CostEstimation}
    {rcs : List RuntimeCost} {acs : List AddonCost} {v : RuntimeCost}
    (hc : cellAt w.estimations e = some c)
    (hr : readAll w.runtimeCosts c.RuntimeCosts = some rcs)
    (ha : readAll w.addonCosts c.AddonCosts = some acs)
    (hv : cellAt w.runtimeCosts cost = some v) :
    CostEstimation.AddRuntimeCost e cost w
      = (Outcome.ok (), w.writeEstimation e
          { c with
            RuntimeCosts := c.RuntimeCosts ++ [cost],
            MinMonthlyCost :=
              sumFrom (sumFrom 0 ((rcs ++ [v]).map RuntimeCost.MinCost))
                (acs.map AddonCost.Cost),
            MaxMonthlyCost :=
              sumFrom (sumFrom 0 ((rcs ++ [v]).map RuntimeCost.MaxCost))
                (acs.map AddonCost.Cost) }) := by
  have hr2 : readAll w.runtimeCosts (c.RuntimeCosts ++ [cost]) = some (rcs ++ [v]) :=
    readAll_append_of hr (readAll_cons_of hv rfl)
  simp only [CostEstimation.AddRuntimeCost, go_bind, modifyEstimation, hc]
  have h := @recalculateTotals_eq _ _ _ (rcs ++ [v]) acs
    (World.cellAt_writeEstimation { c with RuntimeCosts := c.RuntimeCosts ++ [cost] } hc) hr2 ha
  rw [h]
  simp

/-- What `AddAddonCost` leaves in the aggregate. -/
theorem AddAddonCost_eq {w : World} {e cost : Ptr} {c : CostEstimation}
    {rcs : List RuntimeCost} {acs : List AddonCost} {v : AddonCost}
    (hc : cellAt w.estimations e = some c)
    (hr : readAll w.runtimeCosts c.RuntimeCosts = some rcs)
    (ha : readAll w.addonCosts c.AddonCosts = some acs)
    (hv : cellAt w.addonCosts cost = some v) :
    CostEstimation.AddAddonCost e cost w
      = (Outcome.ok (), w.writeEstimation e
          { c with
            AddonCosts := c.AddonCosts ++ [cost],
            MinMonthlyCost :=
              sumFrom (sumFrom 0 (rcs.map RuntimeCost.MinCost))
                ((acs ++ [v]).map AddonCost.Cost),
            MaxMonthlyCost :=
              sumFrom (sumFrom 0 (rcs.map RuntimeCost.MaxCost))
                ((acs ++ [v]).map AddonCost.Cost) }) := by
  have ha2 : readAll w.addonCosts (c.AddonCosts ++ [cost]) = some (acs ++ [v]) :=
    readAll_append_of ha (readAll_cons_of hv rfl)
  simp only [CostEstimation.AddAddonCost, go_bind, modifyEstimation, hc]
  have h := @recalculateTotals_eq _ _ _ rcs (acs ++ [v])
    (World.cellAt_writeEstimation { c with AddonCosts := c.AddonCosts ++ [cost] } hc) hr ha2
  rw [h]
  simp

theorem TotalRuntimeMinCost_loop_eq (w : World) :
    ∀ (ps : List Ptr) (total : Float64) (vs : List RuntimeCost),
      readAll w.runtimeCosts ps = some vs →
      CostEstimation.TotalRuntimeMinCost.loop total ps w
        = (Outcome.ok (sumFrom total (vs.map RuntimeCost.MinCost)), w) := by
  intro ps
  induction ps with
  | nil =>
    intro total vs h
    simp only [readAll, Option.some.injEq] at h
    subst h
    rfl
  | cons p ps ih =>
    intro total vs h
    obtain ⟨v, rest, rfl, hv, hrest⟩ := readAll_cons_eq_some h
    simp only [CostEstimation.TotalRuntimeMinCost.loop, go_bind, derefRuntimeCost, hv]
    rw [ih _ rest hrest]
    rfl

theorem TotalRuntimeMaxCost_loop_eq (w : World) :
    ∀ (ps : List Ptr) (total : Float64) (vs : List RuntimeCost),
      readAll w.runtimeCosts ps = some vs →
      CostEstimation.TotalRuntimeMaxCost.loop total ps w
        = (Outcome.ok (sumFrom total (vs.map RuntimeCost.MaxCost)), w) := by
  intro ps
  induction ps with
  | nil =>
    intro total vs h
    simp only [readAll, Option.some.injEq] at h
    subst h
    rfl
  | cons p ps ih =>
    intro total vs h
    obtain ⟨v, rest, rfl, hv, hrest⟩ := readAll_cons_eq_some h
    simp only [CostEstimation.TotalRuntimeMaxCost.loop, go_bind, derefRuntimeCost, hv]
    rw [ih _ rest hrest]
    rfl

theorem TotalAddonCost_loop_eq (w : World) :
    ∀ (ps : List Ptr) (total : Float64) (vs : List AddonCost),
      readAll w.addonCosts ps = some vs →
      CostEstimation.TotalAddonCost.loop total ps w
        = (Outcome.ok (sumFrom total (vs.map AddonCost.Cost)), w) := by
  intro ps
  induction ps with
  | nil =>
    intro total vs h
    simp only [readAll, Option.some.injEq] at h
    subst h
    rfl
  | cons p ps ih =>
    intro total vs h
    obtain ⟨v, rest, rfl, hv, hrest⟩ := readAll_cons_eq_some h
    simp only [CostEstimation.TotalAddonCost.loop, go_bind, derefAddonCost, hv]
    rw [ih _ rest hrest]
    rfl

/-- The three `Total...` methods return the `float64` sums accumulated from 0 over the line
items and change nothing. -/
theorem Total_eq {w : World} {e : Ptr} {v : Content} (h : content w e = some v) :
    CostEstimation.TotalRuntimeMinCost e w
        = (Outcome.ok (sumFrom 0 (v.RuntimeCosts.map RuntimeCost.MinCost)), w) ∧
      CostEstimation.TotalRuntimeMaxCost e w
        = (Outcome.ok (sumFrom 0 (v.RuntimeCosts.map RuntimeCost.MaxCost)), w) ∧
      CostEstimation.TotalAddonCost e w
        = (Outcome.ok (sumFrom 0 (v.AddonCosts.map AddonCost.Cost)), w) := by
  obtain ⟨c, rcs, acs, hc, hr, ha, rfl⟩ := content_eq_some_iff.mp h
  refine ⟨?_, ?_, ?_⟩
  · simp only [CostEstimation.TotalRuntimeMinCost, go_bind, derefEstimation, hc]
    rw [TotalRuntimeMinCost_loop_eq w _ _ rcs hr]
  · simp only [CostEstimation.TotalRuntimeMaxCost, go_bind, derefEstimation, hc]
    rw [TotalRuntimeMaxCost_loop_eq w _ _ rcs hr]
  · simp only [CostEstimation.TotalAddonCost, go_bind, derefEstimation, hc]
    rw [TotalAddonCost_loop_eq w _ _ acs ha]

theorem content_writeEstimation {w : World} {e : Ptr} {c c2 : CostEstimation}
    {rcs : List RuntimeCost} {acs : List AddonCost}
    (hc : cellAt w.estimations e = some c)
    (hr : readAll w.runtimeCosts c2.RuntimeCosts = some rcs)
    (ha : readAll w.addonCosts c2.AddonCosts = some acs) :
    content (w.writeEstimation e c2) e
      = some { ID := c2.ID, ProjectID := c2.ProjectID, MinMonthlyCost := c2.MinMonthlyCost,
               MaxMonthlyCost := c2.MaxMonthlyCost, RuntimeCosts := rcs, AddonCosts := acs } := by
  apply content_eq_some_iff.mpr
  exact ⟨c2, rcs, acs, World.cellAt_writeEstimation c2 hc, hr, ha, rfl⟩

/-- One mutation keeps the totals invariant and touches no line item. -/
theorem AddCall_run_totals {w : World} {e : Ptr} {call : AddCall}
    (h : TotalsHold w e) (hcall : call.NonNil w) :
    ∃ w1, call.run e w = (Outcome.ok (), w1) ∧ TotalsHold w1 e ∧
      w1.runtimeCosts = w.runtimeCosts ∧ w1.addonCosts = w.addonCosts := by
  obtain ⟨v, hv, _, _⟩ := h
  obtain ⟨c, rcs, acs, hc, hr, ha, rfl⟩ := content_eq_some_iff.mp hv
  cases call with
  | runtime cost =>
    obtain ⟨x, hx⟩ := Option.isSome_iff_exists.mp hcall
    refine ⟨_, AddRuntimeCost_eq hc hr ha hx, ⟨_, content_writeEstimation hc
      (readAll_append_of hr (readAll_cons_of hx rfl)) ha, rfl, rfl⟩, rfl, rfl⟩
  | addon cost =>
    obtain ⟨x, hx⟩ := Option.isSome_iff_exists.mp hcall
    refine ⟨_, AddAddonCost_eq hc hr ha hx, ⟨_, content_writeEstimation hc hr
      (readAll_append_of ha (readAll_cons_of hx rfl)), rfl, rfl⟩, rfl, rfl⟩

theorem AddCall.NonNil_congr {w w1 : World} {call : AddCall}
    (hr : w1.runtimeCosts = w.runtimeCosts) (ha : w1.addonCosts = w.addonCosts)
    (h : call.NonNil w) : call.NonNil w1 := by
  cases call with
  | runtime cost => simpa [AddCall.NonNil, hr] using h
  | addon cost => simpa [AddCall.NonNil, ha] using h

/-- A sequence of mutations keeps the totals invariant. -/
theorem runCalls_totals (e : Ptr) :
    ∀ (calls : List AddCall) (w : World), TotalsHold w e → (∀ call ∈ calls, call.NonNil w) →
      ∃ w1, runCalls e calls w = (Outcome.ok (), w1) ∧ TotalsHold w1 e := by
  intro calls
  induction calls with
  | nil =>
    intro w h _
    exact ⟨w, rfl, h⟩
  | cons call rest ih =>
    intro w h hcalls
    obtain ⟨w1, hrun, hinv, hr, ha⟩ :=
      AddCall_run_totals h (hcalls call (List.mem_cons_self call rest))
    obtain ⟨w2, hrest, hinv2⟩ := ih w1 hinv (fun x hx =>
      AddCall.NonNil_congr hr ha (hcalls x (List.mem_cons_of_mem call hx)))
    refine ⟨w2, ?_, hinv2⟩
    simp only [runCalls, go_bind, hrun]
    exact hrest

theorem NewCostEstimation_totals (w : World) (uuid projectID : String) :
    TotalsHold (w.pushEstimation
      { ID := uuid, ProjectID := projectID, MinMonthlyCost := 0, MaxMonthlyCost := 0,
        RuntimeCosts := [], AddonCosts := [] }) (some w.estimations.length) := by
  refine ⟨{ ID := uuid, ProjectID := projectID, MinMonthlyCost := 0, MaxMonthlyCost := 0,
            RuntimeCosts := [], AddonCosts := [] }, ?_, rfl, rfl⟩
  apply content_eq_some_iff.mpr
  refine ⟨{ ID := uuid, ProjectID := projectID, MinMonthlyCost := 0, MaxMonthlyCost := 0,
            RuntimeCosts := [], AddonCosts := [] }, [], [], ?_, rfl, rfl, rfl⟩
  simp [World.pushEstimation, cellAt]

/-- C1, amended. Totals invariant in `float64`: starting from `NewCostEstimation(p)`, after
every initial segment (`calls.take n`, for every `n`) of any finite sequence of
`AddRuntimeCost` / `AddAddonCost` calls with non-nil line items, the calls have returned,
every line item can be read, and `MinMonthlyCost` is the `float64` sum accumulated from 0
over `MinCost` of `RuntimeCosts`, in order, and then over `Cost` of `AddonCosts`, in order,
each addition rounded; `MaxMonthlyCost` likewise with `MaxCost`; `TotalRuntimeMinCost()`,
`TotalRuntimeMaxCost()` and `TotalAddonCost()` return the `float64` sum accumulated from 0
over their own list and change nothing; and when the aggregate has no addon line item the
stored totals are what `TotalRuntimeMinCost()` and `TotalRuntimeMaxCost()` return. -/
theorem totals_invariant_after_every_call (w : World) (uuid projectID : String)
    (calls : List AddCall) (hcalls : ∀ call ∈ calls, call.NonNil w) (n : Nat) :
    ∃ e w0 w1 v,
      NewCostEstimation uuid projectID w = (Outcome.ok e, w0) ∧
      runCalls e (calls.take n) w0 = (Outcome.ok (), w1) ∧
      content w1 e = some v ∧
      v.MinMonthlyCost
        = sumFrom (sumFrom 0 (v.RuntimeCosts.map RuntimeCost.MinCost))
            (v.AddonCosts.map AddonCost.Cost) ∧
      v.MaxMonthlyCost
        = sumFrom (sumFrom 0 (v.RuntimeCosts.map RuntimeCost.MaxCost))
            (v.AddonCosts.map AddonCost.Cost) ∧
      CostEstimation.TotalRuntimeMinCost e w1
        = (Outcome.ok (sumFrom 0 (v.RuntimeCosts.map RuntimeCost.MinCost)), w1) ∧
      CostEstimation.TotalRuntimeMaxCost e w1
        = (Outcome.ok (sumFrom 0 (v.RuntimeCosts.map RuntimeCost.MaxCost)), w1) ∧
      CostEstimation.TotalAddonCost e w1
        = (Outcome.ok (sumFrom 0 (v.AddonCosts.map AddonCost.Cost)), w1) ∧
      (v.AddonCosts = [] →
        v.MinMonthlyCost = sumFrom 0 (v.RuntimeCosts.map RuntimeCost.MinCost) ∧
        v.MaxMonthlyCost = sumFrom 0 (v.RuntimeCosts.map RuntimeCost.MaxCost)) := by
  have hvalid : ∀ call ∈ calls.take n, call.NonNil (w.pushEstimation
      { ID := uuid, ProjectID := projectID, MinMonthlyCost := 0, MaxMonthlyCost := 0,
        RuntimeCosts := [], AddonCosts := [] }) := fun call hmem =>
    AddCall.NonNil_congr rfl rfl (hcalls call (List.mem_of_mem_take hmem))
  obtain ⟨w1, hrun, v, hv, hmin, hmax⟩ :=
    runCalls_totals _ _ _ (NewCostEstimation_totals w uuid projectID) hvalid
  obtain ⟨h1, h2, h3⟩ := Total_eq hv
  refine ⟨_, _, w1, v, rfl, hrun, hv, hmin, hmax, h1, h2, h3, ?_⟩
  intro hnil
  rw [hmin, hmax, hnil]
  exact ⟨rfl, rfl⟩

/-- C1, amended, at a concrete input: one runtime line item then one addon line item. -/
theorem totals_invariant_after_every_call_witness :
    (∀ call ∈ [AddCall.runtime (some 0), AddCall.addon (some 0)],
      call.NonNil
        { estimations := [], runtimeCosts := [⟨"XS-pico", "XS (pico)", 14.6, 43.8⟩],
          addonCosts := [⟨"redis-s", "redis (s)", 0⟩], repositories := [] }) ∧
    ∃ e w0 w1 v,
      NewCostEstimation "id" "project"
        { estimations := [], runtimeCosts := [⟨"XS-pico", "XS (pico)", 14.6, 43.8⟩],
          addonCosts := [⟨"redis-s", "redis (s)", 0⟩], repositories := [] } = (Outcome.ok e, w0) ∧
      runCalls e ([AddCall.runtime (some 0), AddCall.addon (some 0)].take 2) w0
        = (Outcome.ok (), w1) ∧
      content w1 e = some v ∧
      v.MinMonthlyCost
        = sumFrom (sumFrom 0 (v.RuntimeCosts.map RuntimeCost.MinCost))
            (v.AddonCosts.map AddonCost.Cost) ∧
      v.MaxMonthlyCost
        = sumFrom (sumFrom 0 (v.RuntimeCosts.map RuntimeCost.MaxCost))
            (v.AddonCosts.map AddonCost.Cost) ∧
      CostEstimation.TotalRuntimeMinCost e w1
        = (Outcome.ok (sumFrom 0 (v.RuntimeCosts.map RuntimeCost.MinCost)), w1) ∧
      CostEstimation.TotalRuntimeMaxCost e w1
        = (Outcome.ok (sumFrom 0 (v.RuntimeCosts.map RuntimeCost.MaxCost)), w1) ∧
      CostEstimation.TotalAddonCost e w1
        = (Outcome.ok (sumFrom 0 (v.AddonCosts.map AddonCost.Cost)), w1) ∧
      (v.AddonCosts = [] →
        v.MinMonthlyCost = sumFrom 0 (v.RuntimeCosts.map RuntimeCost.MinCost) ∧
        v.MaxMonthlyCost = sumFrom 0 (v.RuntimeCosts.map RuntimeCost.MaxCost)) :=
  ⟨by simp [AddCall.NonNil, cellAt],
    totals_invariant_after_every_call _ "id" "project" _ (by simp [AddCall.NonNil, cellAt]) 2⟩

/-! ## The store: `deepCopy` -/

theorem deepCopy_runtimeLoop_eq (k : Nat) :
    ∀ (ps : List Ptr) (w : World) (cc : CostEstimation) (done : List Ptr) (i : Nat)
      (vs : List RuntimeCost),
      cellAt w.estimations (some k) = some cc →
      cc.RuntimeCosts = done ++ List.replicate ps.length none → done.length = i →
      readAll w.runtimeCosts ps = some vs →
      MemoryRepository.deepCopy.runtimeLoop (some k) i ps w
        = (Outcome.ok (),
            { estimations := setCell w.estimations (some k)
                { cc with
                  RuntimeCosts := done ++ (List.range' w.runtimeCosts.length ps.length).map some },
              runtimeCosts := w.runtimeCosts ++ vs,
              addonCosts := w.addonCosts,
              repositories := w.repositories }) := by
  intro ps
  induction ps with
  | nil =>
    intro w cc done i vs hcc hl hi hvs
    simp only [readAll, Option.some.injEq] at hvs
    subst hvs
    simp only [List.length_nil, List.replicate_zero, List.append_nil] at hl
    simp only [MemoryRepository.deepCopy.runtimeLoop, go_pure, List.length_nil, List.range'_zero,
      List.map_nil, List.append_nil, ← hl, setCell_cellAt hcc]
  | cons p ps ih =>
    intro w cc done i vs hcc hl hi hvs
    obtain ⟨v, rest, rfl, hv, hrest⟩ := readAll_cons_eq_some hvs
    have hcc2 : cellAt (w.pushRuntimeCost v).estimations (some k) = some cc := hcc
    have hset : cc.RuntimeCosts.set i (some w.runtimeCosts.length)
        = (done ++ [some w.runtimeCosts.length]) ++ List.replicate ps.length none := by
      rw [hl, ← hi]
      simp [List.replicate_succ]
    simp only [MemoryRepository.deepCopy.runtimeLoop, go_bind, derefRuntimeCost, hv,
      allocRuntimeCost, modifyEstimation, hcc2, hset]
    have hcc3 : cellAt ((w.pushRuntimeCost v).writeEstimation (some k)
        { cc with RuntimeCosts := (done ++ [some w.runtimeCosts.length])
            ++ List.replicate ps.length none }).estimations (some k)
          = some { cc with RuntimeCosts := (done ++ [some w.runtimeCosts.length])
            ++ List.replicate ps.length none } :=
      World.cellAt_writeEstimation _ hcc2
    have hrest2 : readAll ((w.pushRuntimeCost v).writeEstimation (some k)
        { cc with RuntimeCosts := (done ++ [some w.runtimeCosts.length])
            ++ List.replicate ps.length none }).runtimeCosts ps = some rest :=
      readAll_append_cells [v] hrest
    rw [ih _ _ (done ++ [some w.runtimeCosts.length]) (i + 1) rest hcc3 rfl (by simp [hi]) hrest2]
    simp [World.pushRuntimeCost, setCell_setCell, List.range'_succ]

theorem deepCopy_addonLoop_eq (k : Nat) :
    ∀ (ps : List Ptr) (w : World) (cc : CostEstimation) (done : List Ptr) (i : Nat)
      (vs : List AddonCost),
      cellAt w.estimations (some k) = some cc →
      cc.AddonCosts = done ++ List.replicate ps.length none → done.length = i →
      readAll w.addonCosts ps = some vs →
      MemoryRepository.deepCopy.addonLoop (some k) i ps w
        = (Outcome.ok (),
            { estimations := setCell w.estimations (some k)
                { cc with
                  AddonCosts := done ++ (List.range' w.addonCosts.length ps.length).map some },
              runtimeCosts := w.runtimeCosts,
              addonCosts := w.addonCosts ++ vs,
              repositories := w.repositories }) := by
  intro ps
  induction ps with
  | nil =>
    intro w cc done i vs hcc hl hi hvs
    simp only [readAll, Option.some.injEq] at hvs
    subst hvs
    simp only [List.length_nil, List.replicate_zero, List.append_nil] at hl
    simp only [MemoryRepository.deepCopy.addonLoop, go_pure, List.length_nil, List.range'_zero,
      List.map_nil, List.append_nil, ← hl, setCell_cellAt hcc]
  | cons p ps ih =>
    intro w cc done i vs hcc hl hi hvs
    obtain ⟨v, rest, rfl, hv, hrest⟩ := readAll_cons_eq_some hvs
    have hcc2 : cellAt (w.pushAddonCost v).estimations (some k) = some cc := hcc
    have hset : cc.AddonCosts.set i (some w.addonCosts.length)
        = (done ++ [some w.addonCosts.length]) ++ List.replicate ps.length none := by
      rw [hl, ← hi]
      simp [List.replicate_succ]
    simp only [MemoryRepository.deepCopy.addonLoop, go_bind, derefAddonCost, hv,
      allocAddonCost, modifyEstimation, hcc2, hset]
    have hcc3 : cellAt ((w.pushAddonCost v).writeEstimation (some k)
        { cc with AddonCosts := (done ++ [some w.addonCosts.length])
            ++ List.replicate ps.length none }).estimations (some k)
          = some { cc with AddonCosts := (done ++ [some w.addonCosts.length])
            ++ List.replicate ps.length none } :=
      World.cellAt_writeEstimation _ hcc2
    have hrest2 : readAll ((w.pushAddonCost v).writeEstimation (some k)
        { cc with AddonCosts := (done ++ [some w.addonCosts.length])
            ++ List.replicate ps.length none }).addonCosts ps = some rest :=
      readAll_append_cells [v] hrest
    rw [ih _ _ (done ++ [some w.addonCosts.length]) (i + 1) rest hcc3 rfl (by simp [hi]) hrest2]
    simp [World.pushAddonCost, setCell_setCell, List.range'_succ]

/-- What `deepCopy` does on an aggregate whose line items can all be read: it returns the next
free address, and leaves the world with the copies appended. -/
theorem deepCopy_eq {w : World} {a : Nat} {c : CostEstimation} {rcs : List RuntimeCost}
    {acs : List AddonCost} (hc : cellAt w.estimations (some a) = some c)
    (hr : readAll w.runtimeCosts c.RuntimeCosts = some rcs)
    (ha : readAll w.addonCosts c.AddonCosts = some acs) :
    MemoryRepository.deepCopy (some a) w
      = (Outcome.ok (some w.estimations.length), w.withCopy c rcs acs) := by
  have hc1 : cellAt (w.pushEstimation
      { ID := c.ID, ProjectID := c.ProjectID, MinMonthlyCost := c.MinMonthlyCost,
        MaxMonthlyCost := c.MaxMonthlyCost,
        RuntimeCosts := List.replicate c.RuntimeCosts.length none,
        AddonCosts := List.replicate c.AddonCosts.length none }).estimations (some a) = some c :=
    cellAt_append _ hc
  have hlt : a < w.estimations.length := cellAt_lt hc
  have hne : (some w.estimations.length : Ptr) ≠ some a := by
    intro h
    have := Option.some.inj h
    omega
  have hk1 : cellAt (w.pushEstimation
      { ID := c.ID, ProjectID := c.ProjectID, MinMonthlyCost := c.MinMonthlyCost,
        MaxMonthlyCost := c.MaxMonthlyCost,
        RuntimeCosts := List.replicate c.RuntimeCosts.length none,
        AddonCosts := List.replicate c.AddonCosts.length none }).estimations
        (some w.estimations.length)
      = some { ID := c.ID, ProjectID := c.ProjectID, MinMonthlyCost := c.MinMonthlyCost,
               MaxMonthlyCost := c.MaxMonthlyCost,
               RuntimeCosts := List.replicate c.RuntimeCosts.length none,
               AddonCosts := List.replicate c.AddonCosts.length none } := by
    simp [World.pushEstimation, cellAt]
  simp only [MemoryRepository.deepCopy, go_bind, derefEstimation, hc, allocEstimation, hc1]
  rw [deepCopy_runtimeLoop_eq _ _ _ _ [] 0 rcs hk1 (by simp) rfl hr]
  simp only [cellAt_setCell_ne _ _ hne, hc1, List.nil_append]
  rw [deepCopy_addonLoop_eq _ _ _ _ [] 0 acs]
  rotate_left
  · exact cellAt_setCell_self _ hk1
  · simp
  · rfl
  · exact ha
  simp [World.withCopy, copyStruct, World.pushEstimation, setCell_setCell, setCell]

theorem deepCopy_nil (w : World) : MemoryRepository.deepCopy none w = (Outcome.ok none, w) := rfl

@[simp] theorem World.withCopy_repositories (w : World) (c : CostEstimation)
    (rcs : List RuntimeCost) (acs : List AddonCost) :
    (w.withCopy c rcs acs).repositories = w.repositories := rfl

@[simp] theorem World.withCopy_estimations (w : World) (c : CostEstimation)
    (rcs : List RuntimeCost) (acs : List AddonCost) :
    (w.withCopy c rcs acs).estimations = w.estimations ++ [copyStruct w c] := rfl

@[simp] theorem World.withCopy_runtimeCosts (w : World) (c : CostEstimation)
    (rcs : List RuntimeCost) (acs : List AddonCost) :
    (w.withCopy c rcs acs).runtimeCosts = w.runtimeCosts ++ rcs := rfl

@[simp] theorem World.withCopy_addonCosts (w : World) (c : CostEstimation)
    (rcs : List RuntimeCost) (acs : List AddonCost) :
    (w.withCopy c rcs acs).addonCosts = w.addonCosts ++ acs := rfl

@[simp] theorem World.writeRepository_estimations (w : World) (p : Ptr) (m : MemoryRepository) :
    (w.writeRepository p m).estimations = w.estimations := rfl

@[simp] theorem World.writeRepository_runtimeCosts (w : World) (p : Ptr) (m : MemoryRepository) :
    (w.writeRepository p m).runtimeCosts = w.runtimeCosts := rfl

@[simp] theorem World.writeRepository_addonCosts (w : World) (p : Ptr) (m : MemoryRepository) :
    (w.writeRepository p m).addonCosts = w.addonCosts := rfl

@[simp] theorem World.writeRepository_repositories (w : World) (p : Ptr) (m : MemoryRepository) :
    (w.writeRepository p m).repositories = setCell w.repositories p m := rfl

theorem World.cellAt_writeRepository {w : World} {p : Ptr} {m : MemoryRepository}
    (m2 : MemoryRepository) (h : cellAt w.repositories p = some m) :
    cellAt (w.writeRepository p m2).repositories p = some m2 :=
  cellAt_setCell_self m2 h

theorem World.writeRepository_self {w : World} {p : Ptr} {m : MemoryRepository}
    (h : cellAt w.repositories p = some m) : w.writeRepository p m = w := by
  simp [World.writeRepository, setCell_cellAt h]

/-- The content of an aggregate depends only on its own cell and on the cells of its line
items. -/
theorem content_congr {w1 w2 : World} {p : Ptr}
    (he : cellAt w2.estimations p = cellAt w1.estimations p)
    (hitems : ∀ c, cellAt w1.estimations p = some c →
      (∀ q ∈ c.RuntimeCosts, cellAt w2.runtimeCosts q = cellAt w1.runtimeCosts q) ∧
      (∀ q ∈ c.AddonCosts, cellAt w2.addonCosts q = cellAt w1.addonCosts q)) :
    content w2 p = content w1 p := by
  unfold content
  rw [he]
  cases hc : cellAt w1.estimations p with
  | none => rfl
  | some c =>
    simp only
    rw [readAll_congr (hitems c hc).1, readAll_congr (hitems c hc).2]

/-- Lists of cells that only grew: every cell that could be read can still be read, with the
same value. -/
theorem content_of_append {w w2 : World} {p : Ptr} {v : Content}
    (he : ∃ l, w2.estimations = w.estimations ++ l)
    (hr : ∃ l, w2.runtimeCosts = w.runtimeCosts ++ l)
    (ha : ∃ l, w2.addonCosts = w.addonCosts ++ l)
    (h : content w p = some v) : content w2 p = some v := by
  obtain ⟨c, rcs, acs, hc, hrc, hac, rfl⟩ := content_eq_some_iff.mp h
  obtain ⟨l1, h1⟩ := he
  obtain ⟨l2, h2⟩ := hr
  obtain ⟨l3, h3⟩ := ha
  apply content_eq_some_iff.mpr
  refine ⟨c, rcs, acs, ?_, ?_, ?_, rfl⟩
  · rw [h1]; exact cellAt_append l1 hc
  · rw [h2]; exact readAll_append_cells l2 hrc
  · rw [h3]; exact readAll_append_cells l3 hac

theorem content_withCopy {w : World} {p : Ptr} {v : Content} (c : CostEstimation)
    (rcs : List RuntimeCost) (acs : List AddonCost) (h : content w p = some v) :
    content (w.withCopy c rcs acs) p = some v :=
  content_of_append ⟨_, rfl⟩ ⟨_, rfl⟩ ⟨_, rfl⟩ h

theorem content_writeRepository (w : World) (r : Ptr) (m : MemoryRepository) (p : Ptr) :
    content (w.writeRepository r m) p = content w p := rfl

theorem readAll_fresh {α : Type} :
    ∀ (more cells : List α),
      readAll (cells ++ more) ((List.range' cells.length more.length).map some) = some more := by
  intro more
  induction more with
  | nil => intro cells; rfl
  | cons v rest ih =>
    intro cells
    have h := ih (cells ++ [v])
    simp only [List.append_assoc, List.singleton_append, List.length_append,
      List.length_singleton] at h
    simp only [List.length_cons, List.range'_succ, List.map_cons]
    apply readAll_cons_of _ h
    have := cellAt_append_fresh cells (v :: rest) 0
    simpa using this

/-- The copy `deepCopy` allocates has the content of the original. -/
theorem content_copy {w : World} {c : CostEstimation} {rcs : List RuntimeCost}
    {acs : List AddonCost} (hr : readAll w.runtimeCosts c.RuntimeCosts = some rcs)
    (ha : readAll w.addonCosts c.AddonCosts = some acs) :
    content (w.withCopy c rcs acs) (some w.estimations.length)
      = some { ID := c.ID, ProjectID := c.ProjectID, MinMonthlyCost := c.MinMonthlyCost,
               MaxMonthlyCost := c.MaxMonthlyCost, RuntimeCosts := rcs, AddonCosts := acs } := by
  apply content_eq_some_iff.mpr
  refine ⟨copyStruct w c, rcs, acs, by simp [cellAt], ?_, ?_, rfl⟩
  · have h := readAll_fresh rcs w.runtimeCosts
    rw [readAll_length hr] at h
    exact h
  · have h := readAll_fresh acs w.addonCosts
    rw [readAll_length ha] at h
    exact h

/-! ## Go maps -/

theorem GoMap.lookup_insert_self {β : Type} (m : List (String × β)) (k : String) (v : β) :
    GoMap.lookup (GoMap.insert m k v) k = some v := by
  induction m with
  | nil => simp [GoMap.insert, GoMap.lookup]
  | cons kv rest ih =>
    obtain ⟨k1, v1⟩ := kv
    by_cases h : k1 = k
    · simp [GoMap.insert, GoMap.lookup, h]
    · simp [GoMap.insert, GoMap.lookup, h, ih]

theorem GoMap.lookup_insert_ne {β : Type} (m : List (String × β)) {k j : String} (v : β)
    (hne : j ≠ k) : GoMap.lookup (GoMap.insert m k v) j = GoMap.lookup m j := by
  induction m with
  | nil => simp [GoMap.insert, GoMap.lookup, Ne.symm hne]
  | cons kv rest ih =>
    obtain ⟨k1, v1⟩ := kv
    by_cases h : k1 = k
    · subst h
      simp [GoMap.insert, GoMap.lookup, Ne.symm hne]
    · by_cases h2 : k1 = j
      · subst h2
        simp [GoMap.insert, GoMap.lookup, h]
      · simp [GoMap.insert, GoMap.lookup, h, h2, ih]

theorem GoMap.lookup_delete_self {β : Type} (m : List (String × β)) (k : String) :
    GoMap.lookup (GoMap.delete m k) k = none := by
  induction m with
  | nil => rfl
  | cons kv rest ih =>
    obtain ⟨k1, v1⟩ := kv
    by_cases h : k1 = k
    · simpa [GoMap.delete, h] using ih
    · simpa [GoMap.delete, GoMap.lookup, h] using ih

theorem GoMap.lookup_delete_ne {β : Type} (m : List (String × β)) {k j : String}
    (hne : j ≠ k) : GoMap.lookup (GoMap.delete m k) j = GoMap.lookup m j := by
  induction m with
  | nil => rfl
  | cons kv rest ih =>
    obtain ⟨k1, v1⟩ := kv
    by_cases h : k1 = k
    · subst h
      simpa [GoMap.delete, GoMap.lookup, Ne.symm hne] using ih
    · by_cases h2 : k1 = j
      · subst h2
        simp [GoMap.delete, GoMap.lookup, h]
      · simpa [GoMap.delete, GoMap.lookup, h, h2] using ih

theorem GoMap.delete_of_lookup_none {β : Type} (m : List (String × β)) (k : String)
    (h : GoMap.lookup m k = none) : GoMap.delete m k = m := by
  induction m with
  | nil => rfl
  | cons kv rest ih =>
    obtain ⟨k1, v1⟩ := kv
    by_cases hk : k1 = k
    · simp [GoMap.lookup, hk] at h
    · simp only [GoMap.lookup, hk, if_false] at h
      have := ih h
      simp only [GoMap.delete] at this ⊢
      rw [List.filter_cons_of_pos (by simpa using hk), this]

/-! ## The store: `Save`, `FindByID`, `Delete` -/

theorem cellAt_copy (w : World) (c : CostEstimation) (rcs : List RuntimeCost)
    (acs : List AddonCost) :
    cellAt (w.withCopy c rcs acs).estimations (some w.estimations.length)
      = some (copyStruct w c) := by
  simp [cellAt]

/-- What `Save` does on an aggregate whose line items can all be read. -/
theorem Save_eq {w : World} {r : Ptr} {a : Nat} {m : MemoryRepository} {c : CostEstimation}
    {rcs : List RuntimeCost} {acs : List AddonCost}
    (hr : cellAt w.repositories r = some m)
    (hc : cellAt w.estimations (some a) = some c)
    (hrc : readAll w.runtimeCosts c.RuntimeCosts = some rcs)
    (hac : readAll w.addonCosts c.AddonCosts = some acs) :
    MemoryRepository.Save r (some a) w
      = (Outcome.ok (c.ID, none), (w.withCopy c rcs acs).writeRepository r
          { estimations := GoMap.insert m.estimations c.ID (some w.estimations.length) }) := by
  have hr2 : cellAt (w.withCopy c rcs acs).repositories r = some m := hr
  have hk2 : cellAt ((w.withCopy c rcs acs).writeRepository r
      { estimations := GoMap.insert m.estimations c.ID (some w.estimations.length) }).estimations
      (some w.estimations.length) = some (copyStruct w c) := cellAt_copy w c rcs acs
  simp only [MemoryRepository.Save, go_bind, derefRepository, hr, deepCopy_eq hc hrc hac,
    derefEstimation, cellAt_copy, modifyRepository, hr2]
  simp only [copyStruct, hk2, go_pure]

/-- `FindByID` on an id the map does not hold. -/
theorem FindByID_absent {w : World} {r : Ptr} {m : MemoryRepository} {id : String}
    (hr : cellAt w.repositories r = some m) (hid : GoMap.lookup m.estimations id = none) :
    MemoryRepository.FindByID r id w = (Outcome.ok (none, none), w) := by
  simp [MemoryRepository.FindByID, go_bind, derefRepository, hr, hid]

/-- `FindByID` on an id the map holds, when the line items of the stored aggregate can all be
read. -/
theorem FindByID_found {w : World} {r : Ptr} {a : Nat} {m : MemoryRepository} {id : String}
    {c : CostEstimation} {rcs : List RuntimeCost} {acs : List AddonCost}
    (hr : cellAt w.repositories r = some m)
    (hid : GoMap.lookup m.estimations id = some (some a))
    (hc : cellAt w.estimations (some a) = some c)
    (hrc : readAll w.runtimeCosts c.RuntimeCosts = some rcs)
    (hac : readAll w.addonCosts c.AddonCosts = some acs) :
    MemoryRepository.FindByID r id w
      = (Outcome.ok (some w.estimations.length, none), w.withCopy c rcs acs) := by
  simp [MemoryRepository.FindByID, go_bind, derefRepository, hr, hid, deepCopy_eq hc hrc hac]

/-- What `Delete` does. -/
theorem Delete_eq {w : World} {r : Ptr} {m : MemoryRepository} (id : String)
    (hr : cellAt w.repositories r = some m) :
    MemoryRepository.Delete r id w
      = (Outcome.ok none,
          w.writeRepository r { estimations := GoMap.delete m.estimations id }) := by
  simp [MemoryRepository.Delete, go_bind, modifyRepository, hr]

theorem content_some_ptr {w : World} {e : Ptr} {v : Content} (h : content w e = some v) :
    ∃ a, e = some a := by
  cases e with
  | none => simp [content, cellAt] at h
  | some a => exact ⟨a, rfl⟩

/-- Save followed by FindByID, with the intermediate facts the later properties use. -/
theorem Save_FindByID {w : World} {r e : Ptr} {m : MemoryRepository} {v : Content}
    (hr : cellAt w.repositories r = some m) (he : content w e = some v) :
    ∃ w1 m1 stored, MemoryRepository.Save r e w = (Outcome.ok (v.ID, none), w1) ∧
      cellAt w1.repositories r = some m1 ∧
      m1.estimations = GoMap.insert m.estimations v.ID stored ∧
      stored = some w.estimations.length ∧
      content w1 stored = some v ∧
      (∀ p x, content w p = some x → content w1 p = some x) ∧
      ∃ p w2, MemoryRepository.FindByID r v.ID w1 = (Outcome.ok (p, none), w2) ∧
        p = some w1.estimations.length ∧ content w2 p = some v ∧
        (∀ q x, content w1 q = some x → content w2 q = some x) ∧
        w2.repositories = w1.repositories := by
  obtain ⟨a, rfl⟩ := content_some_ptr he
  obtain ⟨c, rcs, acs, hc, hrc, hac, rfl⟩ := content_eq_some_iff.mp he
  have hm1 : cellAt ((w.withCopy c rcs acs).writeRepository r
      { estimations := GoMap.insert m.estimations c.ID (some w.estimations.length) }).repositories r
      = some { estimations := GoMap.insert m.estimations c.ID (some w.estimations.length) } :=
    World.cellAt_writeRepository _ hr
  have hstored : content ((w.withCopy c rcs acs).writeRepository r
      { estimations := GoMap.insert m.estimations c.ID (some w.estimations.length) })
      (some w.estimations.length) = some _ := content_copy hrc hac
  refine ⟨_, _, _, Save_eq hr hc hrc hac, hm1, rfl, rfl, hstored,
    fun p x hp => content_withCopy c rcs acs hp, ?_⟩
  obtain ⟨c1, rcs1, acs1, hc1, hrc1, hac1, hv1⟩ := content_eq_some_iff.mp hstored
  refine ⟨_, _, FindByID_found hm1 (GoMap.lookup_insert_self _ _ _) hc1 hrc1 hac1, rfl, ?_,
    fun q x hq => content_withCopy c1 rcs1 acs1 hq, rfl⟩
  rw [content_copy hrc1 hac1, hv1]

/-- `FindByID` on a stored aggregate whose line items can be read returns a new cell with the
content of the stored aggregate. -/
theorem FindByID_content {w : World} {r stored : Ptr} {m : MemoryRepository} {id : String}
    {v : Content} (hr : cellAt w.repositories r = some m)
    (hid : GoMap.lookup m.estimations id = some stored) (hv : content w stored = some v) :
    ∃ c rcs acs, cellAt w.estimations stored = some c ∧
      readAll w.runtimeCosts c.RuntimeCosts = some rcs ∧
      readAll w.addonCosts c.AddonCosts = some acs ∧
      MemoryRepository.FindByID r id w
        = (Outcome.ok (some w.estimations.length, none), w.withCopy c rcs acs) ∧
      content (w.withCopy c rcs acs) (some w.estimations.length) = some v := by
  obtain ⟨a, rfl⟩ := content_some_ptr hv
  obtain ⟨c, rcs, acs, hc, hrc, hac, rfl⟩ := content_eq_some_iff.mp hv
  exact ⟨c, rcs, acs, hc, hrc, hac, FindByID_found hr hid hc hrc hac, content_copy hrc hac⟩

theorem SameAggregate.content_eq {w1 w2 : World} {p : Ptr} (h : SameAggregate w1 w2 p) :
    content w2 p = content w1 p :=
  content_congr h.1 h.2

/-- The answer of `FindByID` depends only on the repository cell and on the cells of the
stored aggregate. -/
theorem FindByID_frame {w1 w2 : World} {r stored : Ptr} {m : MemoryRepository} {id : String}
    {v : Content} (hr : cellAt w1.repositories r = some m)
    (hid : GoMap.lookup m.estimations id = some stored) (hv : content w1 stored = some v)
    (hrepo : cellAt w2.repositories r = cellAt w1.repositories r)
    (hsame : SameAggregate w1 w2 stored) :
    ∃ p w3, MemoryRepository.FindByID r id w2 = (Outcome.ok (p, none), w3) ∧
      content w3 p = some v := by
  have hv2 : content w2 stored = some v := by rw [hsame.content_eq, hv]
  obtain ⟨c, rcs, acs, _, _, _, hfind, hcontent⟩ := FindByID_content (hrepo.trans hr) hid hv2
  exact ⟨_, _, hfind, hcontent⟩

theorem copyStruct_runtime_fresh {w : World} {c : CostEstimation} {q : Ptr}
    (hq : q ∈ (copyStruct w c).RuntimeCosts) : ∃ i, q = some i ∧ w.runtimeCosts.length ≤ i := by
  simp only [copyStruct, List.mem_map, List.mem_range'_1] at hq
  obtain ⟨i, ⟨hi, _⟩, rfl⟩ := hq
  exact ⟨i, rfl, hi⟩

theorem copyStruct_addon_fresh {w : World} {c : CostEstimation} {q : Ptr}
    (hq : q ∈ (copyStruct w c).AddonCosts) : ∃ i, q = some i ∧ w.addonCosts.length ≤ i := by
  simp only [copyStruct, List.mem_map, List.mem_range'_1] at hq
  obtain ⟨i, ⟨hi, _⟩, rfl⟩ := hq
  exact ⟨i, rfl, hi⟩

/-- The copy `deepCopy` allocates shares no cell with an aggregate whose cells existed before
the call. -/
theorem copy_disjoint {w : World} {c x : CostEstimation} {rcs : List RuntimeCost}
    {acs : List AddonCost} {p : Ptr} (hx : cellAt w.estimations p = some x)
    (hrc : readAll w.runtimeCosts x.RuntimeCosts = some rcs)
    (hac : readAll w.addonCosts x.AddonCosts = some acs) :
    (some w.estimations.length : Ptr) ≠ p ∧
      (∀ q ∈ (copyStruct w c).RuntimeCosts, q ∉ x.RuntimeCosts) ∧
      (∀ q ∈ (copyStruct w c).AddonCosts, q ∉ x.AddonCosts) := by
  refine ⟨?_, ?_, ?_⟩
  · intro h
    subst h
    have := cellAt_lt hx
    omega
  · intro q hq hmem
    obtain ⟨i, rfl, hi⟩ := copyStruct_runtime_fresh hq
    obtain ⟨y, hy⟩ := Option.isSome_iff_exists.mp (readAll_mem hrc _ hmem)
    have := cellAt_lt hy
    omega
  · intro q hq hmem
    obtain ⟨i, rfl, hi⟩ := copyStruct_addon_fresh hq
    obtain ⟨y, hy⟩ := Option.isSome_iff_exists.mp (readAll_mem hac _ hmem)
    have := cellAt_lt hy
    omega

/-- Changes confined to an aggregate leave intact every aggregate that shares no cell with
it. -/
theorem ChangedOnlyAt.sameAggregate {w1 w2 : World} {p stored : Ptr} {c sc : CostEstimation}
    {rcs : List RuntimeCost} {acs : List AddonCost}
    (h : ChangedOnlyAt w1 w2 p) (hc : cellAt w1.estimations p = some c)
    (hsc : cellAt w1.estimations stored = some sc)
    (hrc : readAll w1.runtimeCosts sc.RuntimeCosts = some rcs)
    (hac : readAll w1.addonCosts sc.AddonCosts = some acs)
    (hne : stored ≠ p)
    (hr : ∀ q ∈ sc.RuntimeCosts, q ∉ c.RuntimeCosts)
    (ha : ∀ q ∈ sc.AddonCosts, q ∉ c.AddonCosts) :
    SameAggregate w1 w2 stored := by
  obtain ⟨_, he, hitems⟩ := h
  refine ⟨he stored hne (by simp [hsc]), ?_⟩
  intro x hx
  rw [hsc] at hx
  cases hx
  exact ⟨fun q hq => (hitems c hc).1 q (hr q hq) (readAll_mem hrc q hq),
    fun q hq => (hitems c hc).2 q (ha q hq) (readAll_mem hac q hq)⟩

/-- C2. Save / FindByID round trip: for every store state and every non-nil estimation `e`
whose line items are all non-nil (its content `v` can be read), `Save(e)` returns `e.ID` and
no error, and then `FindByID(e.ID)` returns no error and a non-nil aggregate whose content is
the content of `e`: the same ID, ProjectID, MinMonthlyCost, MaxMonthlyCost, and the same
lists of runtime and addon line items, item by item in the same order. -/
theorem save_findByID_roundtrip (w : World) (r e : Ptr) (m : MemoryRepository) (v : Content)
    (hr : cellAt w.repositories r = some m) (he : content w e = some v) :
    ∃ w1 p w2,
      MemoryRepository.Save r e w = (Outcome.ok (v.ID, none), w1) ∧
      MemoryRepository.FindByID r v.ID w1 = (Outcome.ok (p, none), w2) ∧
      p ≠ none ∧ content w2 p = some v ∧ content w2 e = some v := by
  obtain ⟨w1, m1, stored, hsave, _, _, _, _, hkeep1, p, w2, hfind, hp, hcontent, hkeep2, _⟩ :=
    Save_FindByID hr he
  refine ⟨w1, p, w2, hsave, hfind, ?_, hcontent, hkeep2 e v (hkeep1 e v he)⟩
  rw [hp]
  exact Option.some_ne_none _

/-- C2 at a concrete input: an empty store and an aggregate with one runtime line item and
one addon line item. -/
theorem save_findByID_roundtrip_witness :
    ∃ w1 p w2,
      MemoryRepository.Save (some 0) (some 0)
        { estimations := [⟨"e1", "proj", 14.6, 43.8, [some 0], [some 0]⟩],
          runtimeCosts := [⟨"XS-pico", "XS (pico)", 14.6, 43.8⟩],
          addonCosts := [⟨"redis-s", "redis (s)", 0⟩],
          repositories := [⟨[]⟩] } = (Outcome.ok ("e1", none), w1) ∧
      MemoryRepository.FindByID (some 0) "e1" w1 = (Outcome.ok (p, none), w2) ∧
      p ≠ none ∧
      content w2 p = some ⟨"e1", "proj", 14.6, 43.8,
        [⟨"XS-pico", "XS (pico)", 14.6, 43.8⟩], [⟨"redis-s", "redis (s)", 0⟩]⟩ ∧
      content w2 (some 0) = some ⟨"e1", "proj", 14.6, 43.8,
        [⟨"XS-pico", "XS (pico)", 14.6, 43.8⟩], [⟨"redis-s", "redis (s)", 0⟩]⟩ :=
  save_findByID_roundtrip
    { estimations := [⟨"e1", "proj", 14.6, 43.8, [some 0], [some 0]⟩],
      runtimeCosts := [⟨"XS-pico", "XS (pico)", 14.6, 43.8⟩],
      addonCosts := [⟨"redis-s", "redis (s)", 0⟩],
      repositories := [⟨[]⟩] }
    (some 0) (some 0) ⟨[]⟩
    ⟨"e1", "proj", 14.6, 43.8,
      [⟨"XS-pico", "XS (pico)", 14.6, 43.8⟩], [⟨"redis-s", "redis (s)", 0⟩]⟩
    rfl rfl

/-- Isolation of the stored copy from the aggregate that was saved. -/
theorem Save_isolated {w : World} {r e : Ptr} {m : MemoryRepository} {v : Content}
    (hr : cellAt w.repositories r = some m) (he : content w e = some v) :
    ∃ w1 m1 stored sc,
      MemoryRepository.Save r e w = (Outcome.ok (v.ID, none), w1) ∧
      cellAt w1.repositories r = some m1 ∧
      GoMap.lookup m1.estimations v.ID = some stored ∧
      cellAt w1.estimations stored = some sc ∧
      stored ≠ e ∧
      (∀ c, cellAt w1.estimations e = some c →
        (∀ q ∈ sc.RuntimeCosts, q ∉ c.RuntimeCosts) ∧
        (∀ q ∈ sc.AddonCosts, q ∉ c.AddonCosts)) ∧
      (∀ w2, ChangedOnlyAt w1 w2 e →
        ∃ p w3, MemoryRepository.FindByID r v.ID w2 = (Outcome.ok (p, none), w3) ∧
          content w3 p = some v) := by
  obtain ⟨a, rfl⟩ := content_some_ptr he
  obtain ⟨c, rcs, acs, hc, hrc, hac, rfl⟩ := content_eq_some_iff.mp he
  have hm1 : cellAt ((w.withCopy c rcs acs).writeRepository r
      { estimations := GoMap.insert m.estimations c.ID (some w.estimations.length) }).repositories r
      = some { estimations := GoMap.insert m.estimations c.ID (some w.estimations.length) } :=
    World.cellAt_writeRepository _ hr
  have hstored : content ((w.withCopy c rcs acs).writeRepository r
      { estimations := GoMap.insert m.estimations c.ID (some w.estimations.length) })
      (some w.estimations.length) = some _ := content_copy hrc hac
  have hc1 : cellAt ((w.withCopy c rcs acs).writeRepository r
      { estimations := GoMap.insert m.estimations c.ID (some w.estimations.length) }).estimations
      (some a) = some c := cellAt_append _ hc
  have hsc : cellAt ((w.withCopy c rcs acs).writeRepository r
      { estimations := GoMap.insert m.estimations c.ID (some w.estimations.length) }).estimations
      (some w.estimations.length) = some (copyStruct w c) := cellAt_copy w c rcs acs
  obtain ⟨hne, hdr, hda⟩ := @copy_disjoint w c c rcs acs (some a) hc hrc hac
  obtain ⟨c2, rcs2, acs2, hc2, hrc2, hac2, _⟩ := content_eq_some_iff.mp hstored
  rw [hsc] at hc2
  cases hc2
  refine ⟨_, _, _, _, Save_eq hr hc hrc hac, hm1, GoMap.lookup_insert_self _ _ _, hsc, hne, ?_, ?_⟩
  · intro x hx
    rw [hc1] at hx
    cases hx
    exact ⟨hdr, hda⟩
  · intro w2 hch
    exact FindByID_frame hm1 (GoMap.lookup_insert_self _ _ _) hstored
      (hch.1 r (by rw [hm1]; rfl))
      (hch.sameAggregate hc1 hsc hrc2 hac2 hne hdr hda)

/-- Isolation of the stored aggregate from the copy `FindByID` returns. -/
theorem FindByID_isolated {w : World} {r stored : Ptr} {m : MemoryRepository} {id : String}
    {sv : Content} (hr : cellAt w.repositories r = some m)
    (hid : GoMap.lookup m.estimations id = some stored) (hs : content w stored = some sv) :
    ∃ p w1 pc sc,
      MemoryRepository.FindByID r id w = (Outcome.ok (p, none), w1) ∧
      content w1 p = some sv ∧
      cellAt w1.estimations p = some pc ∧
      cellAt w1.estimations stored = some sc ∧
      p ≠ stored ∧
      (∀ q ∈ pc.RuntimeCosts, q ∉ sc.RuntimeCosts) ∧
      (∀ q ∈ pc.AddonCosts, q ∉ sc.AddonCosts) ∧
      (∀ w2, ChangedOnlyAt w1 w2 p →
        ∃ p2 w3, MemoryRepository.FindByID r id w2 = (Outcome.ok (p2, none), w3) ∧
          content w3 p2 = some sv) := by
  obtain ⟨sc, rcs, acs, hsc, hrc, hac, hfind, hcontent⟩ := FindByID_content hr hid hs
  obtain ⟨hne, hdr, hda⟩ := @copy_disjoint w sc sc rcs acs stored hsc hrc hac
  have hsc1 : cellAt (w.withCopy sc rcs acs).estimations stored = some sc := cellAt_append _ hsc
  have hs1 : content (w.withCopy sc rcs acs) stored = some sv := content_withCopy sc rcs acs hs
  refine ⟨_, _, copyStruct w sc, sc, hfind, hcontent, cellAt_copy w sc rcs acs, hsc1, hne, hdr,
    hda, ?_⟩
  intro w2 hch
  have hr1 : cellAt (w.withCopy sc rcs acs).repositories r = some m := hr
  exact FindByID_frame hr1 hid hs1 (hch.1 r (by rw [hr1]; rfl))
    (hch.sameAggregate (cellAt_copy w sc rcs acs) hsc1 (readAll_append_cells rcs hrc)
      (readAll_append_cells acs hac) (Ne.symm hne)
      (fun q hq hq2 => hdr q hq2 hq) (fun q hq hq2 => hda q hq2 hq))

/-- C3. Store isolation.  (1) After `Save(e)` the stored aggregate is another object than `e`
and none of its line items is a line item of `e`; so whatever the caller then writes in `e`
or in line items of `e` (any world that differs only there), `FindByID(e.ID)` still returns
the content `e` had when it was saved.  (2) After `p = FindByID(id)` the returned aggregate is
another object than the stored one and shares no line item with it; so whatever the caller
writes in `p` or in line items of `p`, a subsequent `FindByID(id)` returns the same content.
Both follow from `deepCopy` sharing no line item object with its argument. -/
theorem store_isolation (w : World) (r e stored : Ptr) (m : MemoryRepository) (id : String)
    (v sv : Content) (hr : cellAt w.repositories r = some m) (he : content w e = some v)
    (hid : GoMap.lookup m.estimations id = some stored) (hs : content w stored = some sv) :
    (∃ w1 m1 copy sc,
      MemoryRepository.Save r e w = (Outcome.ok (v.ID, none), w1) ∧
      cellAt w1.repositories r = some m1 ∧
      GoMap.lookup m1.estimations v.ID = some copy ∧
      cellAt w1.estimations copy = some sc ∧
      copy ≠ e ∧
      (∀ c, cellAt w1.estimations e = some c →
        (∀ q ∈ sc.RuntimeCosts, q ∉ c.RuntimeCosts) ∧
        (∀ q ∈ sc.AddonCosts, q ∉ c.AddonCosts)) ∧
      (∀ w2, ChangedOnlyAt w1 w2 e →
        ∃ p w3, MemoryRepository.FindByID r v.ID w2 = (Outcome.ok (p, none), w3) ∧
          content w3 p = some v)) ∧
    (∃ p w1 pc sc,
      MemoryRepository.FindByID r id w = (Outcome.ok (p, none), w1) ∧
      content w1 p = some sv ∧
      cellAt w1.estimations p = some pc ∧
      cellAt w1.estimations stored = some sc ∧
      p ≠ stored ∧
      (∀ q ∈ pc.RuntimeCosts, q ∉ sc.RuntimeCosts) ∧
      (∀ q ∈ pc.AddonCosts, q ∉ sc.AddonCosts) ∧
      (∀ w2, ChangedOnlyAt w1 w2 p →
        ∃ p2 w3, MemoryRepository.FindByID r id w2 = (Outcome.ok (p2, none), w3) ∧
          content w3 p2 = some sv)) :=
  ⟨Save_isolated hr he, FindByID_isolated hr hid hs⟩

/-- C3 at a concrete input: the caller saves `"e1"` into a store that holds `"s0"`, and reads
`"s0"` back. -/
theorem store_isolation_witness :
    (∃ w1 m1 copy sc,
      MemoryRepository.Save (some 0) (some 1) sampleWorld
        = (Outcome.ok (sampleHeld.ID, none), w1) ∧
      cellAt w1.repositories (some 0) = some m1 ∧
      GoMap.lookup m1.estimations sampleHeld.ID = some copy ∧
      cellAt w1.estimations copy = some sc ∧
      copy ≠ some 1 ∧
      (∀ c, cellAt w1.estimations (some 1) = some c →
        (∀ q ∈ sc.RuntimeCosts, q ∉ c.RuntimeCosts) ∧
        (∀ q ∈ sc.AddonCosts, q ∉ c.AddonCosts)) ∧
      (∀ w2, ChangedOnlyAt w1 w2 (some 1) →
        ∃ p w3, MemoryRepository.FindByID (some 0) sampleHeld.ID w2
            = (Outcome.ok (p, none), w3) ∧
          content w3 p = some sampleHeld)) ∧
    (∃ p w1 pc sc,
      MemoryRepository.FindByID (some 0) "s0" sampleWorld = (Outcome.ok (p, none), w1) ∧
      content w1 p = some sampleStored ∧
      cellAt w1.estimations p = some pc ∧
      cellAt w1.estimations (some 0) = some sc ∧
      p ≠ some 0 ∧
      (∀ q ∈ pc.RuntimeCosts, q ∉ sc.RuntimeCosts) ∧
      (∀ q ∈ pc.AddonCosts, q ∉ sc.AddonCosts) ∧
      (∀ w2, ChangedOnlyAt w1 w2 p →
        ∃ p2 w3, MemoryRepository.FindByID (some 0) "s0" w2 = (Outcome.ok (p2, none), w3) ∧
          content w3 p2 = some sampleStored)) :=
  store_isolation sampleWorld (some 0) (some 1) (some 0) ⟨[("s0", some 0)]⟩ "s0"
    sampleHeld sampleStored rfl rfl rfl rfl

/-- C4. Save of an absent estimation: for every world and every repository pointer,
`Save(nil)` does not return; it panics, on the dereference `copy.ID` of the `nil` that
`deepCopy(nil)` returned (or earlier, on a `nil` receiver), and the world, the store
included, is the one before the call.  No error value and no id is produced. -/
theorem save_nil_panics (w : World) (r : Ptr) :
    MemoryRepository.Save r none w = (Outcome.panic, w) := by
  cases hr : cellAt w.repositories r with
  | none => simp [MemoryRepository.Save, go_bind, derefRepository, hr]
  | some m =>
    simp only [MemoryRepository.Save, go_bind, derefRepository, hr, deepCopy_nil,
      derefEstimation]
    rfl

/-- `NewMemoryRepository` allocates a repository with an empty map. -/
theorem NewMemoryRepository_eq (w : World) :
    NewMemoryRepository w
      = (Outcome.ok (some w.repositories.length), w.pushRepository { estimations := [] }) := rfl

theorem cellAt_pushRepository (w : World) (m : MemoryRepository) :
    cellAt (w.pushRepository m).repositories (some w.repositories.length) = some m := by
  simp [World.pushRepository, cellAt]

/-- C5. FindByID on an absent id: for every store state, (1) when `id` is not a key of the map,
`FindByID(id)` returns `(nil, nil)`, no aggregate and no error, and leaves the world as it
was; (2) whatever `id`, when the aggregate stored under it (if any) can be read, `FindByID(id)`
returns without error, the map of the repository is the same afterwards and every aggregate
that could be read before can be read after, with the same content; (3) on a store just
created by `NewMemoryRepository`, `FindByID` of any id returns `(nil, nil)`. -/
theorem findByID_absent_not_found (w : World) (r : Ptr) (m : MemoryRepository) (id : String)
    (hr : cellAt w.repositories r = some m)
    (hwf : ∀ stored, GoMap.lookup m.estimations id = some stored → (content w stored).isSome) :
    (GoMap.lookup m.estimations id = none →
      MemoryRepository.FindByID r id w = (Outcome.ok (none, none), w)) ∧
    (∃ p w1, MemoryRepository.FindByID r id w = (Outcome.ok (p, none), w1) ∧
      cellAt w1.repositories r = some m ∧ w1.repositories = w.repositories ∧
      ∀ q x, content w q = some x → content w1 q = some x) ∧
    (∀ (w0 : World) (id0 : String), ∃ r0 w1,
      NewMemoryRepository w0 = (Outcome.ok r0, w1) ∧
      MemoryRepository.FindByID r0 id0 w1 = (Outcome.ok (none, none), w1)) := by
  refine ⟨fun hid => FindByID_absent hr hid, ?_, ?_⟩
  · cases hid : GoMap.lookup m.estimations id with
    | none => exact ⟨none, w, FindByID_absent hr hid, hr, rfl, fun _ _ h => h⟩
    | some stored =>
      obtain ⟨v, hv⟩ := Option.isSome_iff_exists.mp (hwf stored hid)
      obtain ⟨c, rcs, acs, _, _, _, hfind, _⟩ := FindByID_content hr hid hv
      exact ⟨_, _, hfind, hr, rfl, fun q x h => content_withCopy c rcs acs h⟩
  · intro w0 id0
    exact ⟨_, _, NewMemoryRepository_eq w0,
      FindByID_absent (cellAt_pushRepository w0 _) rfl⟩

/-- C5 at a concrete input: the id `"e1"` is not in the store of `sampleWorld`. -/
theorem findByID_absent_not_found_witness :
    cellAt sampleWorld.repositories (some 0) = some ⟨[("s0", some 0)]⟩ ∧
    (GoMap.lookup [("s0", (some 0 : Ptr))] "e1" = none →
      MemoryRepository.FindByID (some 0) "e1" sampleWorld
        = (Outcome.ok (none, none), sampleWorld)) ∧
    (∃ p w1, MemoryRepository.FindByID (some 0) "e1" sampleWorld = (Outcome.ok (p, none), w1) ∧
      cellAt w1.repositories (some 0) = some ⟨[("s0", some 0)]⟩ ∧
      w1.repositories = sampleWorld.repositories ∧
      ∀ q x, content sampleWorld q = some x → content w1 q = some x) ∧
    (∀ (w0 : World) (id0 : String), ∃ r0 w1,
      NewMemoryRepository w0 = (Outcome.ok r0, w1) ∧
      MemoryRepository.FindByID r0 id0 w1 = (Outcome.ok (none, none), w1)) :=
  ⟨rfl, findByID_absent_not_found sampleWorld (some 0) ⟨[("s0", some 0)]⟩ "e1" rfl
    (fun stored h => by simp [GoMap.lookup] at h)⟩

/-- C6. Delete: for every store state and id, `Delete(id)` returns a `nil` error; afterwards
`FindByID(id)` returns `(nil, nil)`, not found; and when `id` was not a key of the map the
world after `Delete(id)` is the world before it. -/
theorem delete_then_not_found (w : World) (r : Ptr) (m : MemoryRepository) (id : String)
    (hr : cellAt w.repositories r = some m) :
    ∃ w1, MemoryRepository.Delete r id w = (Outcome.ok none, w1) ∧
      MemoryRepository.FindByID r id w1 = (Outcome.ok (none, none), w1) ∧
      (GoMap.lookup m.estimations id = none → w1 = w) := by
  refine ⟨_, Delete_eq id hr, ?_, ?_⟩
  · exact FindByID_absent (World.cellAt_writeRepository _ hr) (GoMap.lookup_delete_self _ _)
  · intro hid
    rw [GoMap.delete_of_lookup_none _ _ hid]
    exact World.writeRepository_self hr

/-- C6 at a concrete input: deleting the stored id `"s0"` of `sampleWorld`. -/
theorem delete_then_not_found_witness :
    cellAt sampleWorld.repositories (some 0) = some ⟨[("s0", some 0)]⟩ ∧
    ∃ w1, MemoryRepository.Delete (some 0) "s0" sampleWorld = (Outcome.ok none, w1) ∧
      MemoryRepository.FindByID (some 0) "s0" w1 = (Outcome.ok (none, none), w1) ∧
      (GoMap.lookup [("s0", (some 0 : Ptr))] "s0" = none → w1 = sampleWorld) :=
  ⟨rfl, delete_then_not_found sampleWorld (some 0) ⟨[("s0", some 0)]⟩ "s0" rfl⟩

theorem GoMap.insert_insert {β : Type} (m : List (String × β)) (k : String) (x y : β) :
    GoMap.insert (GoMap.insert m k x) k y = GoMap.insert m k y := by
  induction m with
  | nil => simp [GoMap.insert]
  | cons kv rest ih =>
    obtain ⟨k1, v1⟩ := kv
    by_cases h : k1 = k
    · simp [GoMap.insert, h]
    · simp [GoMap.insert, h, ih]

theorem GoMap.length_insert {β : Type} (m : List (String × β)) (k : String) (x y : β) :
    (GoMap.insert m k x).length = (GoMap.insert m k y).length := by
  induction m with
  | nil => simp [GoMap.insert]
  | cons kv rest ih =>
    obtain ⟨k1, v1⟩ := kv
    by_cases h : k1 = k
    · simp [GoMap.insert, h]
    · simp [GoMap.insert, h, ih]

theorem GoMap.map_insert_congr {β γ : Type} (f g : String × β → γ) (k : String) (a b : β) :
    ∀ (m : List (String × β)), (∀ kv ∈ m, f kv = g kv) → f (k, a) = g (k, b) →
      (GoMap.insert m k a).map f = (GoMap.insert m k b).map g := by
  intro m
  induction m with
  | nil =>
    intro _ hk
    simp [GoMap.insert, hk]
  | cons kv rest ih =>
    intro hm hk
    obtain ⟨k1, v1⟩ := kv
    have hrest : ∀ kv ∈ rest, f kv = g kv := fun kv h => hm kv (List.mem_cons_of_mem _ h)
    by_cases h : k1 = k
    · simp only [GoMap.insert, h, if_true, List.map_cons, hk]
      congr 1
      exact List.map_congr_left hrest
    · simp only [GoMap.insert, h, if_false, List.map_cons, ih hrest hk]
      congr 1
      exact hm (k1, v1) (List.mem_cons_self _ _)

/-- C7. Save is keyed by the aggregate's own id and overwrites: for every well-formed store
state and every readable `e1`, `e2` with the same ID, `Save(e1)` returns `e1.ID` and
`Save(e2)` returns `e2.ID` (no error); after `Save(e1)` then `Save(e2)` the store holds the
same keys with the same contents, in the same order, as after `Save(e2)` alone; the second
save does not change the number of entries; and `FindByID` of the id then returns the
content of `e2`.  Taking `e1 = e2`: saving the same aggregate twice is saving it once. -/
theorem save_overwrites (w : World) (r e1 e2 : Ptr) (m : MemoryRepository) (v1 v2 : Content)
    (hr : cellAt w.repositories r = some m)
    (h1 : content w e1 = some v1) (h2 : content w e2 = some v2) (hid : v1.ID = v2.ID)
    (hwf : ∀ kv ∈ m.estimations, (content w kv.2).isSome) :
    ∃ w1 w12 w2 m1 m12 m2,
      MemoryRepository.Save r e1 w = (Outcome.ok (v1.ID, none), w1) ∧
      MemoryRepository.Save r e2 w1 = (Outcome.ok (v2.ID, none), w12) ∧
      MemoryRepository.Save r e2 w = (Outcome.ok (v2.ID, none), w2) ∧
      storeContent w12 r = storeContent w2 r ∧
      (storeContent w2 r).isSome ∧
      cellAt w1.repositories r = some m1 ∧
      cellAt w12.repositories r = some m12 ∧
      cellAt w2.repositories r = some m2 ∧
      m12.estimations.length = m1.estimations.length ∧
      m12.estimations.length = m2.estimations.length ∧
      ∃ p w3, MemoryRepository.FindByID r v2.ID w12 = (Outcome.ok (p, none), w3) ∧
        content w3 p = some v2 := by
  obtain ⟨w1, m1, s1, hsave1, hm1, hmap1, _, _, hkeep1, _⟩ := Save_FindByID hr h1
  obtain ⟨w12, m12, s12, hsave12, hm12, hmap12, _, hs12, hkeep12, p, w3, hfind, _, hp, _, _⟩ :=
    Save_FindByID hm1 (hkeep1 e2 v2 h2)
  obtain ⟨w2, m2, s2, hsave2, hm2, hmap2, _, hs2, hkeep2, _⟩ := Save_FindByID hr h2
  have hmap : m12.estimations = GoMap.insert m.estimations v2.ID s12 := by
    rw [hmap12, hmap1, hid, GoMap.insert_insert]
  have hview : m12.estimations.map (fun kv => (kv.1, content w12 kv.2))
      = m2.estimations.map (fun kv => (kv.1, content w2 kv.2)) := by
    rw [hmap, hmap2]
    apply GoMap.map_insert_congr
    · intro kv hkv
      obtain ⟨x, hx⟩ := Option.isSome_iff_exists.mp (hwf kv hkv)
      rw [hkeep12 _ _ (hkeep1 _ _ hx), hkeep2 _ _ hx]
    · rw [hs12, hs2]
  refine ⟨w1, w12, w2, m1, m12, m2, hsave1, hsave12, hsave2, ?_, ?_, hm1, hm12, hm2, ?_, ?_,
    p, w3, hfind, hp⟩
  · simp only [storeContent, hm12, hm2, Option.map_some', hview]
  · simp [storeContent, hm2]
  · rw [hmap12, hmap1, hid, GoMap.insert_insert]
    exact GoMap.length_insert _ _ _ _
  · rw [hmap, hmap2]
    exact GoMap.length_insert _ _ _ _

/-- C7 at a concrete input: two different aggregates with the id `"e1"` saved one after the
other into the store of `sampleWorld`. -/
theorem save_overwrites_witness :
    (∀ kv ∈ [("s0", (some 0 : Ptr))], (content sampleWorld kv.2).isSome) ∧
    ∃ w1 w12 w2 m1 m12 m2,
      MemoryRepository.Save (some 0) (some 1) sampleWorld
        = (Outcome.ok (sampleHeld.ID, none), w1) ∧
      MemoryRepository.Save (some 0) (some 2) w1 = (Outcome.ok (sampleOther.ID, none), w12) ∧
      MemoryRepository.Save (some 0) (some 2) sampleWorld
        = (Outcome.ok (sampleOther.ID, none), w2) ∧
      storeContent w12 (some 0) = storeContent w2 (some 0) ∧
      (storeContent w2 (some 0)).isSome ∧
      cellAt w1.repositories (some 0) = some m1 ∧
      cellAt w12.repositories (some 0) = some m12 ∧
      cellAt w2.repositories (some 0) = some m2 ∧
      m12.estimations.length = m1.estimations.length ∧
      m12.estimations.length = m2.estimations.length ∧
      ∃ p w3, MemoryRepository.FindByID (some 0) sampleOther.ID w12
          = (Outcome.ok (p, none), w3) ∧
        content w3 p = some sampleOther :=
  have hwf : ∀ kv ∈ [("s0", (some 0 : Ptr))], (content sampleWorld kv.2).isSome := by
    intro kv hkv
    rw [List.mem_singleton] at hkv
    subst hkv
    rfl
  ⟨hwf, save_overwrites sampleWorld (some 0) (some 1) (some 2) ⟨[("s0", some 0)]⟩
    sampleHeld sampleOther rfl rfl rfl rfl hwf⟩

/-! ## The store: `FindByProjectID` -/

theorem content_projectID {w : World} {p : Ptr} {v : Content} {c : CostEstimation}
    (hv : content w p = some v) (hc : cellAt w.estimations p = some c) :
    c.ProjectID = v.ProjectID := by
  obtain ⟨c2, _, _, hc2, _, _, rfl⟩ := content_eq_some_iff.mp hv
  rw [hc] at hc2
  cases hc2
  rfl

/-- The loop of `FindByProjectID` over entries that can all be read: it appends to `results`
one new copy for each entry of the project, in the order of the entries. -/
theorem FindByProjectID_loop_eq (pid : String) :
    ∀ (entries : List (String × Ptr)) (w : World) (results : List Ptr),
      (∀ kv ∈ entries, (content w kv.2).isSome) →
      ∃ news w1,
        MemoryRepository.FindByProjectID.loop pid results entries w
          = (Outcome.ok (results ++ news), w1) ∧
        news.map (content w1)
          = (entries.map (fun kv => content w kv.2)).filter
              (fun oc => decide (oc.map Content.ProjectID = some pid)) ∧
        (∀ q x, content w q = some x → content w1 q = some x) ∧
        w1.repositories = w.repositories ∧
        (∀ p ∈ news, ∃ i, p = some i ∧ w.estimations.length ≤ i) := by
  intro entries
  induction entries with
  | nil =>
    intro w results _
    exact ⟨[], w, by simp [MemoryRepository.FindByProjectID.loop], rfl, fun _ _ h => h, rfl,
      by simp⟩
  | cons kv rest ih =>
    intro w results hwf
    obtain ⟨k, est⟩ := kv
    obtain ⟨v, hv⟩ := Option.isSome_iff_exists.mp (hwf (k, est) (List.mem_cons_self _ _))
    obtain ⟨a, rfl⟩ := content_some_ptr hv
    obtain ⟨c, rcs, acs, hc, hrc, hac, hveq⟩ := content_eq_some_iff.mp hv
    have hproj : c.ProjectID = v.ProjectID := content_projectID hv hc
    have hrest : ∀ kv ∈ rest, (content w kv.2).isSome :=
      fun kv h => hwf kv (List.mem_cons_of_mem _ h)
    by_cases hp : c.ProjectID = pid
    · have hrest2 : ∀ kv ∈ rest, (content (w.withCopy c rcs acs) kv.2).isSome := by
        intro kv h
        obtain ⟨x, hx⟩ := Option.isSome_iff_exists.mp (hrest kv h)
        rw [content_withCopy c rcs acs hx]
        rfl
      obtain ⟨news, w1, hloop, hmap, hkeep, hrepo, hfresh⟩ :=
        ih (w.withCopy c rcs acs) (results ++ [some w.estimations.length]) hrest2
      refine ⟨some w.estimations.length :: news, w1, ?_, ?_, ?_, ?_, ?_⟩
      · simp only [MemoryRepository.FindByProjectID.loop, go_bind, derefEstimation, hc, hp,
          if_true, deepCopy_eq hc hrc hac, hloop]
        simp
      · have hcopy : content w1 (some w.estimations.length) = some v := by
          apply hkeep
          rw [content_copy hrc hac, hveq]
        have hsame : rest.map (fun kv => content (w.withCopy c rcs acs) kv.2)
            = rest.map (fun kv => content w kv.2) := by
          apply List.map_congr_left
          intro kv h
          obtain ⟨x, hx⟩ := Option.isSome_iff_exists.mp (hrest kv h)
          rw [content_withCopy c rcs acs hx, hx]
        have hvp : v.ProjectID = pid := by rw [← hproj, hp]
        simp only [List.map_cons, hcopy, hmap, hsame, hv]
        rw [List.filter_cons_of_pos (by simp [hvp])]
      · intro q x hq
        exact hkeep q x (content_withCopy c rcs acs hq)
      · rw [hrepo]
        rfl
      · intro p hmem
        rcases List.mem_cons.mp hmem with rfl | hmem
        · exact ⟨_, rfl, le_refl _⟩
        · obtain ⟨i, hi, hle⟩ := hfresh p hmem
          refine ⟨i, hi, ?_⟩
          simp only [World.withCopy_estimations, List.length_append, List.length_singleton] at hle
          omega
    · obtain ⟨news, w1, hloop, hmap, hkeep, hrepo, hfresh⟩ := ih w results hrest
      refine ⟨news, w1, ?_, ?_, hkeep, hrepo, hfresh⟩
      · simp only [MemoryRepository.FindByProjectID.loop, go_bind, derefEstimation, hc, hp,
          if_false, hloop]
      · have hvp : ¬ v.ProjectID = pid := by rw [← hproj]; exact hp
        simp only [List.map_cons, hmap, hv]
        rw [List.filter_cons_of_neg (by simp [hvp])]

/-- C8. FindByProjectID returns exactly the matching aggregates: for every well-formed store
state and project id, the call returns no error and a list of new aggregates whose contents
are, as a multiset, the contents of the stored aggregates whose ProjectID is the requested
one, one copy for each such entry and nothing else; the list is empty when no stored
aggregate matches; every returned aggregate is a cell that did not exist before the call;
and the store holds the same thing afterwards. -/
theorem findByProjectID_exact (w : World) (r : Ptr) (m : MemoryRepository) (pid : String)
    (hr : cellAt w.repositories r = some m)
    (hwf : ∀ kv ∈ m.estimations, (content w kv.2).isSome) :
    ∃ ps w1,
      MemoryRepository.FindByProjectID r pid w = (Outcome.ok (ps, none), w1) ∧
      Multiset.ofList (ps.map (content w1))
        = Multiset.ofList ((m.estimations.map (fun kv => content w kv.2)).filter
            (fun oc => decide (oc.map Content.ProjectID = some pid))) ∧
      ((∀ kv ∈ m.estimations, (content w kv.2).map Content.ProjectID ≠ some pid) → ps = []) ∧
      (∀ p ∈ ps, ∃ i, p = some i ∧ w.estimations.length ≤ i) ∧
      storeContent w1 r = storeContent w r := by
  obtain ⟨news, w1, hloop, hmap, hkeep, hrepo, hfresh⟩ :=
    FindByProjectID_loop_eq pid m.estimations w [] hwf
  refine ⟨news, w1, ?_, ?_, ?_, hfresh, ?_⟩
  · simp only [MemoryRepository.FindByProjectID, go_bind, derefRepository, hr, hloop]
    simp
  · rw [hmap]
  · intro hnone
    have hempty : (m.estimations.map (fun kv => content w kv.2)).filter
        (fun oc => decide (oc.map Content.ProjectID = some pid)) = [] := by
      rw [List.filter_eq_nil_iff]
      intro oc hoc
      obtain ⟨kv, hkv, rfl⟩ := List.mem_map.mp hoc
      simpa using hnone kv hkv
    rw [hempty] at hmap
    exact List.map_eq_nil_iff.mp hmap
  · have hr1 : cellAt w1.repositories r = some m := by rw [hrepo]; exact hr
    simp only [storeContent, hr1, hr, Option.map_some', Option.some.injEq]
    apply List.map_congr_left
    intro kv hkv
    obtain ⟨x, hx⟩ := Option.isSome_iff_exists.mp (hwf kv hkv)
    rw [hkeep _ _ hx, hx]

/-- Running `saveThree` from `sampleCaller` gives `sampleThreeSaved`. -/
theorem saveThree_eq : saveThree sampleCaller = (Outcome.ok (some 0), sampleThreeSaved) := by
  have h0 : NewMemoryRepository sampleCaller = (Outcome.ok (some 0), sampleEmptyStore) := rfl
  have h1 : MemoryRepository.Save (some 0) (some 0) sampleEmptyStore
      = (Outcome.ok ("a", none), sampleOneSaved) := rfl
  have h2 : MemoryRepository.Save (some 0) (some 1) sampleOneSaved
      = (Outcome.ok ("b", none), sampleTwoSaved) := rfl
  have h3 : MemoryRepository.Save (some 0) (some 2) sampleTwoSaved
      = (Outcome.ok ("c", none), sampleThreeSaved) := rfl
  simp only [saveThree, go_bind, h0, h1, h2, h3, go_pure]

/-- C8 at a concrete input: three estimations saved, `"a"` and `"c"` of project `"p1"` and
`"b"` of project `"p2"`; FindByProjectID of `"p1"` returns two new aggregates, with the
contents of `"a"` and of `"c"`. -/
theorem findByProjectID_exact_witness :
    (∀ kv ∈ [("a", (some 3 : Ptr)), ("b", some 4), ("c", some 5)],
      (content sampleThreeSaved kv.2).isSome) ∧
    (∃ ps w1,
      MemoryRepository.FindByProjectID (some 0) "p1" sampleThreeSaved
        = (Outcome.ok (ps, none), w1) ∧
      Multiset.ofList (ps.map (content w1))
        = Multiset.ofList
            (([("a", (some 3 : Ptr)), ("b", some 4), ("c", some 5)].map
              (fun kv => content sampleThreeSaved kv.2)).filter
                (fun oc => decide (oc.map Content.ProjectID = some "p1"))) ∧
      ((∀ kv ∈ [("a", (some 3 : Ptr)), ("b", some 4), ("c", some 5)],
          (content sampleThreeSaved kv.2).map Content.ProjectID ≠ some "p1") → ps = []) ∧
      (∀ p ∈ ps, ∃ i, p = some i ∧ sampleThreeSaved.estimations.length ≤ i) ∧
      storeContent w1 (some 0) = storeContent sampleThreeSaved (some 0)) ∧
    saveThree sampleCaller = (Outcome.ok (some 0), sampleThreeSaved) ∧
    (MemoryRepository.FindByProjectID (some 0) "p1" sampleThreeSaved).1
      = Outcome.ok ([some 6, some 7], none) ∧
    [some 6, some 7].map
        (content (MemoryRepository.FindByProjectID (some 0) "p1" sampleThreeSaved).2)
      = [content sampleCaller (some 0), content sampleCaller (some 2)] :=
  have hwf : ∀ kv ∈ [("a", (some 3 : Ptr)), ("b", some 4), ("c", some 5)],
      (content sampleThreeSaved kv.2).isSome := by
    intro kv hkv
    simp only [List.mem_cons, List.mem_singleton, List.not_mem_nil, or_false] at hkv
    rcases hkv with rfl | rfl | rfl <;> rfl
  ⟨hwf, findByProjectID_exact sampleThreeSaved (some 0)
    ⟨[("a", some 3), ("b", some 4), ("c", some 5)]⟩ "p1" rfl hwf, saveThree_eq, rfl, rfl⟩

/-! ## The calculation -/

/-- What `calculateRuntimeCost` does when the lookup resolves. -/
theorem calculateRuntimeCost_eq {h : CalculateCostHandler} {s : RuntimeSpec} {p : Float64}
    (w : World) (hp : h.pricingRepo.GetFlavorPrice s.InstanceType s.FlavorName = (p, none)) :
    h.calculateRuntimeCost (some s) w
      = (Outcome.ok (some w.runtimeCosts.length, none),
          w.pushRuntimeCost
            { RuntimeID := s.InstanceType ++ "-" ++ s.FlavorName,
              Name := s.InstanceType ++ " (" ++ s.FlavorName ++ ")",
              MinCost := p * 730 * Float64.ofInt32 s.MinInstances,
              MaxCost := p * 730 * Float64.ofInt32 s.MaxInstances }) := by
  simp only [CalculateCostHandler.calculateRuntimeCost, hp, go_bind, NewRuntimeCost,
    allocRuntimeCost, go_pure, hoursPerMonth]

/-- What `calculateRuntimeCost` does when the lookup fails. -/
theorem calculateRuntimeCost_error {h : CalculateCostHandler} {s : RuntimeSpec} {err : GoError}
    (w : World)
    (hp : (h.pricingRepo.GetFlavorPrice s.InstanceType s.FlavorName).2 = some err) :
    h.calculateRuntimeCost (some s) w = (Outcome.ok (none, some err), w) := by
  cases hq : h.pricingRepo.GetFlavorPrice s.InstanceType s.FlavorName with
  | mk price e =>
    rw [hq] at hp
    simp only at hp
    subst hp
    simp only [CalculateCostHandler.calculateRuntimeCost, hq, go_pure]

theorem cellAt_pushRuntimeCost (w : World) (c : RuntimeCost) :
    cellAt (w.pushRuntimeCost c).runtimeCosts (some w.runtimeCosts.length) = some c := by
  simp [World.pushRuntimeCost, cellAt]

/-- C9, as stated, fails: for the runtime spec `L`, `big` with 1 to 3 instances and the
resolved hourly price 1.1, `calculateRuntimeCost` returns the minimum cost 803.0000000000001
and the maximum cost 2409.0000000000005; neither is the exact product `(p × 730) × a`, whether
`p` is read as the decimal 1.1 (803 and 2409) or as the `float64` value of 1.1. -/
theorem runtime_cost_pricing_counterexample :
    sampleCostly.GetFlavorPrice "L" "big" = (1.1, none) ∧
    (1.1 : Float64) = Float64.fin (2476979795053773 / 2 ^ 51) ∧
    ∃ rc w1 x,
      CalculateCostHandler.calculateRuntimeCost ⟨sampleCostly⟩
          (some ⟨"L", "big", 1, 3⟩) sampleCaller = (Outcome.ok (rc, none), w1) ∧
      cellAt w1.runtimeCosts rc = some x ∧
      x.MinCost = Float64.fin (7063262696833025 / 2 ^ 43) ∧
      x.MaxCost = Float64.fin (5297447022624769 / 2 ^ 41) ∧
      (7063262696833025 / 2 ^ 43 : ℚ) ≠ (11 / 10 * 730) * 1 ∧
      (7063262696833025 / 2 ^ 43 : ℚ) ≠ (2476979795053773 / 2 ^ 51 * 730) * 1 ∧
      (5297447022624769 / 2 ^ 41 : ℚ) ≠ (11 / 10 * 730) * 3 ∧
      (5297447022624769 / 2 ^ 41 : ℚ) ≠ (2476979795053773 / 2 ^ 51 * 730) * 3 := by
  have hp : (⟨sampleCostly⟩ : CalculateCostHandler).pricingRepo.GetFlavorPrice
      (⟨"L", "big", 1, 3⟩ : RuntimeSpec).InstanceType
      (⟨"L", "big", 1, 3⟩ : RuntimeSpec).FlavorName = (1.1, none) := rfl
  have h730 : (730 : Float64) = Float64.fin 730 := Float64.ofNat_eq 730
  have h1 : Float64.ofInt32 (⟨"L", "big", 1, 3⟩ : RuntimeSpec).MinInstances = Float64.fin 1 := by
    show Float64.fin ((1 : ℤ) : ℚ) = _
    norm_num
  have h3 : Float64.ofInt32 (⟨"L", "big", 1, 3⟩ : RuntimeSpec).MaxInstances = Float64.fin 3 := by
    show Float64.fin ((3 : ℤ) : ℚ) = _
    norm_num
  refine ⟨rfl, float64_lit_1_1, _, _, _, calculateRuntimeCost_eq sampleCaller hp,
    cellAt_pushRuntimeCost sampleCaller _, ?_, ?_, ?_, ?_, ?_, ?_⟩
  · show (1.1 : Float64) * 730 * Float64.ofInt32 _ = _
    rw [h1, float64_lit_1_1, h730, float64_monthly_1_1, float64_monthly_1_1_times_1]
  · show (1.1 : Float64) * 730 * Float64.ofInt32 _ = _
    rw [h3, float64_lit_1_1, h730, float64_monthly_1_1, float64_monthly_1_1_times_3]
  · norm_num
  · norm_num
  · norm_num
  · norm_num

/-- C9, amended. Runtime line item pricing in `float64`: for every runtime spec with instance
type `t`, flavor `f`, `a` minimum and `b` maximum instances whose lookup resolves to the
hourly price `p`, `calculateRuntimeCost` returns no error and a new RuntimeCost with
`MinCost = (p × 730) × a` and `MaxCost = (p × 730) × b`, where each of the two products is a
`float64` product, rounded to nearest, `RuntimeID = t ++ "-" ++ f` and
`Name = t ++ " (" ++ f ++ ")"`. -/
theorem runtime_cost_pricing (h : CalculateCostHandler) (s : RuntimeSpec) (p : Float64)
    (w : World)
    (hp : h.pricingRepo.GetFlavorPrice s.InstanceType s.FlavorName = (p, none)) :
    ∃ rc w1,
      h.calculateRuntimeCost (some s) w = (Outcome.ok (rc, none), w1) ∧
      cellAt w1.runtimeCosts rc
        = some { RuntimeID := s.InstanceType ++ "-" ++ s.FlavorName,
                 Name := s.InstanceType ++ " (" ++ s.FlavorName ++ ")",
                 MinCost := (p * 730) * Float64.ofInt32 s.MinInstances,
                 MaxCost := (p * 730) * Float64.ofInt32 s.MaxInstances } :=
  ⟨_, _, calculateRuntimeCost_eq w hp, cellAt_pushRuntimeCost w _⟩

/-- C9, amended, at the concrete input of the specification: `XS`, `pico`, 1 to 3 instances,
0.02 per hour give the minimum cost 14.6, the maximum cost 43.8 and the id `XS-pico`. -/
theorem runtime_cost_pricing_witness :
    samplePricing.GetFlavorPrice "XS" "pico" = (0.02, none) ∧
    ∃ rc w1,
      CalculateCostHandler.calculateRuntimeCost ⟨samplePricing⟩
          (some ⟨"XS", "pico", 1, 3⟩) sampleCaller = (Outcome.ok (rc, none), w1) ∧
      cellAt w1.runtimeCosts rc
        = some { RuntimeID := "XS-pico", Name := "XS (pico)",
                 MinCost := 14.6, MaxCost := 43.8 } := by
  refine ⟨rfl, ?_⟩
  obtain ⟨rc, w1, h1, h2⟩ :=
    runtime_cost_pricing ⟨samplePricing⟩ ⟨"XS", "pico", 1, 3⟩ 0.02 sampleCaller rfl
  refine ⟨rc, w1, h1, ?_⟩
  rw [h2]
  have hid : "XS" ++ "-" ++ "pico" = "XS-pico" := by decide
  have hname : "XS" ++ " (" ++ "pico" ++ ")" = "XS (pico)" := by decide
  have h730 : (730 : Float64) = Float64.fin 730 := Float64.ofNat_eq 730
  have hmin : Float64.ofInt32 (⟨"XS", "pico", 1, 3⟩ : RuntimeSpec).MinInstances
      = Float64.fin 1 := by
    show Float64.fin ((1 : ℤ) : ℚ) = _
    norm_num
  have hmax : Float64.ofInt32 (⟨"XS", "pico", 1, 3⟩ : RuntimeSpec).MaxInstances
      = Float64.fin 3 := by
    show Float64.fin ((3 : ℤ) : ℚ) = _
    norm_num
  rw [hmin, hmax, float64_lit_0_02, h730, float64_monthly_0_02, float64_monthly_0_02_times_1,
    float64_monthly_0_02_times_3, float64_lit_14_6, float64_lit_43_8]
  simp only [hid, hname]

/-- `AddRuntimeCost` on a readable aggregate with a non-nil line item: the item is appended
and the totals are the `float64` sums over the new lists. -/
theorem AddRuntimeCost_content {w : World} {e cost : Ptr} {v : Content} {x : RuntimeCost}
    (hv : content w e = some v) (hx : cellAt w.runtimeCosts cost = some x) :
    ∃ w1, CostEstimation.AddRuntimeCost e cost w = (Outcome.ok (), w1) ∧
      content w1 e = some
        { v with
          RuntimeCosts := v.RuntimeCosts ++ [x],
          MinMonthlyCost :=
            sumFrom (sumFrom 0 ((v.RuntimeCosts ++ [x]).map RuntimeCost.MinCost))
              (v.AddonCosts.map AddonCost.Cost),
          MaxMonthlyCost :=
            sumFrom (sumFrom 0 ((v.RuntimeCosts ++ [x]).map RuntimeCost.MaxCost))
              (v.AddonCosts.map AddonCost.Cost) } ∧
      w1.runtimeCosts = w.runtimeCosts ∧ w1.addonCosts = w.addonCosts ∧
      w1.repositories = w.repositories ∧ w1.estimations.length = w.estimations.length := by
  obtain ⟨c, rcs, acs, hc, hr, ha, rfl⟩ := content_eq_some_iff.mp hv
  refine ⟨_, AddRuntimeCost_eq hc hr ha hx, ?_, rfl, rfl, rfl, by simp⟩
  exact content_writeEstimation hc (readAll_append_of hr (readAll_cons_of hx rfl)) ha

/-- `AddAddonCost` on a readable aggregate with a non-nil line item: the item is appended and
the totals are the `float64` sums over the new lists. -/
theorem AddAddonCost_content {w : World} {e cost : Ptr} {v : Content} {x : AddonCost}
    (hv : content w e = some v) (hx : cellAt w.addonCosts cost = some x) :
    ∃ w1, CostEstimation.AddAddonCost e cost w = (Outcome.ok (), w1) ∧
      content w1 e = some
        { v with
          AddonCosts := v.AddonCosts ++ [x],
          MinMonthlyCost :=
            sumFrom (sumFrom 0 (v.RuntimeCosts.map RuntimeCost.MinCost))
              ((v.AddonCosts ++ [x]).map AddonCost.Cost),
          MaxMonthlyCost :=
            sumFrom (sumFrom 0 (v.RuntimeCosts.map RuntimeCost.MaxCost))
              ((v.AddonCosts ++ [x]).map AddonCost.Cost) } ∧
      w1.runtimeCosts = w.runtimeCosts ∧ w1.addonCosts = w.addonCosts ∧
      w1.repositories = w.repositories ∧ w1.estimations.length = w.estimations.length := by
  obtain ⟨c, rcs, acs, hc, hr, ha, rfl⟩ := content_eq_some_iff.mp hv
  refine ⟨_, AddAddonCost_eq hc hr ha hx, ?_, rfl, rfl, rfl, by simp⟩
  exact content_writeEstimation hc hr (readAll_append_of ha (readAll_cons_of hx rfl))

theorem content_pushRuntimeCost {w : World} {e : Ptr} {v : Content} (x : RuntimeCost)
    (hv : content w e = some v) : content (w.pushRuntimeCost x) e = some v :=
  content_of_append ⟨[], by simp [World.pushRuntimeCost]⟩ ⟨[x], rfl⟩
    ⟨[], by simp [World.pushRuntimeCost]⟩ hv

theorem content_pushAddonCost {w : World} {e : Ptr} {v : Content} (x : AddonCost)
    (hv : content w e = some v) : content (w.pushAddonCost x) e = some v :=
  content_of_append ⟨[], by simp [World.pushAddonCost]⟩ ⟨[], by simp [World.pushAddonCost]⟩
    ⟨[x], rfl⟩ hv

theorem cellAt_pushAddonCost (w : World) (c : AddonCost) :
    cellAt (w.pushAddonCost c).addonCosts (some w.addonCosts.length) = some c := by
  simp [World.pushAddonCost, cellAt]

/-- The runtime loop of `Handle` returns the error of the first failing lookup, wrapped, or
runs to its end and leaves a readable aggregate. -/
theorem Handle_runtimeLoop_eq (h : CalculateCostHandler) (e : Ptr) :
    ∀ (specs : List RuntimeSpec) (w : World) (v : Content), content w e = some v →
      ∃ w1, CalculateCostHandler.Handle.runtimeLoop h e (specs.map some) w
          = (Outcome.ok (firstLookupFailure h.pricingRepo specs), w1) ∧
        (firstLookupFailure h.pricingRepo specs = none → ∃ v1, content w1 e = some v1) := by
  intro specs
  induction specs with
  | nil =>
    intro w v hv
    exact ⟨w, rfl, fun _ => ⟨v, hv⟩⟩
  | cons s rest ih =>
    intro w v hv
    cases hq : h.pricingRepo.GetFlavorPrice s.InstanceType s.FlavorName with
    | mk price oerr =>
      cases oerr with
      | some err =>
        have herr : (h.pricingRepo.GetFlavorPrice s.InstanceType s.FlavorName).2 = some err := by
          rw [hq]
        refine ⟨w, ?_, ?_⟩
        · simp only [List.map_cons, CalculateCostHandler.Handle.runtimeLoop, go_bind,
            calculateRuntimeCost_error w herr, firstLookupFailure, herr, go_pure]
        · intro hnone
          simp [firstLookupFailure, herr] at hnone
      | none =>
        have hnoerr : (h.pricingRepo.GetFlavorPrice s.InstanceType s.FlavorName).2 = none := by
          rw [hq]
        obtain ⟨w1, hadd, hv1, _⟩ :=
          AddRuntimeCost_content (content_pushRuntimeCost _ hv) (cellAt_pushRuntimeCost w
            { RuntimeID := s.InstanceType ++ "-" ++ s.FlavorName,
              Name := s.InstanceType ++ " (" ++ s.FlavorName ++ ")",
              MinCost := price * 730 * Float64.ofInt32 s.MinInstances,
              MaxCost := price * 730 * Float64.ofInt32 s.MaxInstances })
        obtain ⟨w2, hloop, hres⟩ := ih w1 _ hv1
        refine ⟨w2, ?_, ?_⟩
        · simp only [List.map_cons, CalculateCostHandler.Handle.runtimeLoop, go_bind,
            calculateRuntimeCost_eq w hq, hadd, hloop, firstLookupFailure, hnoerr]
        · intro hnone
          apply hres
          simpa [firstLookupFailure, hnoerr] using hnone

/-- The addon loop of `Handle` never fails. -/
theorem Handle_addonLoop_eq (h : CalculateCostHandler) (e : Ptr) :
    ∀ (addons : List AddonSpec) (w : World) (v : Content), content w e = some v →
      ∃ w1 v1, CalculateCostHandler.Handle.addonLoop h e (addons.map some) w
          = (Outcome.ok none, w1) ∧ content w1 e = some v1 := by
  intro addons
  induction addons with
  | nil =>
    intro w v hv
    exact ⟨w, v, rfl, hv⟩
  | cons s rest ih =>
    intro w v hv
    obtain ⟨w1, hadd, hv1, _⟩ :=
      AddAddonCost_content (content_pushAddonCost _ hv) (cellAt_pushAddonCost w
        { AddonID := s.ProviderID ++ "-" ++ s.PlanID,
          Name := s.ProviderID ++ " (" ++ s.PlanID ++ ")", Cost := 0 })
    obtain ⟨w2, v2, hloop, hv2⟩ := ih w1 _ hv1
    refine ⟨w2, v2, ?_, hv2⟩
    simp only [List.map_cons, CalculateCostHandler.Handle.addonLoop, go_bind,
      CalculateCostHandler.calculateAddonCost, NewAddonCost, allocAddonCost, go_pure, hadd, hloop]

theorem firstLookupFailure_eq_none_iff (repo : PricingRepository) (specs : List RuntimeSpec) :
    firstLookupFailure repo specs = none
      ↔ ∀ s ∈ specs, (repo.GetFlavorPrice s.InstanceType s.FlavorName).2 = none := by
  induction specs with
  | nil => simp [firstLookupFailure]
  | cons s rest ih =>
    cases hq : (repo.GetFlavorPrice s.InstanceType s.FlavorName).2 with
    | some err => simp [firstLookupFailure, hq]
    | none => simp [firstLookupFailure, hq, ih]

theorem firstLookupFailure_first (repo : PricingRepository) :
    ∀ (pre : List RuntimeSpec) (s : RuntimeSpec) (post : List RuntimeSpec) (err : GoError),
      (∀ t ∈ pre, (repo.GetFlavorPrice t.InstanceType t.FlavorName).2 = none) →
      (repo.GetFlavorPrice s.InstanceType s.FlavorName).2 = some err →
      firstLookupFailure repo (pre ++ s :: post)
        = some (GoError.wrapError
            ("failed to calculate runtime cost for " ++ s.InstanceType ++ ": " ++ err.Error)
            err) := by
  intro pre
  induction pre with
  | nil =>
    intro s post err _ hs
    simp [firstLookupFailure, hs]
  | cons t pre ih =>
    intro s post err hpre hs
    have ht := hpre t (List.mem_cons_self _ _)
    simp only [List.cons_append, firstLookupFailure, ht]
    exact ih s post err (fun u hu => hpre u (List.mem_cons_of_mem _ hu)) hs

/-- What `Handle` returns on a command whose specs are all non-nil. -/
theorem Handle_eq (h : CalculateCostHandler) (uuid projectID : String)
    (specs : List RuntimeSpec) (addons : List AddonSpec) (w : World) :
    ∃ w1, h.Handle uuid
        (some { ProjectID := projectID, RuntimeSpecs := specs.map some,
                AddonSpecs := addons.map some }) w
      = (Outcome.ok
          (match firstLookupFailure h.pricingRepo specs with
            | some err => (none, some err)
            | none => (some w.estimations.length, none)), w1) := by
  obtain ⟨v, hv, _, _⟩ := NewCostEstimation_totals w uuid projectID
  obtain ⟨w1, hloop, hres⟩ := Handle_runtimeLoop_eq h _ specs _ v hv
  cases hf : firstLookupFailure h.pricingRepo specs with
  | some err =>
    refine ⟨w1, ?_⟩
    rw [hf] at hloop
    simp only [CalculateCostHandler.Handle, go_bind, NewCostEstimation, allocEstimation, hloop,
      go_pure]
  | none =>
    obtain ⟨v1, hv1⟩ := hres hf
    obtain ⟨w2, v2, hloop2, _⟩ := Handle_addonLoop_eq h _ addons w1 v1 hv1
    refine ⟨w2, ?_⟩
    rw [hf] at hloop
    simp only [CalculateCostHandler.Handle, go_bind, NewCostEstimation, allocEstimation, hloop,
      hloop2, go_pure]

/-- C10. CalculateCost fails atomically on an unresolved price: on every command (with non-nil
specs) `Handle` returns, and (1) it returns an error if and only if the price lookup fails
for at least one runtime spec; (2) with an error the returned aggregate pointer is `nil`, and
without one it is not; (3) the error wraps the lookup error of the first failing spec in
input order, with the message `failed to calculate runtime cost for <instance type>: <lookup
error>`; (4) `calculateAddonCost` returns no error on any addon spec, so addon specs never
cause a failure. -/
theorem calculateCost_fails_atomically (h : CalculateCostHandler) (uuid projectID : String)
    (specs : List RuntimeSpec) (addons : List AddonSpec) (w : World) :
    ∃ res w1,
      h.Handle uuid
          (some { ProjectID := projectID, RuntimeSpecs := specs.map some,
                  AddonSpecs := addons.map some }) w = (Outcome.ok res, w1) ∧
      (res.2 ≠ none ↔
        ∃ s ∈ specs, (h.pricingRepo.GetFlavorPrice s.InstanceType s.FlavorName).2 ≠ none) ∧
      (res.2 ≠ none → res.1 = none) ∧
      (res.2 = none → res.1 ≠ none) ∧
      (∀ pre s post err, specs = pre ++ s :: post →
        (∀ t ∈ pre, (h.pricingRepo.GetFlavorPrice t.InstanceType t.FlavorName).2 = none) →
        (h.pricingRepo.GetFlavorPrice s.InstanceType s.FlavorName).2 = some err →
        res = (none, some (GoError.wrapError
          ("failed to calculate runtime cost for " ++ s.InstanceType ++ ": " ++ err.Error)
          err))) ∧
      (∀ (a : AddonSpec) (w2 : World), ∃ ac w3,
        h.calculateAddonCost (some a) w2 = (Outcome.ok (ac, none), w3)) := by
  obtain ⟨w1, hrun⟩ := Handle_eq h uuid projectID specs addons w
  refine ⟨_, w1, hrun, ?_, ?_, ?_, ?_, ?_⟩
  · cases hf : firstLookupFailure h.pricingRepo specs with
    | some err =>
      have hne : ¬ ∀ s ∈ specs,
          (h.pricingRepo.GetFlavorPrice s.InstanceType s.FlavorName).2 = none := by
        intro hall
        rw [(firstLookupFailure_eq_none_iff _ _).mpr hall] at hf
        exact Option.noConfusion hf
      simp only [ne_eq, not_false_eq_true, true_iff, reduceCtorEq]
      by_contra hno
      apply hne
      intro s hs
      by_contra hs2
      exact hno ⟨s, hs, hs2⟩
    | none =>
      have hall := (firstLookupFailure_eq_none_iff _ _).mp hf
      simp only [ne_eq, not_true_eq_false, false_iff, not_exists, not_and, not_not]
      exact hall
  · cases hf : firstLookupFailure h.pricingRepo specs with
    | some err => intro _; rfl
    | none => intro hne; exact absurd rfl hne
  · cases hf : firstLookupFailure h.pricingRepo specs with
    | some err => intro hnone; exact Option.noConfusion hnone
    | none => intro _; exact Option.some_ne_none _
  · intro pre s post err hspecs hpre hs
    rw [hspecs, firstLookupFailure_first _ pre s post err hpre hs]
  · intro a w2
    exact ⟨_, _, rfl⟩

/-! ## Readable stores are the reachable ones -/

theorem GoMap.mem_insert {β : Type} {m : List (String × β)} {k : String} {v : β}
    {kv : String × β} (h : kv ∈ GoMap.insert m k v) : kv = (k, v) ∨ kv ∈ m := by
  induction m with
  | nil =>
    simp only [GoMap.insert, List.mem_singleton] at h
    exact Or.inl h
  | cons x rest ih =>
    obtain ⟨k1, v1⟩ := x
    by_cases hk : k1 = k
    · simp only [GoMap.insert, hk, if_true, List.mem_cons] at h
      rcases h with h | h
      · exact Or.inl h
      · exact Or.inr (List.mem_cons_of_mem _ h)
    · simp only [GoMap.insert, hk, if_false, List.mem_cons] at h
      rcases h with h | h
      · exact Or.inr (h ▸ List.mem_cons_self _ _)
      · rcases ih h with h2 | h2
        · exact Or.inl h2
        · exact Or.inr (List.mem_cons_of_mem _ h2)

theorem GoMap.mem_delete {β : Type} {m : List (String × β)} {k : String} {kv : String × β}
    (h : kv ∈ GoMap.delete m k) : kv ∈ m :=
  (List.mem_filter.mp h).1

theorem GoMap.mem_of_lookup {β : Type} {m : List (String × β)} {k : String} {v : β}
    (h : GoMap.lookup m k = some v) : (k, v) ∈ m := by
  induction m with
  | nil => simp [GoMap.lookup] at h
  | cons x rest ih =>
    obtain ⟨k1, v1⟩ := x
    by_cases hk : k1 = k
    · simp only [GoMap.lookup, hk, if_true, Option.some.injEq] at h
      rw [hk, h]
      exact List.mem_cons_self _ _
    · simp only [GoMap.lookup, hk, if_false] at h
      exact List.mem_cons_of_mem _ (ih h)

/-- A store just created is readable. -/
theorem StoreReadable_new (w : World) :
    ∃ r w1, NewMemoryRepository w = (Outcome.ok r, w1) ∧ StoreReadable w1 r :=
  ⟨_, _, NewMemoryRepository_eq w, ⟨_, cellAt_pushRepository w _, by simp⟩⟩

/-- `Save` of a readable aggregate keeps the store readable. -/
theorem StoreReadable_Save {w : World} {r e : Ptr} {v : Content} (h : StoreReadable w r)
    (he : content w e = some v) :
    ∃ w1, MemoryRepository.Save r e w = (Outcome.ok (v.ID, none), w1) ∧ StoreReadable w1 r := by
  obtain ⟨m, hr, hwf⟩ := h
  obtain ⟨w1, m1, stored, hsave, hm1, hmap, _, hstored, hkeep, _⟩ := Save_FindByID hr he
  refine ⟨w1, hsave, m1, hm1, ?_⟩
  intro kv hkv
  rw [hmap] at hkv
  rcases GoMap.mem_insert hkv with rfl | hmem
  · rw [hstored]; rfl
  · obtain ⟨x, hx⟩ := Option.isSome_iff_exists.mp (hwf kv hmem)
    rw [hkeep _ _ hx]; rfl

/-- `Delete` keeps the store readable. -/
theorem StoreReadable_Delete {w : World} {r : Ptr} (id : String) (h : StoreReadable w r) :
    ∃ w1, MemoryRepository.Delete r id w = (Outcome.ok none, w1) ∧ StoreReadable w1 r := by
  obtain ⟨m, hr, hwf⟩ := h
  refine ⟨_, Delete_eq id hr, _, World.cellAt_writeRepository _ hr, ?_⟩
  intro kv hkv
  exact hwf kv (GoMap.mem_delete hkv)

/-- `FindByID` keeps the store readable. -/
theorem StoreReadable_FindByID {w : World} {r : Ptr} (id : String) (h : StoreReadable w r) :
    ∃ p w1, MemoryRepository.FindByID r id w = (Outcome.ok (p, none), w1) ∧
      StoreReadable w1 r := by
  obtain ⟨m, hr, hwf⟩ := h
  cases hid : GoMap.lookup m.estimations id with
  | none => exact ⟨none, w, FindByID_absent hr hid, m, hr, hwf⟩
  | some stored =>
    have hmem : (id, stored) ∈ m.estimations := GoMap.mem_of_lookup hid
    obtain ⟨v, hv⟩ := Option.isSome_iff_exists.mp (hwf _ hmem)
    obtain ⟨c, rcs, acs, _, _, _, hfind, _⟩ := FindByID_content hr hid hv
    refine ⟨_, _, hfind, m, hr, ?_⟩
    intro kv hkv
    obtain ⟨x, hx⟩ := Option.isSome_iff_exists.mp (hwf kv hkv)
    rw [content_withCopy c rcs acs hx]; rfl

/-- `FindByProjectID` keeps the store readable. -/
theorem StoreReadable_FindByProjectID {w : World} {r : Ptr} (projectID : String)
    (h : StoreReadable w r) :
    ∃ ps w1, MemoryRepository.FindByProjectID r projectID w = (Outcome.ok (ps, none), w1) ∧
      StoreReadable w1 r := by
  obtain ⟨m, hr, hwf⟩ := h
  obtain ⟨news, w1, hloop, _, hkeep, hrepo, _⟩ :=
    FindByProjectID_loop_eq projectID m.estimations w [] hwf
  refine ⟨news, w1, ?_, m, by rw [hrepo]; exact hr, ?_⟩
  · simp only [MemoryRepository.FindByProjectID, go_bind, derefRepository, hr, hloop]
    simp
  · intro kv hkv
    obtain ⟨x, hx⟩ := Option.isSome_iff_exists.mp (hwf kv hkv)
    rw [hkeep _ _ hx]; rfl

/-! ## The calculation: what a successful call builds -/

/-- The runtime loop of `Handle`, when every lookup resolves: it appends the line item derived
from each spec, in input order, and leaves the totals equal to the `float64` sums. -/
theorem Handle_runtimeLoop_content (h : CalculateCostHandler) (e : Ptr) :
    ∀ (specs : List RuntimeSpec) (w : World) (v : Content), content w e = some v →
      (∀ s ∈ specs, (h.pricingRepo.GetFlavorPrice s.InstanceType s.FlavorName).2 = none) →
      v.MinMonthlyCost
        = sumFrom (sumFrom 0 (v.RuntimeCosts.map RuntimeCost.MinCost))
            (v.AddonCosts.map AddonCost.Cost) →
      v.MaxMonthlyCost
        = sumFrom (sumFrom 0 (v.RuntimeCosts.map RuntimeCost.MaxCost))
            (v.AddonCosts.map AddonCost.Cost) →
      ∃ w1, CalculateCostHandler.Handle.runtimeLoop h e (specs.map some) w
          = (Outcome.ok none, w1) ∧
        content w1 e = some
          { v with
            RuntimeCosts := v.RuntimeCosts
              ++ specs.map (fun s => runtimeCostOf (hourlyPriceOf h.pricingRepo s) s),
            MinMonthlyCost :=
              sumFrom (sumFrom 0 ((v.RuntimeCosts
                ++ specs.map (fun s => runtimeCostOf (hourlyPriceOf h.pricingRepo s) s)).map
                  RuntimeCost.MinCost)) (v.AddonCosts.map AddonCost.Cost),
            MaxMonthlyCost :=
              sumFrom (sumFrom 0 ((v.RuntimeCosts
                ++ specs.map (fun s => runtimeCostOf (hourlyPriceOf h.pricingRepo s) s)).map
                  RuntimeCost.MaxCost)) (v.AddonCosts.map AddonCost.Cost) } ∧
        w1.repositories = w.repositories ∧ w1.estimations.length = w.estimations.length := by
  intro specs
  induction specs with
  | nil =>
    intro w v hv _ hmin hmax
    refine ⟨w, rfl, ?_, rfl, rfl⟩
    rw [hv]
    simp only [List.map_nil, List.append_nil, ← hmin, ← hmax]
  | cons s rest ih =>
    intro w v hv hall hmin hmax
    have hs := hall s (List.mem_cons_self _ _)
    cases hq : h.pricingRepo.GetFlavorPrice s.InstanceType s.FlavorName with
    | mk price oerr =>
      rw [hq] at hs
      simp only at hs
      subst hs
      have hprice : hourlyPriceOf h.pricingRepo s = price := by
        simp only [hourlyPriceOf, hq]
      obtain ⟨w1, hadd, hv1, _, _, hrepo1, hlen1⟩ :=
        AddRuntimeCost_content (content_pushRuntimeCost _ hv)
          (cellAt_pushRuntimeCost w (runtimeCostOf price s))
      obtain ⟨w2, hloop, hv2, hrepo2, hlen2⟩ := ih w1 _ hv1
        (fun t ht => hall t (List.mem_cons_of_mem _ ht)) rfl rfl
      refine ⟨w2, ?_, ?_, ?_, ?_⟩
      · have hcalc := calculateRuntimeCost_eq w hq
        simp only [List.map_cons, CalculateCostHandler.Handle.runtimeLoop, go_bind, hcalc]
        have hadd2 : CostEstimation.AddRuntimeCost e (some w.runtimeCosts.length)
            (w.pushRuntimeCost (runtimeCostOf price s)) = (Outcome.ok (), w1) := hadd
        simp only [runtimeCostOf] at hadd2
        simp only [hadd2, hloop]
      · rw [hv2]
        simp only [List.map_cons, hprice, List.append_assoc, List.singleton_append]
      · rw [hrepo2, hrepo1]; rfl
      · rw [hlen2, hlen1]; rfl

/-- The addon loop of `Handle`: it appends the line item derived from each spec, in input
order, and leaves the totals equal to the `float64` sums. -/
theorem Handle_addonLoop_content (h : CalculateCostHandler) (e : Ptr) :
    ∀ (addons : List AddonSpec) (w : World) (v : Content), content w e = some v →
      v.MinMonthlyCost
        = sumFrom (sumFrom 0 (v.RuntimeCosts.map RuntimeCost.MinCost))
            (v.AddonCosts.map AddonCost.Cost) →
      v.MaxMonthlyCost
        = sumFrom (sumFrom 0 (v.RuntimeCosts.map RuntimeCost.MaxCost))
            (v.AddonCosts.map AddonCost.Cost) →
      ∃ w1, CalculateCostHandler.Handle.addonLoop h e (addons.map some) w
          = (Outcome.ok none, w1) ∧
        content w1 e = some
          { v with
            AddonCosts := v.AddonCosts ++ addons.map addonCostOf,
            MinMonthlyCost :=
              sumFrom (sumFrom 0 (v.RuntimeCosts.map RuntimeCost.MinCost))
                ((v.AddonCosts ++ addons.map addonCostOf).map AddonCost.Cost),
            MaxMonthlyCost :=
              sumFrom (sumFrom 0 (v.RuntimeCosts.map RuntimeCost.MaxCost))
                ((v.AddonCosts ++ addons.map addonCostOf).map AddonCost.Cost) } ∧
        w1.repositories = w.repositories ∧ w1.estimations.length = w.estimations.length := by
  intro addons
  induction addons with
  | nil =>
    intro w v hv hmin hmax
    refine ⟨w, rfl, ?_, rfl, rfl⟩
    rw [hv]
    simp only [List.map_nil, List.append_nil, ← hmin, ← hmax]
  | cons s rest ih =>
    intro w v hv hmin hmax
    obtain ⟨w1, hadd, hv1, _, _, hrepo1, hlen1⟩ :=
      AddAddonCost_content (content_pushAddonCost _ hv)
        (cellAt_pushAddonCost w (addonCostOf s))
    obtain ⟨w2, hloop, hv2, hrepo2, hlen2⟩ := ih w1 _ hv1 rfl rfl
    refine ⟨w2, ?_, ?_, ?_, ?_⟩
    · have hadd2 : CostEstimation.AddAddonCost e (some w.addonCosts.length)
          (w.pushAddonCost (addonCostOf s)) = (Outcome.ok (), w1) := hadd
      simp only [addonCostOf] at hadd2
      simp only [List.map_cons, CalculateCostHandler.Handle.addonLoop, go_bind,
        CalculateCostHandler.calculateAddonCost, NewAddonCost, allocAddonCost, go_pure, hadd2,
        hloop]
    · rw [hv2]
      simp only [List.map_cons, List.append_assoc, List.singleton_append]
    · rw [hrepo2, hrepo1]; rfl
    · rw [hlen2, hlen1]; rfl

theorem content_NewCostEstimation (w : World) (uuid projectID : String) :
    content (w.pushEstimation
        { ID := uuid, ProjectID := projectID, MinMonthlyCost := 0, MaxMonthlyCost := 0,
          RuntimeCosts := [], AddonCosts := [] }) (some w.estimations.length)
      = some { ID := uuid, ProjectID := projectID, MinMonthlyCost := 0, MaxMonthlyCost := 0,
               RuntimeCosts := [], AddonCosts := [] } := by
  apply content_eq_some_iff.mpr
  refine ⟨{ ID := uuid, ProjectID := projectID, MinMonthlyCost := 0, MaxMonthlyCost := 0,
            RuntimeCosts := [], AddonCosts := [] }, [], [], ?_, rfl, rfl, rfl⟩
  simp [World.pushEstimation, cellAt]

theorem float64_zero_add_zero : (0 : Float64) + 0 = 0 := by
  rw [Float64.zero_eq, Float64.fin_add_fin, add_zero]
  exact round64_zero

/-- Adding the cost of any number of addon line items to a total of 0 leaves 0. -/
theorem sumFrom_cost_addonCostOf (addons : List AddonSpec) :
    sumFrom 0 ((addons.map addonCostOf).map AddonCost.Cost) = 0 := by
  induction addons with
  | nil => rfl
  | cons s rest ih =>
    simp only [List.map_cons, sumFrom_cons]
    have h0 : (addonCostOf s).Cost = 0 := rfl
    rw [h0, float64_zero_add_zero]
    exact ih

/-- What a successful `Handle` returns: a new aggregate with the generated id, the project id
of the command, the line items derived from the specs in input order, and totals equal to
the `float64` sums over these line items. -/
theorem Handle_content (h : CalculateCostHandler) (uuid projectID : String)
    (specs : List RuntimeSpec) (addons : List AddonSpec) (w : World)
    (hall : ∀ s ∈ specs, (h.pricingRepo.GetFlavorPrice s.InstanceType s.FlavorName).2 = none) :
    ∃ w1, h.Handle uuid
        (some { ProjectID := projectID, RuntimeSpecs := specs.map some,
                AddonSpecs := addons.map some }) w
        = (Outcome.ok (some w.estimations.length, none), w1) ∧
      content w1 (some w.estimations.length) = some
        { ID := uuid, ProjectID := projectID,
          MinMonthlyCost :=
            sumFrom (sumFrom 0
              ((specs.map (fun s => runtimeCostOf (hourlyPriceOf h.pricingRepo s) s)).map
                RuntimeCost.MinCost)) ((addons.map addonCostOf).map AddonCost.Cost),
          MaxMonthlyCost :=
            sumFrom (sumFrom 0
              ((specs.map (fun s => runtimeCostOf (hourlyPriceOf h.pricingRepo s) s)).map
                RuntimeCost.MaxCost)) ((addons.map addonCostOf).map AddonCost.Cost),
          RuntimeCosts := specs.map (fun s => runtimeCostOf (hourlyPriceOf h.pricingRepo s) s),
          AddonCosts := addons.map addonCostOf } ∧
      w1.repositories = w.repositories := by
  obtain ⟨w1, hloop1, hv1, hrepo1, _⟩ :=
    Handle_runtimeLoop_content h _ specs _ _ (content_NewCostEstimation w uuid projectID) hall
      rfl rfl
  obtain ⟨w2, hloop2, hv2, hrepo2, _⟩ :=
    Handle_addonLoop_content h _ addons w1 _ hv1 rfl rfl
  refine ⟨w2, ?_, ?_, ?_⟩
  · simp only [CalculateCostHandler.Handle, go_bind, NewCostEstimation, allocEstimation, hloop1,
      hloop2, go_pure]
  · rw [hv2]
    simp
  · rw [hrepo2, hrepo1]; rfl

/-- C1, as stated, fails: from `NewCostEstimation`, after `AddRuntimeCost` of a line item of
cost 0.1 and `AddAddonCost` of two line items of cost 0.2 and 0.3, the stored `MinMonthlyCost`
is `((0 + 0.1) + 0.2) + 0.3 = 0.6000000000000001`, while
`TotalRuntimeMinCost() + TotalAddonCost()` is `0.1 + 0.5 = 0.6`; the stored total is also not
the sum of the three costs read as exact numbers. -/
theorem totals_invariant_counterexample :
    (∀ call ∈ [AddCall.runtime (some 0), AddCall.addon (some 0), AddCall.addon (some 1)],
      call.NonNil sampleTenths) ∧
    (0.1 : Float64) = Float64.fin (3602879701896397 / 2 ^ 55) ∧
    (0.2 : Float64) = Float64.fin (3602879701896397 / 2 ^ 54) ∧
    (0.3 : Float64) = Float64.fin (5404319552844595 / 2 ^ 54) ∧
    ∃ e w0 w1 v rmin atot,
      NewCostEstimation "id" "project" sampleTenths = (Outcome.ok e, w0) ∧
      runCalls e [AddCall.runtime (some 0), AddCall.addon (some 0), AddCall.addon (some 1)] w0
        = (Outcome.ok (), w1) ∧
      content w1 e = some v ∧
      v.RuntimeCosts.map RuntimeCost.MinCost = [0.1] ∧
      v.AddonCosts.map AddonCost.Cost = [0.2, 0.3] ∧
      v.MinMonthlyCost = Float64.fin (1351079888211149 / 2 ^ 51) ∧
      CostEstimation.TotalRuntimeMinCost e w1 = (Outcome.ok rmin, w1) ∧
      CostEstimation.TotalAddonCost e w1 = (Outcome.ok atot, w1) ∧
      rmin + atot = Float64.fin (5404319552844595 / 2 ^ 53) ∧
      v.MinMonthlyCost ≠ rmin + atot ∧
      (1351079888211149 / 2 ^ 51 : ℚ)
        ≠ 3602879701896397 / 2 ^ 55 + 3602879701896397 / 2 ^ 54
          + 5404319552844595 / 2 ^ 54 := by
  have hv0 := content_NewCostEstimation sampleTenths "id" "project"
  obtain ⟨w1, hrun1, hv1, _, ha1, _, _⟩ :=
    @AddRuntimeCost_content _ _ (some 0) _
      { RuntimeID := "r", Name := "r", MinCost := 0.1, MaxCost := 0.1 } hv0 rfl
  obtain ⟨w2, hrun2, hv2, _, ha2, _, _⟩ :=
    @AddAddonCost_content _ _ (some 0) _ { AddonID := "a", Name := "a", Cost := 0.2 } hv1
      (by rw [ha1]; rfl)
  obtain ⟨w3, hrun3, hv3, _, _, _, _⟩ :=
    @AddAddonCost_content _ _ (some 1) _ { AddonID := "b", Name := "b", Cost := 0.3 } hv2
      (by rw [ha2, ha1]; rfl)
  obtain ⟨hmin, _, hadd⟩ := Total_eq hv3
  have hstored : sumFrom (sumFrom 0 [(0.1 : Float64)]) [0.2, 0.3]
      = Float64.fin (1351079888211149 / 2 ^ 51) := by
    simp only [sumFrom_cons, sumFrom_nil, Float64.zero_eq, float64_lit_0_1, float64_lit_0_2,
      float64_lit_0_3, float64_sum_0_1, float64_sum_0_1_0_2, float64_sum_0_1_0_2_0_3]
  have htotal : sumFrom 0 [(0.1 : Float64)] + sumFrom 0 [(0.2 : Float64), 0.3]
      = Float64.fin (5404319552844595 / 2 ^ 53) := by
    simp only [sumFrom_cons, sumFrom_nil, Float64.zero_eq, float64_lit_0_1, float64_lit_0_2,
      float64_lit_0_3, float64_sum_0_1, float64_sum_0_2, float64_sum_0_2_0_3,
      float64_sum_0_1_0_5]
  refine ⟨by simp [AddCall.NonNil, cellAt, sampleTenths], float64_lit_0_1, float64_lit_0_2,
    float64_lit_0_3, _, _, w3, _, _, _, rfl, ?_, hv3, rfl, rfl, hstored, hmin, hadd, htotal,
    ?_, by norm_num⟩
  · simp only [runCalls, AddCall.run, go_bind]
    rw [hrun1]
    simp only [hrun2]
    rw [hrun3]
    rfl
  · show sumFrom (sumFrom 0 [(0.1 : Float64)]) [0.2, 0.3]
      ≠ sumFrom 0 [(0.1 : Float64)] + sumFrom 0 [(0.2 : Float64), 0.3]
    rw [hstored, htotal]
    intro h
    have h2 := Float64.fin.inj h
    norm_num at h2

/-- C11. Addons are priced at zero: whenever the runtime lookups resolve (in particular when
there is no runtime spec), `Handle` returns an aggregate whose addon line items are, in input
order, one per addon spec with `Cost = 0`, `AddonID = providerId ++ "-" ++ planId` and
`Name = providerId ++ " (" ++ planId ++ ")"`; `calculateAddonCost` builds exactly this line
item for every spec; and with an empty list of runtime specs both totals are 0 whatever the
addon specs. -/
theorem addons_priced_at_zero (h : CalculateCostHandler) (uuid projectID : String)
    (specs : List RuntimeSpec) (addons : List AddonSpec) (w : World)
    (hall : ∀ s ∈ specs, (h.pricingRepo.GetFlavorPrice s.InstanceType s.FlavorName).2 = none) :
    (∃ e w1 v,
      h.Handle uuid
          (some { ProjectID := projectID, RuntimeSpecs := specs.map some,
                  AddonSpecs := addons.map some }) w = (Outcome.ok (e, none), w1) ∧
      content w1 e = some v ∧
      v.AddonCosts = addons.map (fun s =>
        { AddonID := s.ProviderID ++ "-" ++ s.PlanID,
          Name := s.ProviderID ++ " (" ++ s.PlanID ++ ")", Cost := 0 })) ∧
    (∀ (s : AddonSpec) (w0 : World), ∃ ac w1,
      h.calculateAddonCost (some s) w0 = (Outcome.ok (ac, none), w1) ∧
      cellAt w1.addonCosts ac = some
        { AddonID := s.ProviderID ++ "-" ++ s.PlanID,
          Name := s.ProviderID ++ " (" ++ s.PlanID ++ ")", Cost := 0 }) ∧
    (∃ e w1 v,
      h.Handle uuid
          (some { ProjectID := projectID, RuntimeSpecs := [],
                  AddonSpecs := addons.map some }) w = (Outcome.ok (e, none), w1) ∧
      content w1 e = some v ∧ v.MinMonthlyCost = 0 ∧ v.MaxMonthlyCost = 0 ∧
      v.RuntimeCosts = [] ∧ v.AddonCosts.length = addons.length ∧
      ∀ a ∈ v.AddonCosts, a.Cost = 0) := by
  refine ⟨?_, ?_, ?_⟩
  · obtain ⟨w1, hrun, hv, _⟩ := Handle_content h uuid projectID specs addons w hall
    exact ⟨_, w1, _, hrun, hv, rfl⟩
  · intro s w0
    exact ⟨_, _, rfl, cellAt_pushAddonCost w0 _⟩
  · obtain ⟨w1, hrun, hv, _⟩ := Handle_content h uuid projectID [] addons w (by simp)
    refine ⟨_, w1, _, hrun, hv, ?_, ?_, rfl, by simp, ?_⟩
    · exact sumFrom_cost_addonCostOf addons
    · exact sumFrom_cost_addonCostOf addons
    · intro a ha
      obtain ⟨s, _, rfl⟩ := List.mem_map.mp ha
      rfl

/-- C11 at the concrete input of the specification: the addon spec `redis`, `s` and no
runtime spec give one addon line item with the id `redis-s` and the cost 0, and both totals
are 0. -/
theorem addons_priced_at_zero_witness :
    (∀ s ∈ ([] : List RuntimeSpec),
      (samplePricing.GetFlavorPrice s.InstanceType s.FlavorName).2 = none) ∧
    (∃ e w1 v,
      CalculateCostHandler.Handle ⟨samplePricing⟩ "id"
          (some { ProjectID := "project", RuntimeSpecs := [],
                  AddonSpecs := [some ⟨"redis", "s"⟩] }) sampleCaller
        = (Outcome.ok (e, none), w1) ∧
      content w1 e = some v ∧
      v.AddonCosts = [ { AddonID := "redis-s", Name := "redis (s)", Cost := 0 } ]) ∧
    (∀ (s : AddonSpec) (w0 : World), ∃ ac w1,
      CalculateCostHandler.calculateAddonCost ⟨samplePricing⟩ (some s) w0
        = (Outcome.ok (ac, none), w1) ∧
      cellAt w1.addonCosts ac = some
        { AddonID := s.ProviderID ++ "-" ++ s.PlanID,
          Name := s.ProviderID ++ " (" ++ s.PlanID ++ ")", Cost := 0 }) ∧
    (∃ e w1 v,
      CalculateCostHandler.Handle ⟨samplePricing⟩ "id"
          (some { ProjectID := "project", RuntimeSpecs := [],
                  AddonSpecs := [some ⟨"redis", "s"⟩] }) sampleCaller
        = (Outcome.ok (e, none), w1) ∧
      content w1 e = some v ∧ v.MinMonthlyCost = 0 ∧ v.MaxMonthlyCost = 0 ∧
      v.RuntimeCosts = [] ∧ v.AddonCosts.length = 1 ∧
      ∀ a ∈ v.AddonCosts, a.Cost = 0) :=
  ⟨by simp, addons_priced_at_zero ⟨samplePricing⟩ "id" "project" [] [⟨"redis", "s"⟩]
    sampleCaller (by simp)⟩

/-- C12, as stated, fails: for the four runtime specs `sampleFourSpecs` of `XS` / `pico` at
0.02 per hour and no addon, `Handle` returns the runtime line items 14.6, 29.2, 58.4 and 102.2
and the total `MinMonthlyCost` 204.39999999999998, which is neither the sum 204.4 of the
products `(p × 730) × minInstances`, nor the exact sum of the four `float64` products. -/
theorem calculateCost_preserves_order_counterexample :
    (∀ s ∈ sampleFourSpecs,
      (samplePricing.GetFlavorPrice s.InstanceType s.FlavorName) = (0.02, none)) ∧
    ∃ e w1 v,
      CalculateCostHandler.Handle ⟨samplePricing⟩ "id"
          (some { ProjectID := "project", RuntimeSpecs := sampleFourSpecs.map some,
                  AddonSpecs := [] }) sampleCaller = (Outcome.ok (e, none), w1) ∧
      content w1 e = some v ∧
      v.RuntimeCosts.map RuntimeCost.MinCost
        = [ Float64.fin (8219069319951155 / 2 ^ 49), Float64.fin (8219069319951155 / 2 ^ 48),
            Float64.fin (8219069319951155 / 2 ^ 47), Float64.fin (7191685654957261 / 2 ^ 46) ] ∧
      v.MinMonthlyCost = Float64.fin (1797921413739315 / 2 ^ 43) ∧
      (1797921413739315 / 2 ^ 43 : ℚ)
        ≠ (1 / 50 * 730) * 1 + (1 / 50 * 730) * 2 + (1 / 50 * 730) * 4 + (1 / 50 * 730) * 7 ∧
      (1797921413739315 / 2 ^ 43 : ℚ)
        ≠ 8219069319951155 / 2 ^ 49 + 8219069319951155 / 2 ^ 48 + 8219069319951155 / 2 ^ 47
          + 7191685654957261 / 2 ^ 46 := by
  have hall : ∀ s ∈ sampleFourSpecs,
      (samplePricing.GetFlavorPrice s.InstanceType s.FlavorName) = (0.02, none) := by
    intro s hs
    simp only [sampleFourSpecs, List.mem_cons, List.mem_singleton, List.not_mem_nil,
      or_false] at hs
    rcases hs with rfl | rfl | rfl | rfl <;> rfl
  have hall2 : ∀ s ∈ sampleFourSpecs,
      (samplePricing.GetFlavorPrice s.InstanceType s.FlavorName).2 = none := by
    intro s hs
    rw [hall s hs]
  obtain ⟨w1, hrun, hv, _⟩ :=
    Handle_content ⟨samplePricing⟩ "id" "project" sampleFourSpecs [] sampleCaller hall2
  have h730 : (730 : Float64) = Float64.fin 730 := Float64.ofNat_eq 730
  have hprice : ∀ a b : Int, hourlyPriceOf samplePricing ⟨"XS", "pico", a, b⟩ = 0.02 :=
    fun _ _ => rfl
  have hitem : ∀ n : ℕ, Float64.ofInt32 (n : ℤ) = Float64.fin n := by
    intro n
    show Float64.fin (((n : ℤ)) : ℚ) = _
    simp
  have h1 : Float64.ofInt32 1 = Float64.fin 1 := by simpa using hitem 1
  have h2 : Float64.ofInt32 2 = Float64.fin 2 := by simpa using hitem 2
  have h4 : Float64.ofInt32 4 = Float64.fin 4 := by simpa using hitem 4
  have h7 : Float64.ofInt32 7 = Float64.fin 7 := by simpa using hitem 7
  refine ⟨hall, _, w1, _, hrun, hv, ?_, ?_, by norm_num, by norm_num⟩
  · simp only [sampleFourSpecs, List.map_cons, List.map_nil, runtimeCostOf, hprice, h1, h2, h4,
      h7, float64_lit_0_02, h730, float64_monthly_0_02, float64_monthly_0_02_times_1,
      float64_14_6_times_2, float64_14_6_times_4, float64_14_6_times_7]
  · simp only [sampleFourSpecs, List.map_cons, List.map_nil, runtimeCostOf, hprice, h1, h2, h4,
      h7, float64_lit_0_02, h730, float64_monthly_0_02, float64_monthly_0_02_times_1,
      float64_14_6_times_2, float64_14_6_times_4, float64_14_6_times_7, sumFrom_cons,
      sumFrom_nil, Float64.zero_eq, float64_sum_14_6, float64_sum_14_6_29_2,
      float64_sum_43_8_58_4, float64_sum_102_2_102_2]

/-- C12, amended. CalculateCost preserves input order and reflects the final state: whenever
every runtime lookup resolves, `Handle` returns no error and an aggregate whose ID is the
generated one, whose ProjectID is the project id of the command, whose RuntimeCosts has one
item per runtime spec, the i-th derived from the i-th spec, whose AddonCosts has one item per
addon spec, the j-th derived from the j-th spec, and whose MinMonthlyCost and MaxMonthlyCost
are the `float64` sums accumulated from 0, in input order and each addition rounded, over the
`float64` products `(p × 730) × minInstances` and `(p × 730) × maxInstances` of the runtime
specs and then over the zero cost of each addon; with no addon spec they are the accumulated
sums of the products. -/
theorem calculateCost_preserves_order (h : CalculateCostHandler) (uuid projectID : String)
    (specs : List RuntimeSpec) (addons : List AddonSpec) (w : World)
    (hall : ∀ s ∈ specs, (h.pricingRepo.GetFlavorPrice s.InstanceType s.FlavorName).2 = none) :
    ∃ e w1 v,
      h.Handle uuid
          (some { ProjectID := projectID, RuntimeSpecs := specs.map some,
                  AddonSpecs := addons.map some }) w = (Outcome.ok (e, none), w1) ∧
      content w1 e = some v ∧
      v.ID = uuid ∧ v.ProjectID = projectID ∧
      v.RuntimeCosts.length = specs.length ∧
      (∀ i : Nat, v.RuntimeCosts[i]?
        = (specs[i]?).map (fun s => runtimeCostOf (hourlyPriceOf h.pricingRepo s) s)) ∧
      v.AddonCosts.length = addons.length ∧
      (∀ j : Nat, v.AddonCosts[j]? = (addons[j]?).map addonCostOf) ∧
      v.MinMonthlyCost
        = sumFrom (sumFrom 0 (specs.map (fun s =>
            (hourlyPriceOf h.pricingRepo s * 730) * Float64.ofInt32 s.MinInstances)))
            (addons.map (fun _ => 0)) ∧
      v.MaxMonthlyCost
        = sumFrom (sumFrom 0 (specs.map (fun s =>
            (hourlyPriceOf h.pricingRepo s * 730) * Float64.ofInt32 s.MaxInstances)))
            (addons.map (fun _ => 0)) ∧
      (addons = [] →
        v.MinMonthlyCost
          = sumFrom 0 (specs.map (fun s =>
              (hourlyPriceOf h.pricingRepo s * 730) * Float64.ofInt32 s.MinInstances)) ∧
        v.MaxMonthlyCost
          = sumFrom 0 (specs.map (fun s =>
              (hourlyPriceOf h.pricingRepo s * 730) * Float64.ofInt32 s.MaxInstances))) := by
  obtain ⟨w1, hrun, hv, _⟩ := Handle_content h uuid projectID specs addons w hall
  have hmin : sumFrom (sumFrom 0
      ((specs.map (fun s => runtimeCostOf (hourlyPriceOf h.pricingRepo s) s)).map
        RuntimeCost.MinCost)) ((addons.map addonCostOf).map AddonCost.Cost)
      = sumFrom (sumFrom 0 (specs.map (fun s =>
          (hourlyPriceOf h.pricingRepo s * 730) * Float64.ofInt32 s.MinInstances)))
          (addons.map (fun _ => 0)) := by
    rw [List.map_map, List.map_map]
    rfl
  have hmax : sumFrom (sumFrom 0
      ((specs.map (fun s => runtimeCostOf (hourlyPriceOf h.pricingRepo s) s)).map
        RuntimeCost.MaxCost)) ((addons.map addonCostOf).map AddonCost.Cost)
      = sumFrom (sumFrom 0 (specs.map (fun s =>
          (hourlyPriceOf h.pricingRepo s * 730) * Float64.ofInt32 s.MaxInstances)))
          (addons.map (fun _ => 0)) := by
    rw [List.map_map, List.map_map]
    rfl
  refine ⟨_, w1, _, hrun, hv, rfl, rfl, by simp, ?_, by simp, ?_, hmin, hmax, ?_⟩
  · intro i
    simp only [List.getElem?_map]
  · intro j
    simp only [List.getElem?_map]
  · intro hnil
    subst hnil
    exact ⟨hmin, hmax⟩

/-- C12, amended, at a concrete input: two runtime specs of `XS`/`pico` at 0.02 per hour, with
1 to 3 and 2 to 2 instances, and one addon spec; the totals are 43.8 and 73. -/
theorem calculateCost_preserves_order_witness :
    (∀ s ∈ [(⟨"XS", "pico", 1, 3⟩ : RuntimeSpec), ⟨"XS", "pico", 2, 2⟩],
      (samplePricing.GetFlavorPrice s.InstanceType s.FlavorName).2 = none) ∧
    ∃ e w1 v,
      CalculateCostHandler.Handle ⟨samplePricing⟩ "id"
          (some { ProjectID := "project",
                  RuntimeSpecs := [some ⟨"XS", "pico", 1, 3⟩, some ⟨"XS", "pico", 2, 2⟩],
                  AddonSpecs := [some ⟨"redis", "s"⟩] }) sampleCaller
        = (Outcome.ok (e, none), w1) ∧
      content w1 e = some v ∧
      v.ID = "id" ∧ v.ProjectID = "project" ∧
      v.RuntimeCosts.length = 2 ∧ v.AddonCosts.length = 1 ∧
      v.RuntimeCosts[1]? = some (runtimeCostOf 0.02 ⟨"XS", "pico", 2, 2⟩) ∧
      v.AddonCosts[0]? = some (addonCostOf ⟨"redis", "s"⟩) ∧
      v.MinMonthlyCost = 43.8 ∧ v.MaxMonthlyCost = 73 := by
  have hall : ∀ s ∈ [(⟨"XS", "pico", 1, 3⟩ : RuntimeSpec), ⟨"XS", "pico", 2, 2⟩],
      (samplePricing.GetFlavorPrice s.InstanceType s.FlavorName).2 = none := by
    intro s hs
    simp only [List.mem_cons, List.mem_singleton, List.not_mem_nil, or_false] at hs
    rcases hs with rfl | rfl <;> rfl
  obtain ⟨e, w1, v, hrun, hv, hid, hpid, hlen, hitem, hlen2, hitem2, hmin, hmax, _⟩ :=
    calculateCost_preserves_order ⟨samplePricing⟩ "id" "project"
      [⟨"XS", "pico", 1, 3⟩, ⟨"XS", "pico", 2, 2⟩] [⟨"redis", "s"⟩] sampleCaller hall
  have hprice : ∀ a b : Int, hourlyPriceOf samplePricing ⟨"XS", "pico", a, b⟩ = 0.02 :=
    fun _ _ => rfl
  have h730 : (730 : Float64) = Float64.fin 730 := Float64.ofNat_eq 730
  have hcast : ∀ n : ℕ, Float64.ofInt32 (n : ℤ) = Float64.fin n := by
    intro n
    show Float64.fin (((n : ℤ)) : ℚ) = _
    simp
  have h1 : Float64.ofInt32 1 = Float64.fin 1 := by simpa using hcast 1
  have h2 : Float64.ofInt32 2 = Float64.fin 2 := by simpa using hcast 2
  have h3 : Float64.ofInt32 3 = Float64.fin 3 := by simpa using hcast 3
  have h73 : (73 : Float64) = Float64.fin 73 := Float64.ofNat_eq 73
  refine ⟨hall, e, w1, v, hrun, hv, hid, hpid, hlen, hlen2, ?_, ?_, ?_, ?_⟩
  · rw [hitem 1]
    simp only [List.getElem?_cons_succ, List.getElem?_cons_zero, Option.map_some', hprice]
  · rw [hitem2 0]
    rfl
  · rw [hmin]
    simp only [List.map_cons, List.map_nil, hprice, h1, h2, float64_lit_0_02, h730,
      float64_monthly_0_02, float64_monthly_0_02_times_1, float64_14_6_times_2, sumFrom_cons,
      sumFrom_nil, Float64.zero_eq, float64_sum_14_6, float64_sum_14_6_29_2,
      float64_sum_43_8_0, float64_lit_43_8]
  · rw [hmax]
    simp only [List.map_cons, List.map_nil, hprice, h2, h3, float64_lit_0_02, h730,
      float64_monthly_0_02, float64_monthly_0_02_times_3, float64_14_6_times_2, sumFrom_cons,
      sumFrom_nil, Float64.zero_eq, float64_sum_43_8, float64_sum_43_8_29_2,
      float64_sum_73_0, h73]

/-- C13, as stated, fails. (1) For the runtime spec `XS`, `pico` with 3 minimum and 1 maximum
instances and the resolved hourly price 0.02, which is not negative, `calculateRuntimeCost`
returns a RuntimeCost whose MinCost, 43.8, is greater than its MaxCost, 14.6. (2) For the
runtime spec `H`, `max` with 0 minimum and 1 maximum instances and the resolved hourly price
1e306, the monthly price overflows to `+Inf`, MinCost is `+Inf × 0`, a NaN, MaxCost is `+Inf`,
and `MinCost ≤ MaxCost` is false. -/
theorem runtime_cost_ordering_counterexample :
    (samplePricing.GetFlavorPrice "XS" "pico" = (0.02, none) ∧ (0 : Float64) ≤ 0.02 ∧
      ∃ rc w1 x,
        CalculateCostHandler.calculateRuntimeCost ⟨samplePricing⟩
            (some ⟨"XS", "pico", 3, 1⟩) sampleCaller = (Outcome.ok (rc, none), w1) ∧
        cellAt w1.runtimeCosts rc = some x ∧
        x.MinCost = 43.8 ∧ x.MaxCost = 14.6 ∧ ¬ (x.MinCost ≤ x.MaxCost)) ∧
    (sampleHuge.GetFlavorPrice "H" "max" = (1e306, none) ∧ (0 : Float64) ≤ 1e306 ∧
      (0 : Int) ≤ 1 ∧
      ∃ rc w1 x,
        CalculateCostHandler.calculateRuntimeCost ⟨sampleHuge⟩
            (some ⟨"H", "max", 0, 1⟩) sampleCaller = (Outcome.ok (rc, none), w1) ∧
        cellAt w1.runtimeCosts rc = some x ∧
        x.MinCost = Float64.nan ∧ x.MaxCost = Float64.posInf ∧
        ¬ (x.MinCost ≤ x.MaxCost)) := by
  have h730 : (730 : Float64) = Float64.fin 730 := Float64.ofNat_eq 730
  have hcast : ∀ n : ℕ, Float64.ofInt32 (n : ℤ) = Float64.fin n := by
    intro n
    show Float64.fin (((n : ℤ)) : ℚ) = _
    simp
  have h0 : Float64.ofInt32 0 = Float64.fin 0 := by simpa using hcast 0
  have h1 : Float64.ofInt32 1 = Float64.fin 1 := by simpa using hcast 1
  have h3 : Float64.ofInt32 3 = Float64.fin 3 := by simpa using hcast 3
  constructor
  · have hp : (⟨samplePricing⟩ : CalculateCostHandler).pricingRepo.GetFlavorPrice
        (⟨"XS", "pico", 3, 1⟩ : RuntimeSpec).InstanceType
        (⟨"XS", "pico", 3, 1⟩ : RuntimeSpec).FlavorName = (0.02, none) := rfl
    have hmin : (0.02 : Float64) * 730 * Float64.ofInt32 3 = 43.8 := by
      rw [h3, float64_lit_0_02, h730, float64_monthly_0_02, float64_monthly_0_02_times_3,
        float64_lit_43_8]
    have hmax : (0.02 : Float64) * 730 * Float64.ofInt32 1 = 14.6 := by
      rw [h1, float64_lit_0_02, h730, float64_monthly_0_02, float64_monthly_0_02_times_1,
        float64_lit_14_6]
    refine ⟨rfl, ?_, _, _, _, calculateRuntimeCost_eq sampleCaller hp,
      cellAt_pushRuntimeCost sampleCaller _, hmin, hmax, ?_⟩
    · rw [Float64.zero_eq, float64_lit_0_02, Float64.fin_le_fin]
      norm_num
    · show ¬ ((0.02 : Float64) * 730 * Float64.ofInt32 3
          ≤ (0.02 : Float64) * 730 * Float64.ofInt32 1)
      rw [hmin, hmax, float64_lit_43_8, float64_lit_14_6, Float64.fin_le_fin]
      norm_num
  · have hp : (⟨sampleHuge⟩ : CalculateCostHandler).pricingRepo.GetFlavorPrice
        (⟨"H", "max", 0, 1⟩ : RuntimeSpec).InstanceType
        (⟨"H", "max", 0, 1⟩ : RuntimeSpec).FlavorName = (1e306, none) := rfl
    have hinf : (1e306 : Float64) * 730 = Float64.posInf := by
      rw [float64_lit_1e306, h730, float64_monthly_1e306]
    have hmin : (1e306 : Float64) * 730 * Float64.ofInt32 0 = Float64.nan := by
      rw [hinf, h0]
      show Float64.infTimes true 0 = _
      simp [Float64.infTimes]
    have hmax : (1e306 : Float64) * 730 * Float64.ofInt32 1 = Float64.posInf := by
      rw [hinf, h1]
      show Float64.infTimes true 1 = _
      simp [Float64.infTimes]
    refine ⟨rfl, ?_, by decide, _, _, _, calculateRuntimeCost_eq sampleCaller hp,
      cellAt_pushRuntimeCost sampleCaller _, hmin, hmax, ?_⟩
    · rw [Float64.zero_eq, float64_lit_1e306, Float64.fin_le_fin]
      norm_num
    · show ¬ ((1e306 : Float64) * 730 * Float64.ofInt32 0
          ≤ (1e306 : Float64) * 730 * Float64.ofInt32 1)
      rw [hmin, hmax]
      decide

/-- C13, amended. RuntimeCost ordering: for every runtime spec whose minimum instance count
is at most its maximum instance count and every resolved non-negative hourly price `p` whose
monthly price `p × 730` is finite (the product does not overflow `float64`),
`calculateRuntimeCost` returns a RuntimeCost with `MinCost ≤ MaxCost`. -/
theorem runtime_cost_ordering (h : CalculateCostHandler) (s : RuntimeSpec) (p : Float64)
    (w : World)
    (hp : h.pricingRepo.GetFlavorPrice s.InstanceType s.FlavorName = (p, none))
    (hnn : 0 ≤ p) (hfin : ∃ m, p * 730 = Float64.fin m)
    (hle : s.MinInstances ≤ s.MaxInstances) :
    ∃ rc w1 x,
      h.calculateRuntimeCost (some s) w = (Outcome.ok (rc, none), w1) ∧
      cellAt w1.runtimeCosts rc = some x ∧ x.MinCost ≤ x.MaxCost := by
  obtain ⟨m, hm⟩ := hfin
  have h0 : (0 : ℚ) ≤ m := by
    have := float64_mul_730_nonneg hnn
    rw [hm, Float64.zero_eq, Float64.fin_le_fin] at this
    exact this
  refine ⟨_, _, _, calculateRuntimeCost_eq w hp, cellAt_pushRuntimeCost w _, ?_⟩
  show p * 730 * Float64.ofInt32 s.MinInstances ≤ p * 730 * Float64.ofInt32 s.MaxInstances
  rw [hm, Float64.ofInt32_eq, Float64.ofInt32_eq, Float64.fin_mul_fin, Float64.fin_mul_fin]
  exact round64_mono (mul_le_mul_of_nonneg_left (Int.cast_le.mpr hle) h0)

/-- C13, amended, at a concrete input: `XS`, `pico`, 1 to 3 instances at 0.02 per hour, whose
monthly price is 14.6. -/
theorem runtime_cost_ordering_witness :
    samplePricing.GetFlavorPrice "XS" "pico" = (0.02, none) ∧ (0 : Float64) ≤ 0.02 ∧
    (∃ m, (0.02 : Float64) * 730 = Float64.fin m) ∧ ((1 : Int) ≤ 3) ∧
    ∃ rc w1 x,
      CalculateCostHandler.calculateRuntimeCost ⟨samplePricing⟩
          (some ⟨"XS", "pico", 1, 3⟩) sampleCaller = (Outcome.ok (rc, none), w1) ∧
      cellAt w1.runtimeCosts rc = some x ∧ x.MinCost ≤ x.MaxCost := by
  have h730 : (730 : Float64) = Float64.fin 730 := Float64.ofNat_eq 730
  have hnn : (0 : Float64) ≤ 0.02 := by
    rw [Float64.zero_eq, float64_lit_0_02, Float64.fin_le_fin]
    norm_num
  have hfin : ∃ m, (0.02 : Float64) * 730 = Float64.fin m :=
    ⟨_, by rw [float64_lit_0_02, h730, float64_monthly_0_02]⟩
  exact ⟨rfl, hnn, hfin, by decide,
    runtime_cost_ordering ⟨samplePricing⟩ ⟨"XS", "pico", 1, 3⟩ 0.02 sampleCaller rfl
      hnn hfin (by decide)⟩

/-! ## Instances: price range -/

theorem GetAvailableFlavors_loop_eq (w : World) :
    ∀ (flavors : List Flavor) (available : List (Option Flavor)),
      Instance.GetAvailableFlavors.loop available (flavors.map some) w
        = (Outcome.ok (available ++ (flavors.filter (fun f => f.Available)).map some), w) := by
  intro flavors
  induction flavors with
  | nil => intro available; simp [Instance.GetAvailableFlavors.loop]
  | cons f rest ih =>
    intro available
    by_cases hf : f.Available = true
    · simp only [List.map_cons, Instance.GetAvailableFlavors.loop, hf, if_true, ih,
        List.filter_cons_of_pos, List.append_assoc, List.singleton_append]
    · simp only [List.map_cons, Instance.GetAvailableFlavors.loop, hf, if_false, ih,
        List.filter_cons_of_neg, not_false_eq_true, Bool.false_eq_true]

theorem GetAvailableFlavors_eq (x : Instance) (flavors : List Flavor) (w : World)
    (hfl : x.Flavors = flavors.map some) :
    Instance.GetAvailableFlavors (some x) w
      = (Outcome.ok ((flavors.filter (fun f => f.Available)).map some), w) := by
  simp only [Instance.GetAvailableFlavors, hfl, GetAvailableFlavors_loop_eq, List.nil_append]

theorem float64_zero_le_zero : (0 : Float64) ≤ 0 := by
  rw [Float64.zero_eq, Float64.fin_le_fin]

theorem float64_neg_one_lt_zero : (-1 : Float64) < 0 := by
  show Float64.fin (-((1 : ℕ) : ℚ)) < Float64.fin ((0 : ℕ) : ℚ)
  rw [Float64.fin_lt_fin]
  norm_num

/-- The loop of `MinPrice` from a non-negative value over non-negative prices computes the
minimum of that value and the prices. -/
theorem MinPrice_loop_eq (w : World) :
    ∀ (fs : List Flavor) (acc : Float64), 0 ≤ acc → (∀ f ∈ fs, 0 ≤ f.PricePerHour) →
      ∃ r, Instance.MinPrice.loop acc (fs.map some) w = (Outcome.ok r, w) ∧
        0 ≤ r ∧ r ≤ acc ∧ (∀ f ∈ fs, r ≤ f.PricePerHour * 730) ∧
        (r = acc ∨ r ∈ fs.map (fun f => f.PricePerHour * 730)) := by
  intro fs
  induction fs with
  | nil =>
    intro acc hacc _
    exact ⟨acc, rfl, hacc, (float64_le_refl_of_le hacc).2, by simp, Or.inl rfl⟩
  | cons f rest ih =>
    intro acc hacc hnn
    have hf : 0 ≤ f.PricePerHour * 730 :=
      float64_mul_730_nonneg (hnn f (List.mem_cons_self _ _))
    have hrest : ∀ g ∈ rest, 0 ≤ g.PricePerHour := fun g hg => hnn g (List.mem_cons_of_mem _ hg)
    by_cases hlt : f.PricePerHour * 730 < acc
    · obtain ⟨r, hloop, h0, hle, hall, hmem⟩ := ih (f.PricePerHour * 730) hf hrest
      refine ⟨r, ?_, h0, float64_le_trans hle (float64_le_of_lt hlt), ?_, ?_⟩
      · simp only [List.map_cons, Instance.MinPrice.loop, go_bind, Flavor.MonthlyPrice, go_pure,
          hlt, or_true, if_true, hloop]
      · intro g hg
        rcases List.mem_cons.mp hg with rfl | hg
        · exact hle
        · exact hall g hg
      · right
        rcases hmem with rfl | hmem
        · exact List.mem_cons_self _ _
        · exact List.mem_cons_of_mem _ hmem
    · obtain ⟨r, hloop, h0, hle, hall, hmem⟩ := ih acc hacc hrest
      have hnot : ¬ (acc < 0 ∨ f.PricePerHour * 730 < acc) := by
        intro h
        rcases h with h | h
        · exact float64_not_lt_of_le hacc h
        · exact hlt h
      refine ⟨r, ?_, h0, hle, ?_, ?_⟩
      · simp only [List.map_cons, Instance.MinPrice.loop, go_bind, Flavor.MonthlyPrice, go_pure,
          hnot, if_false, hloop]
      · intro g hg
        rcases List.mem_cons.mp hg with rfl | hg
        · exact float64_le_trans hle
            (float64_le_of_not_lt (float64_le_refl_of_le hf).2 (float64_le_refl_of_le hacc).2
              hlt)
        · exact hall g hg
      · rcases hmem with rfl | hmem
        · exact Or.inl rfl
        · exact Or.inr (List.mem_cons_of_mem _ hmem)

/-- The loop of `MaxPrice` from a non-negative value over non-negative prices computes the
maximum of that value and the prices. -/
theorem MaxPrice_loop_eq (w : World) :
    ∀ (fs : List Flavor) (acc : Float64), 0 ≤ acc → (∀ f ∈ fs, 0 ≤ f.PricePerHour) →
      ∃ r, Instance.MaxPrice.loop acc (fs.map some) w = (Outcome.ok r, w) ∧
        acc ≤ r ∧ (∀ f ∈ fs, f.PricePerHour * 730 ≤ r) ∧
        (r = acc ∨ r ∈ fs.map (fun f => f.PricePerHour * 730)) := by
  intro fs
  induction fs with
  | nil =>
    intro acc hacc _
    exact ⟨acc, rfl, (float64_le_refl_of_le hacc).2, by simp, Or.inl rfl⟩
  | cons f rest ih =>
    intro acc hacc hnn
    have hf : 0 ≤ f.PricePerHour * 730 :=
      float64_mul_730_nonneg (hnn f (List.mem_cons_self _ _))
    have hrest : ∀ g ∈ rest, 0 ≤ g.PricePerHour := fun g hg => hnn g (List.mem_cons_of_mem _ hg)
    by_cases hgt : f.PricePerHour * 730 > acc
    · obtain ⟨r, hloop, hle, hall, hmem⟩ := ih (f.PricePerHour * 730) hf hrest
      refine ⟨r, ?_, float64_le_trans (float64_le_of_lt hgt) hle, ?_, ?_⟩
      · simp only [List.map_cons, Instance.MaxPrice.loop, go_bind, Flavor.MonthlyPrice, go_pure,
          hgt, if_true, hloop]
      · intro g hg
        rcases List.mem_cons.mp hg with rfl | hg
        · exact hle
        · exact hall g hg
      · right
        rcases hmem with rfl | hmem
        · exact List.mem_cons_self _ _
        · exact List.mem_cons_of_mem _ hmem
    · obtain ⟨r, hloop, hle, hall, hmem⟩ := ih acc hacc hrest
      refine ⟨r, ?_, hle, ?_, ?_⟩
      · simp only [List.map_cons, Instance.MaxPrice.loop, go_bind, Flavor.MonthlyPrice, go_pure,
          hgt, if_false, hloop]
      · intro g hg
        rcases List.mem_cons.mp hg with rfl | hg
        · exact float64_le_trans
            (float64_le_of_not_lt (float64_le_refl_of_le hacc).2 (float64_le_refl_of_le hf).2
              hgt) hle
        · exact hall g hg
      · rcases hmem with rfl | hmem
        · exact Or.inl rfl
        · exact Or.inr (List.mem_cons_of_mem _ hmem)

/-- `MinPrice` over non-negative prices: the minimum monthly price of the available flavors,
0 when there is none. -/
theorem MinPrice_eq (x : Instance) (flavors : List Flavor) (w : World)
    (hfl : x.Flavors = flavors.map some) (hnn : ∀ f ∈ flavors, 0 ≤ f.PricePerHour) :
    ∃ lo, Instance.MinPrice (some x) w = (Outcome.ok lo, w) ∧
      (availableMonthlyPrices flavors = [] → lo = 0) ∧
      (availableMonthlyPrices flavors ≠ [] →
        lo ∈ availableMonthlyPrices flavors ∧ ∀ q ∈ availableMonthlyPrices flavors, lo ≤ q) := by
  have hav : ∀ f ∈ flavors.filter (fun f => f.Available), 0 ≤ f.PricePerHour :=
    fun f hf => hnn f (List.mem_filter.mp hf).1
  unfold availableMonthlyPrices
  cases hfilter : flavors.filter (fun f => f.Available) with
  | nil =>
    refine ⟨0, ?_, fun _ => rfl, fun h => absurd rfl h⟩
    simp only [Instance.MinPrice, go_bind, GetAvailableFlavors_eq x flavors w hfl, hfilter,
      List.map_nil, Instance.MinPrice.loop, go_pure, float64_neg_one_lt_zero, if_true]
  | cons f rest =>
    rw [hfilter] at hav
    have hf : 0 ≤ f.PricePerHour * 730 :=
      float64_mul_730_nonneg (hav f (List.mem_cons_self _ _))
    obtain ⟨r, hloop, h0, hle, hall, hmem⟩ := MinPrice_loop_eq w rest (f.PricePerHour * 730) hf
      (fun g hg => hav g (List.mem_cons_of_mem _ hg))
    refine ⟨r, ?_, ?_, ?_⟩
    · have hneg : ((-1 : Float64) < 0 ∨ f.PricePerHour * 730 < -1) :=
        Or.inl float64_neg_one_lt_zero
      simp only [Instance.MinPrice, go_bind, GetAvailableFlavors_eq x flavors w hfl, hfilter,
        List.map_cons, Instance.MinPrice.loop, Flavor.MonthlyPrice, go_pure, hneg, if_true,
        hloop, float64_not_lt_of_le h0, if_false]
    · intro h
      simp at h
    · intro _
      refine ⟨?_, ?_⟩
      · rcases hmem with rfl | hmem
        · exact List.mem_cons_self _ _
        · exact List.mem_cons_of_mem _ hmem
      · intro q hq
        simp only [List.map_cons, List.mem_cons, List.mem_map] at hq
        rcases hq with rfl | ⟨g, hg, rfl⟩
        · exact hle
        · exact hall g hg

/-- `MaxPrice` over non-negative prices: the maximum monthly price of the available flavors,
0 when there is none. -/
theorem MaxPrice_eq (x : Instance) (flavors : List Flavor) (w : World)
    (hfl : x.Flavors = flavors.map some) (hnn : ∀ f ∈ flavors, 0 ≤ f.PricePerHour) :
    ∃ hi, Instance.MaxPrice (some x) w = (Outcome.ok hi, w) ∧
      (availableMonthlyPrices flavors = [] → hi = 0) ∧
      (availableMonthlyPrices flavors ≠ [] →
        hi ∈ availableMonthlyPrices flavors ∧ ∀ q ∈ availableMonthlyPrices flavors, q ≤ hi) := by
  have hav : ∀ f ∈ flavors.filter (fun f => f.Available), 0 ≤ f.PricePerHour :=
    fun f hf => hnn f (List.mem_filter.mp hf).1
  obtain ⟨r, hloop, hle, hall, hmem⟩ :=
    MaxPrice_loop_eq w (flavors.filter (fun f => f.Available)) 0 float64_zero_le_zero hav
  refine ⟨r, ?_, ?_, ?_⟩
  · simp only [Instance.MaxPrice, go_bind, GetAvailableFlavors_eq x flavors w hfl, hloop]
  · intro hnil
    rcases hmem with rfl | hmem
    · rfl
    · unfold availableMonthlyPrices at hnil
      rw [hnil] at hmem
      simp at hmem
  · intro hne
    have hbound : ∀ q ∈ availableMonthlyPrices flavors, q ≤ r := by
      intro q hq
      obtain ⟨g, hg, rfl⟩ := List.mem_map.mp hq
      exact hall g hg
    refine ⟨?_, hbound⟩
    rcases hmem with rfl | hmem
    · cases hprices : availableMonthlyPrices flavors with
      | nil => exact absurd hprices hne
      | cons q rest =>
        have hq : q ∈ availableMonthlyPrices flavors := by rw [hprices]; exact List.mem_cons_self _ _
        have hq0 : q ≤ 0 := hbound q hq
        obtain ⟨g, hg, hgq⟩ := List.mem_map.mp hq
        have hq1 : 0 ≤ q := by
          rw [← hgq]
          exact float64_mul_730_nonneg (hav g hg)
        have : q = 0 := float64_le_antisymm hq0 hq1
        rw [this]
        exact List.mem_cons_self _ _
    · exact hmem

theorem availableMonthlyPrices_filter (flavors : List Flavor) :
    availableMonthlyPrices (flavors.filter (fun f => f.Available))
      = availableMonthlyPrices flavors := by
  simp [availableMonthlyPrices, List.filter_filter]

theorem GetAvailableFlavors_filter (x : Instance) (flavors : List Flavor) (w : World)
    (hfl : x.Flavors = flavors.map some) :
    Instance.GetAvailableFlavors
        (some { x with Flavors := (flavors.filter (fun f => f.Available)).map some }) w
      = Instance.GetAvailableFlavors (some x) w := by
  rw [GetAvailableFlavors_eq x flavors w hfl,
    GetAvailableFlavors_eq _ (flavors.filter (fun f => f.Available)) w rfl]
  simp [List.filter_filter]

/-- C14. Instance price range: for every instance whose flavors are non-nil with non-negative
hourly prices, `MinPrice()` and `MaxPrice()` return; when no flavor is available both are 0;
otherwise `MinPrice()` is the least and `MaxPrice()` the greatest of `PricePerHour × 730` over
the available flavors; and both are the values the instance has when its unavailable flavors
are removed, so unavailable flavors influence neither. -/
theorem instance_price_range (x : Instance) (flavors : List Flavor) (w : World)
    (hfl : x.Flavors = flavors.map some) (hnn : ∀ f ∈ flavors, 0 ≤ f.PricePerHour) :
    ∃ lo hi,
      Instance.MinPrice (some x) w = (Outcome.ok lo, w) ∧
      Instance.MaxPrice (some x) w = (Outcome.ok hi, w) ∧
      (availableMonthlyPrices flavors = [] → lo = 0 ∧ hi = 0) ∧
      (availableMonthlyPrices flavors ≠ [] →
        lo ∈ availableMonthlyPrices flavors ∧ (∀ q ∈ availableMonthlyPrices flavors, lo ≤ q) ∧
        hi ∈ availableMonthlyPrices flavors ∧ (∀ q ∈ availableMonthlyPrices flavors, q ≤ hi)) ∧
      Instance.MinPrice
          (some { x with Flavors := (flavors.filter (fun f => f.Available)).map some }) w
        = (Outcome.ok lo, w) ∧
      Instance.MaxPrice
          (some { x with Flavors := (flavors.filter (fun f => f.Available)).map some }) w
        = (Outcome.ok hi, w) := by
  obtain ⟨lo, hmin, hmin0, hmin1⟩ := MinPrice_eq x flavors w hfl hnn
  obtain ⟨hi, hmax, hmax0, hmax1⟩ := MaxPrice_eq x flavors w hfl hnn
  refine ⟨lo, hi, hmin, hmax, fun h => ⟨hmin0 h, hmax0 h⟩,
    fun h => ⟨(hmin1 h).1, (hmin1 h).2, (hmax1 h).1, (hmax1 h).2⟩, ?_, ?_⟩
  · simp only [Instance.MinPrice, go_bind, GetAvailableFlavors_filter x flavors w hfl]
    exact hmin
  · simp only [Instance.MaxPrice, go_bind, GetAvailableFlavors_filter x flavors w hfl]
    exact hmax

/-- C14 at a concrete input: with `pico` (0.02) and `M` (0.05) available and `nano` (0.01) not
available, the minimum is 14.6 and the maximum 36.5; the cheaper unavailable flavor does not
count. -/
theorem instance_price_range_witness :
    sampleInstance.Flavors = sampleFlavors.map some ∧
    (∀ f ∈ sampleFlavors, 0 ≤ f.PricePerHour) ∧
    ∃ lo hi,
      Instance.MinPrice (some sampleInstance) sampleCaller = (Outcome.ok lo, sampleCaller) ∧
      Instance.MaxPrice (some sampleInstance) sampleCaller = (Outcome.ok hi, sampleCaller) ∧
      lo = 14.6 ∧ hi = 36.5 := by
  have hnn : ∀ f ∈ sampleFlavors, 0 ≤ f.PricePerHour := by
    intro f hf
    simp only [sampleFlavors, List.mem_cons, List.mem_singleton, List.not_mem_nil,
      or_false] at hf
    rcases hf with rfl | rfl | rfl
    · show (0 : Float64) ≤ 0.02
      rw [Float64.zero_eq, float64_lit_0_02, Float64.fin_le_fin]
      norm_num
    · show (0 : Float64) ≤ 0.01
      rw [Float64.zero_eq, float64_lit_0_01, Float64.fin_le_fin]
      norm_num
    · show (0 : Float64) ≤ 0.05
      rw [Float64.zero_eq, float64_lit_0_05, Float64.fin_le_fin]
      norm_num
  obtain ⟨lo, hi, hmin, hmax, _, h1, _, _⟩ :=
    instance_price_range sampleInstance sampleFlavors sampleCaller rfl hnn
  have h730 : (730 : Float64) = Float64.fin 730 := Float64.ofNat_eq 730
  have hprices : availableMonthlyPrices sampleFlavors
      = [(0.02 : Float64) * 730, (0.05 : Float64) * 730] := rfl
  have hpico : (0.02 : Float64) * 730 = Float64.fin (8219069319951155 / 2 ^ 49) := by
    rw [float64_lit_0_02, h730, float64_monthly_0_02]
  have hm : (0.05 : Float64) * 730 = Float64.fin (73 / 2 ^ 1) := by
    rw [float64_lit_0_05, h730, float64_monthly_0_05]
  rw [hprices, hpico, hm] at h1
  obtain ⟨hlo, hlob, hhi, hhib⟩ := h1 (by simp)
  refine ⟨rfl, hnn, lo, hi, hmin, hmax, ?_, ?_⟩
  · simp only [List.mem_cons, List.mem_singleton, List.not_mem_nil, or_false] at hlo
    rcases hlo with h | h
    · rw [h, float64_lit_14_6]
    · have hb := hlob (Float64.fin (8219069319951155 / 2 ^ 49)) (List.mem_cons_self _ _)
      rw [h, Float64.fin_le_fin] at hb
      norm_num at hb
  · simp only [List.mem_cons, List.mem_singleton, List.not_mem_nil, or_false] at hhi
    rcases hhi with h | h
    · have hb := hhib (Float64.fin (73 / 2 ^ 1)) (List.mem_cons_of_mem _ (List.mem_cons_self _ _))
      rw [h, Float64.fin_le_fin] at hb
      norm_num at hb
    · rw [h, float64_lit_36_5]

/-! ## The query and command handlers -/

/-- C15. GetEstimation result classification: for every store (any implementation of the
interface, in any state) and estimation id, `Handle` (1) on the empty id returns a `nil`
result and the error `estimation ID is required`, without calling the store; on a non-empty
id it calls the store's `FindByID` and (3) returns a `nil` result and the store's own error
when there is one, (2) returns a `nil` result and `ErrEstimationNotFound` when the store
returns `(nil, nil)`, (4) returns the aggregate the store returned otherwise; and the error
for the empty id is not `ErrEstimationNotFound`. -/
theorem getEstimation_classification (h : GetEstimationHandler) (id : String)
    (w w1 : World) (res : Ptr × Option GoError) (hid : id ≠ "")
    (hfind : h.estimationRepo.FindByID id w = (Outcome.ok res, w1)) :
    h.Handle (some { EstimationID := "" }) w
      = (Outcome.ok (none, some (GoError.errorString "estimation ID is required")), w) ∧
    (∀ err, res.2 = some err →
      h.Handle (some { EstimationID := id }) w = (Outcome.ok (none, some err), w1)) ∧
    (res = (none, none) →
      h.Handle (some { EstimationID := id }) w
        = (Outcome.ok (none, some ErrEstimationNotFound), w1)) ∧
    (∀ a, res = (some a, none) →
      h.Handle (some { EstimationID := id }) w
        = (Outcome.ok (some { Estimation := some a }, none), w1)) ∧
    GoError.errorString "estimation ID is required" ≠ ErrEstimationNotFound := by
  refine ⟨?_, ?_, ?_, ?_, ?_⟩
  · simp [GetEstimationHandler.Handle]
  · intro err herr
    simp only [GetEstimationHandler.Handle, hid, if_false, go_bind, hfind, herr, go_pure]
  · intro hres
    subst hres
    simp only [GetEstimationHandler.Handle, hid, if_false, go_bind, hfind, go_pure]
  · intro a hres
    subst hres
    simp only [GetEstimationHandler.Handle, hid, if_false, go_bind, hfind, go_pure]
  · simp [ErrEstimationNotFound]

/-- C15 at a concrete input: the in-memory store of `sampleWorld` asked for the id `"zz"`,
which it does not hold. -/
theorem getEstimation_classification_witness :
    ("zz" : String) ≠ "" ∧
    (MemoryRepository.asEstimationRepository (some 0)).FindByID "zz" sampleWorld
      = (Outcome.ok (none, none), sampleWorld) ∧
    GetEstimationHandler.Handle ⟨MemoryRepository.asEstimationRepository (some 0)⟩
        (some { EstimationID := "" }) sampleWorld
      = (Outcome.ok (none, some (GoError.errorString "estimation ID is required")),
          sampleWorld) ∧
    (∀ err, ((none, none) : Ptr × Option GoError).2 = some err →
      GetEstimationHandler.Handle ⟨MemoryRepository.asEstimationRepository (some 0)⟩
          (some { EstimationID := "zz" }) sampleWorld
        = (Outcome.ok (none, some err), sampleWorld)) ∧
    (((none, none) : Ptr × Option GoError) = (none, none) →
      GetEstimationHandler.Handle ⟨MemoryRepository.asEstimationRepository (some 0)⟩
          (some { EstimationID := "zz" }) sampleWorld
        = (Outcome.ok (none, some ErrEstimationNotFound), sampleWorld)) ∧
    (∀ a, ((none, none) : Ptr × Option GoError) = (some a, none) →
      GetEstimationHandler.Handle ⟨MemoryRepository.asEstimationRepository (some 0)⟩
          (some { EstimationID := "zz" }) sampleWorld
        = (Outcome.ok (some { Estimation := some a }, none), sampleWorld)) ∧
    GoError.errorString "estimation ID is required" ≠ ErrEstimationNotFound :=
  ⟨by decide, rfl,
    getEstimation_classification ⟨MemoryRepository.asEstimationRepository (some 0)⟩ "zz"
      sampleWorld sampleWorld (none, none) (by decide) rfl⟩

/-- C16. SaveEstimation handler: for every store and every world, (1) with an absent
estimation `Handle` returns the empty id and the error `estimation is required`, and the
world, the store included, is unchanged; with a present estimation it calls the store's
`Save` and (2) returns the empty id and the store's error when `Save` fails, (3) returns
exactly the id `Save` returned, and no error, otherwise; so it returns an error exactly when
the estimation is absent or `Save` fails; (4) over the in-memory store and a readable
estimation the returned id is the estimation's own ID. -/
theorem saveEstimation_handler (h : SaveEstimationHandler) (a : Nat) (w w1 : World)
    (res : String × Option GoError)
    (hsave : h.estimationRepo.Save (some a) w = (Outcome.ok res, w1)) :
    (∀ w0, h.Handle (some { Estimation := none }) w0
      = (Outcome.ok ("", some (GoError.errorString "estimation is required")), w0)) ∧
    (∀ err, res.2 = some err →
      h.Handle (some { Estimation := some a }) w = (Outcome.ok ("", some err), w1)) ∧
    (res.2 = none →
      h.Handle (some { Estimation := some a }) w = (Outcome.ok (res.1, none), w1)) ∧
    (∃ out, h.Handle (some { Estimation := some a }) w = (Outcome.ok out, w1) ∧
      (out.2 ≠ none ↔ res.2 ≠ none)) ∧
    (∀ (r e : Ptr) (m : MemoryRepository) (v : Content) (w0 : World),
      cellAt w0.repositories r = some m → content w0 e = some v →
      ∃ w2, SaveEstimationHandler.Handle ⟨MemoryRepository.asEstimationRepository r⟩
          (some { Estimation := e }) w0 = (Outcome.ok (v.ID, none), w2) ∧
        MemoryRepository.Save r e w0 = (Outcome.ok (v.ID, none), w2)) := by
  refine ⟨?_, ?_, ?_, ?_, ?_⟩
  · intro w0
    rfl
  · intro err herr
    simp only [SaveEstimationHandler.Handle, go_bind, hsave, herr, go_pure]
  · intro hnone
    simp only [SaveEstimationHandler.Handle, go_bind, hsave, hnone, go_pure]
  · cases hres : res.2 with
    | some err =>
      refine ⟨("", some err), ?_, by simp⟩
      simp only [SaveEstimationHandler.Handle, go_bind, hsave, hres, go_pure]
    | none =>
      refine ⟨(res.1, none), ?_, by simp⟩
      simp only [SaveEstimationHandler.Handle, go_bind, hsave, hres, go_pure]
  · intro r e m v w0 hr he
    obtain ⟨x, rfl⟩ := content_some_ptr he
    obtain ⟨w2, _, _, hsv, _⟩ := Save_FindByID hr he
    refine ⟨w2, ?_, hsv⟩
    simp only [SaveEstimationHandler.Handle, MemoryRepository.asEstimationRepository, go_bind,
      hsv, go_pure]

/-- C16 at a concrete input: the aggregate `"e1"` of `sampleWorld` saved through the handler
into the in-memory store. -/
theorem saveEstimation_handler_witness :
    ∃ w1,
      (MemoryRepository.asEstimationRepository (some 0)).Save (some 1) sampleWorld
        = (Outcome.ok ("e1", none), w1) ∧
      SaveEstimationHandler.Handle ⟨MemoryRepository.asEstimationRepository (some 0)⟩
          (some { Estimation := none }) sampleWorld
        = (Outcome.ok ("", some (GoError.errorString "estimation is required")),
            sampleWorld) ∧
      SaveEstimationHandler.Handle ⟨MemoryRepository.asEstimationRepository (some 0)⟩
          (some { Estimation := some 1 }) sampleWorld = (Outcome.ok ("e1", none), w1) := by
  obtain ⟨w1, _, _, hsave, _⟩ :=
    @Save_FindByID sampleWorld (some 0) (some 1) ⟨[("s0", some 0)]⟩ sampleHeld rfl rfl
  have hsave2 : (MemoryRepository.asEstimationRepository (some 0)).Save (some 1) sampleWorld
      = (Outcome.ok ("e1", none), w1) := hsave
  obtain ⟨habsent, _, hok, _, _⟩ :=
    saveEstimation_handler ⟨MemoryRepository.asEstimationRepository (some 0)⟩ 1 sampleWorld w1
      ("e1", none) hsave2
  exact ⟨w1, hsave2, habsent sampleWorld, hok rfl⟩

/-- C17. Aggregate mutation is append-only and leaves identity untouched: for every readable
aggregate `e` and non-nil line items, `AddRuntimeCost(rc)` returns and leaves ID, ProjectID
and AddonCosts as they were, RuntimeCosts being the old list followed by `rc`; symmetrically
`AddAddonCost(ac)` leaves ID, ProjectID and RuntimeCosts as they were and appends `ac` to
AddonCosts; neither call changes a line item, a repository or another aggregate; and the
aggregate `NewCostEstimation(p)` creates has the generated ID, ProjectID `p`, both lists
empty and both totals 0. -/
theorem mutation_is_append_only (w : World) (e rc ac : Ptr) (c : CostEstimation)
    (rcs : List RuntimeCost) (acs : List AddonCost) (x : RuntimeCost) (y : AddonCost)
    (hc : cellAt w.estimations e = some c)
    (hr : readAll w.runtimeCosts c.RuntimeCosts = some rcs)
    (ha : readAll w.addonCosts c.AddonCosts = some acs)
    (hx : cellAt w.runtimeCosts rc = some x) (hy : cellAt w.addonCosts ac = some y) :
    (∃ w1 c1, CostEstimation.AddRuntimeCost e rc w = (Outcome.ok (), w1) ∧
      cellAt w1.estimations e = some c1 ∧
      c1.ID = c.ID ∧ c1.ProjectID = c.ProjectID ∧ c1.AddonCosts = c.AddonCosts ∧
      c1.RuntimeCosts = c.RuntimeCosts ++ [rc] ∧
      c1.RuntimeCosts.length = c.RuntimeCosts.length + 1 ∧
      w1.runtimeCosts = w.runtimeCosts ∧ w1.addonCosts = w.addonCosts ∧
      w1.repositories = w.repositories ∧
      ∀ q, q ≠ e → cellAt w1.estimations q = cellAt w.estimations q) ∧
    (∃ w1 c1, CostEstimation.AddAddonCost e ac w = (Outcome.ok (), w1) ∧
      cellAt w1.estimations e = some c1 ∧
      c1.ID = c.ID ∧ c1.ProjectID = c.ProjectID ∧ c1.RuntimeCosts = c.RuntimeCosts ∧
      c1.AddonCosts = c.AddonCosts ++ [ac] ∧
      c1.AddonCosts.length = c.AddonCosts.length + 1 ∧
      w1.runtimeCosts = w.runtimeCosts ∧ w1.addonCosts = w.addonCosts ∧
      w1.repositories = w.repositories ∧
      ∀ q, q ≠ e → cellAt w1.estimations q = cellAt w.estimations q) ∧
    (∀ (uuid p : String), ∃ n w0 c0,
      NewCostEstimation uuid p w = (Outcome.ok n, w0) ∧
      cellAt w0.estimations n = some c0 ∧ c0.ID = uuid ∧ c0.ProjectID = p ∧
      c0.RuntimeCosts = [] ∧ c0.AddonCosts = [] ∧
      c0.MinMonthlyCost = 0 ∧ c0.MaxMonthlyCost = 0) := by
  refine ⟨?_, ?_, ?_⟩
  · refine ⟨_, _, AddRuntimeCost_eq hc hr ha hx, World.cellAt_writeEstimation _ hc, rfl, rfl,
      rfl, rfl, by simp, rfl, rfl, rfl, ?_⟩
    intro q hq
    exact cellAt_setCell_ne _ _ (Ne.symm hq)
  · refine ⟨_, _, AddAddonCost_eq hc hr ha hy, World.cellAt_writeEstimation _ hc, rfl, rfl,
      rfl, rfl, by simp, rfl, rfl, rfl, ?_⟩
    intro q hq
    exact cellAt_setCell_ne _ _ (Ne.symm hq)
  · intro uuid p
    refine ⟨_, _,
      { ID := uuid, ProjectID := p, MinMonthlyCost := 0, MaxMonthlyCost := 0,
        RuntimeCosts := [], AddonCosts := [] }, rfl, ?_, rfl, rfl, rfl, rfl, rfl, rfl⟩
    simp [World.pushEstimation, cellAt]

/-- C17 at a concrete input: the caller's aggregate `"e1"` of `sampleWorld`, one more runtime
line item and one addon line item. -/
theorem mutation_is_append_only_witness :
    (∃ w1 c1, CostEstimation.AddRuntimeCost (some 1) (some 0) sampleWorld
        = (Outcome.ok (), w1) ∧
      cellAt w1.estimations (some 1) = some c1 ∧
      c1.ID = "e1" ∧ c1.ProjectID = "proj" ∧ c1.AddonCosts = [] ∧
      c1.RuntimeCosts = [some 1] ++ [some 0] ∧
      c1.RuntimeCosts.length = 1 + 1 ∧
      w1.runtimeCosts = sampleWorld.runtimeCosts ∧ w1.addonCosts = sampleWorld.addonCosts ∧
      w1.repositories = sampleWorld.repositories ∧
      ∀ q, q ≠ some 1 → cellAt w1.estimations q = cellAt sampleWorld.estimations q) ∧
    (∃ w1 c1, CostEstimation.AddAddonCost (some 1) (some 0) sampleWorld
        = (Outcome.ok (), w1) ∧
      cellAt w1.estimations (some 1) = some c1 ∧
      c1.ID = "e1" ∧ c1.ProjectID = "proj" ∧ c1.RuntimeCosts = [some 1] ∧
      c1.AddonCosts = [] ++ [some 0] ∧
      c1.AddonCosts.length = 0 + 1 ∧
      w1.runtimeCosts = sampleWorld.runtimeCosts ∧ w1.addonCosts = sampleWorld.addonCosts ∧
      w1.repositories = sampleWorld.repositories ∧
      ∀ q, q ≠ some 1 → cellAt w1.estimations q = cellAt sampleWorld.estimations q) ∧
    (∀ (uuid p : String), ∃ n w0 c0,
      NewCostEstimation uuid p sampleWorld = (Outcome.ok n, w0) ∧
      cellAt w0.estimations n = some c0 ∧ c0.ID = uuid ∧ c0.ProjectID = p ∧
      c0.RuntimeCosts = [] ∧ c0.AddonCosts = [] ∧
      c0.MinMonthlyCost = 0 ∧ c0.MaxMonthlyCost = 0) :=
  mutation_is_append_only sampleWorld (some 1) (some 0) (some 0)
    { ID := "e1", ProjectID := "proj", MinMonthlyCost := 10, MaxMonthlyCost := 20,
      RuntimeCosts := [some 1], AddonCosts := [] }
    [ { RuntimeID := "M-nano", Name := "M (nano)", MinCost := 10, MaxCost := 20 } ] []
    { RuntimeID := "XS-pico", Name := "XS (pico)", MinCost := 14.6, MaxCost := 43.8 }
    { AddonID := "redis-s", Name := "redis (s)", Cost := 0 } rfl rfl rfl rfl rfl

/-- C18. ListInstances zone defaulting: for every pricing source, `Handle` with the empty zone
id does exactly what it does with the zone id `"par"`; with a non-empty zone id it asks the
pricing source for that zone id; in both cases, when the pricing source answers a list and no
error the result holds that list, unchanged (an empty list included), with no error, and when
it answers an error the result is `nil` with that error. -/
theorem listInstances_zone_default (h : ListInstancesHandler) (zone : String) (w : World)
    (hz : zone ≠ "") :
    h.Handle (some { ZoneID := "" }) w = h.Handle (some { ZoneID := "par" }) w ∧
    (∀ instances, h.pricingRepo.ListInstances zone = (instances, none) →
      h.Handle (some { ZoneID := zone }) w
        = (Outcome.ok (some { Instances := instances }, none), w)) ∧
    (∀ instances err, h.pricingRepo.ListInstances zone = (instances, some err) →
      h.Handle (some { ZoneID := zone }) w = (Outcome.ok (none, some err), w)) ∧
    (∀ instances, h.pricingRepo.ListInstances "par" = (instances, none) →
      h.Handle (some { ZoneID := "" }) w
        = (Outcome.ok (some { Instances := instances }, none), w)) ∧
    (∀ instances err, h.pricingRepo.ListInstances "par" = (instances, some err) →
      h.Handle (some { ZoneID := "" }) w = (Outcome.ok (none, some err), w)) := by
  refine ⟨?_, ?_, ?_, ?_, ?_⟩
  · simp [ListInstancesHandler.Handle]
  · intro instances hl
    simp only [ListInstancesHandler.Handle, hz, if_false, hl, go_pure]
  · intro instances err hl
    simp only [ListInstancesHandler.Handle, hz, if_false, hl, go_pure]
  · intro instances hl
    simp only [ListInstancesHandler.Handle, if_true, hl, go_pure]
  · intro instances err hl
    simp only [ListInstancesHandler.Handle, if_true, hl, go_pure]

/-- C18 at a concrete input: the zone `"rbx"` over `samplePricing`, which answers the empty
list for every zone. -/
theorem listInstances_zone_default_witness :
    ("rbx" : String) ≠ "" ∧
    ListInstancesHandler.Handle ⟨samplePricing⟩ (some { ZoneID := "" }) sampleCaller
      = ListInstancesHandler.Handle ⟨samplePricing⟩ (some { ZoneID := "par" }) sampleCaller ∧
    ListInstancesHandler.Handle ⟨samplePricing⟩ (some { ZoneID := "rbx" }) sampleCaller
      = (Outcome.ok (some { Instances := [] }, none), sampleCaller) ∧
    ListInstancesHandler.Handle ⟨samplePricing⟩ (some { ZoneID := "" }) sampleCaller
      = (Outcome.ok (some { Instances := [] }, none), sampleCaller) := by
  obtain ⟨h1, h2, _, h4, _⟩ :=
    listInstances_zone_default ⟨samplePricing⟩ "rbx" sampleCaller (by decide)
  exact ⟨by decide, h1, h2 [] rfl, h4 [] rfl⟩

/-! ## The RPC surface -/

theorem protoToEstimation_nil (w : World) : protoToEstimation none w = (Outcome.ok none, w) :=
  rfl

/-- What the GetEstimation RPC answers on an empty estimation id. -/
theorem GetEstimation_empty (h : Handler) (msg : Option GetEstimationRequest) (w : World)
    (hmsg : GetEstimationRequest.GetEstimationId msg = "") :
    h.GetEstimation msg w
      = (Outcome.ok (none, some { code := ConnectCode.CodeInternal,
                                  err := GoError.errorString "estimation ID is required" }),
          w) := by
  have hne : GoError.errorString "estimation ID is required" ≠ ErrEstimationNotFound := by
    simp [ErrEstimationNotFound]
  simp only [Handler.GetEstimation, hmsg, go_bind, GetEstimationHandler.Handle, if_true, go_pure,
    hne, if_false]

/-- What the SaveEstimation RPC answers on an absent estimation payload. -/
theorem SaveEstimation_absent (h : Handler) (msg : Option SaveEstimationRequest) (w : World)
    (hmsg : SaveEstimationRequest.GetEstimation msg = none) :
    h.SaveEstimation msg w
      = (Outcome.ok (none, some { code := ConnectCode.CodeInternal,
                                  err := GoError.errorString "estimation is required" }),
          w) := by
  simp only [Handler.SaveEstimation, hmsg, go_bind, protoToEstimation_nil,
    SaveEstimationHandler.Handle, go_pure]

/-- What the GetEstimation RPC answers when the store reports not-found. -/
theorem GetEstimation_not_found (h : Handler) (id : String) (w w1 : World) (hid : id ≠ "")
    (hfind : h.getEstimationHandler.estimationRepo.FindByID id w
      = (Outcome.ok (none, none), w1)) :
    h.GetEstimation (some { EstimationId := id }) w
      = (Outcome.ok (none, some { code := ConnectCode.CodeNotFound,
                                  err := ErrEstimationNotFound }), w1) := by
  simp only [Handler.GetEstimation, GetEstimationRequest.GetEstimationId, go_bind,
    GetEstimationHandler.Handle, hid, if_false, hfind, go_pure, if_true]

/-- C19, as stated, fails: over the in-memory store of `sampleWorld`, the GetEstimation RPC
answers the empty estimation id with the code `Internal`, and the SaveEstimation RPC answers
an absent estimation payload with the code `Internal`; neither is `InvalidArgument`. -/
theorem rpc_error_codes_counterexample :
    Handler.GetEstimation sampleHandler (some { EstimationId := "" }) sampleWorld
      = (Outcome.ok (none, some { code := ConnectCode.CodeInternal,
                                  err := GoError.errorString "estimation ID is required" }),
          sampleWorld) ∧
    Handler.SaveEstimation sampleHandler (some { Estimation := none }) sampleWorld
      = (Outcome.ok (none, some { code := ConnectCode.CodeInternal,
                                  err := GoError.errorString "estimation is required" }),
          sampleWorld) ∧
    ConnectCode.CodeInternal ≠ ConnectCode.CodeInvalidArgument :=
  ⟨GetEstimation_empty sampleHandler _ sampleWorld rfl,
    SaveEstimation_absent sampleHandler _ sampleWorld rfl, by decide⟩

/-- C19, amended. Error codes at the RPC surface: for every store, the GetEstimation RPC
answers a non-empty id for which the store reports not-found with the code `NotFound` and the
error `ErrEstimationNotFound`; it answers an empty estimation id, in a message or as a `nil`
message, with the code `Internal`; the SaveEstimation RPC answers an absent estimation
payload with the code `Internal`, and the world is unchanged in these two cases; `NotFound`
is another code than `Internal`. -/
theorem rpc_error_codes (h : Handler) (id : String) (w w1 : World) (hid : id ≠ "")
    (hfind : h.getEstimationHandler.estimationRepo.FindByID id w
      = (Outcome.ok (none, none), w1)) :
    h.GetEstimation (some { EstimationId := id }) w
      = (Outcome.ok (none, some { code := ConnectCode.CodeNotFound,
                                  err := ErrEstimationNotFound }), w1) ∧
    (∀ w0, h.GetEstimation (some { EstimationId := "" }) w0
      = (Outcome.ok (none, some { code := ConnectCode.CodeInternal,
                                  err := GoError.errorString "estimation ID is required" }),
          w0)) ∧
    (∀ w0, h.GetEstimation none w0
      = (Outcome.ok (none, some { code := ConnectCode.CodeInternal,
                                  err := GoError.errorString "estimation ID is required" }),
          w0)) ∧
    (∀ w0, h.SaveEstimation (some { Estimation := none }) w0
      = (Outcome.ok (none, some { code := ConnectCode.CodeInternal,
                                  err := GoError.errorString "estimation is required" }),
          w0)) ∧
    ConnectCode.CodeNotFound ≠ ConnectCode.CodeInternal :=
  ⟨GetEstimation_not_found h id w w1 hid hfind,
    fun w0 => GetEstimation_empty h _ w0 rfl,
    fun w0 => GetEstimation_empty h _ w0 rfl,
    fun w0 => SaveEstimation_absent h _ w0 rfl, by decide⟩

/-- C19, amended, at a concrete input: the id `"zz"`, which the store of `sampleWorld` does
not hold. -/
theorem rpc_error_codes_witness :
    ("zz" : String) ≠ "" ∧
    sampleHandler.getEstimationHandler.estimationRepo.FindByID "zz" sampleWorld
      = (Outcome.ok (none, none), sampleWorld) ∧
    Handler.GetEstimation sampleHandler (some { EstimationId := "zz" }) sampleWorld
      = (Outcome.ok (none, some { code := ConnectCode.CodeNotFound,
                                  err := ErrEstimationNotFound }), sampleWorld) :=
  ⟨by decide, rfl, (rpc_error_codes sampleHandler "zz" sampleWorld sampleWorld (by decide)
    rfl).1⟩

/-! ## Saving and fetching back through the handlers -/

/-- The first loop of `protoToEstimation` appends to a readable aggregate the line items the
message carries, in order. -/
theorem protoToEstimation_runtimeLoop_content (e : Ptr) :
    ∀ (items : List (Option ProtoRuntimeCost)) (w : World) (v : Content),
      content w e = some v →
      ∃ w1, protoToEstimation.runtimeLoop e items w = (Outcome.ok (), w1) ∧
        content w1 e = some
          { v with RuntimeCosts := v.RuntimeCosts ++ items.map ProtoRuntimeCost.getters } ∧
        w1.repositories = w.repositories := by
  intro items
  induction items with
  | nil =>
    intro w v hv
    exact ⟨w, rfl, by simpa using hv, rfl⟩
  | cons rc rest ih =>
    intro w v hv
    obtain ⟨c, rcs, acs, hc, hr, ha, rfl⟩ := content_eq_some_iff.mp hv
    have hc1 : cellAt (w.pushRuntimeCost (ProtoRuntimeCost.getters rc)).estimations e = some c :=
      hc
    have hv1 : content ((w.pushRuntimeCost (ProtoRuntimeCost.getters rc)).writeEstimation e
        { c with RuntimeCosts := c.RuntimeCosts ++ [some w.runtimeCosts.length] }) e
        = some { ID := c.ID, ProjectID := c.ProjectID, MinMonthlyCost := c.MinMonthlyCost,
                 MaxMonthlyCost := c.MaxMonthlyCost,
                 RuntimeCosts := rcs ++ [ProtoRuntimeCost.getters rc], AddonCosts := acs } :=
      content_writeEstimation hc1
        (readAll_append_of (readAll_append_cells [ProtoRuntimeCost.getters rc] hr)
          (readAll_cons_of (cellAt_pushRuntimeCost w _) rfl)) ha
    obtain ⟨w1, hloop, hcontent, hrepo⟩ := ih _ _ hv1
    refine ⟨w1, ?_, ?_, ?_⟩
    · simp only [protoToEstimation.runtimeLoop, go_bind, allocRuntimeCost, modifyEstimation,
        hc1, hloop]
    · rw [hcontent]
      simp
    · rw [hrepo]
      rfl

/-- The second loop of `protoToEstimation` appends the addon line items of the message. -/
theorem protoToEstimation_addonLoop_content (e : Ptr) :
    ∀ (items : List (Option ProtoAddonCost)) (w : World) (v : Content),
      content w e = some v →
      ∃ w1, protoToEstimation.addonLoop e items w = (Outcome.ok (), w1) ∧
        content w1 e = some
          { v with AddonCosts := v.AddonCosts ++ items.map ProtoAddonCost.getters } ∧
        w1.repositories = w.repositories := by
  intro items
  induction items with
  | nil =>
    intro w v hv
    exact ⟨w, rfl, by simpa using hv, rfl⟩
  | cons ac rest ih =>
    intro w v hv
    obtain ⟨c, rcs, acs, hc, hr, ha, rfl⟩ := content_eq_some_iff.mp hv
    have hc1 : cellAt (w.pushAddonCost (ProtoAddonCost.getters ac)).estimations e = some c := hc
    have hv1 : content ((w.pushAddonCost (ProtoAddonCost.getters ac)).writeEstimation e
        { c with AddonCosts := c.AddonCosts ++ [some w.addonCosts.length] }) e
        = some { ID := c.ID, ProjectID := c.ProjectID, MinMonthlyCost := c.MinMonthlyCost,
                 MaxMonthlyCost := c.MaxMonthlyCost,
                 RuntimeCosts := rcs, AddonCosts := acs ++ [ProtoAddonCost.getters ac] } :=
      content_writeEstimation hc1 hr
        (readAll_append_of (readAll_append_cells [ProtoAddonCost.getters ac] ha)
          (readAll_cons_of (cellAt_pushAddonCost w _) rfl))
    obtain ⟨w1, hloop, hcontent, hrepo⟩ := ih _ _ hv1
    refine ⟨w1, ?_, ?_, ?_⟩
    · simp only [protoToEstimation.addonLoop, go_bind, allocAddonCost, modifyEstimation,
        hc1, hloop]
    · rw [hcontent]
      simp
    · rw [hrepo]
      rfl

/-- The aggregate `protoToEstimation` rebuilds from a message is a new, readable aggregate
with the content of the message; no repository is touched. -/
theorem protoToEstimation_content (msg : ProtoCostEstimation) (w : World) :
    ∃ w1, protoToEstimation (some msg) w = (Outcome.ok (some w.estimations.length), w1) ∧
      content w1 (some w.estimations.length) = some (protoContent msg) ∧
      w1.repositories = w.repositories := by
  have hv0 : content (w.pushEstimation
      { ID := msg.Id, ProjectID := msg.ProjectId, MinMonthlyCost := msg.MinMonthlyCost,
        MaxMonthlyCost := msg.MaxMonthlyCost, RuntimeCosts := [], AddonCosts := [] })
      (some w.estimations.length)
      = some { ID := msg.Id, ProjectID := msg.ProjectId, MinMonthlyCost := msg.MinMonthlyCost,
               MaxMonthlyCost := msg.MaxMonthlyCost, RuntimeCosts := [], AddonCosts := [] } := by
    apply content_eq_some_iff.mpr
    refine ⟨{ ID := msg.Id, ProjectID := msg.ProjectId, MinMonthlyCost := msg.MinMonthlyCost,
              MaxMonthlyCost := msg.MaxMonthlyCost, RuntimeCosts := [], AddonCosts := [] },
      [], [], ?_, rfl, rfl, rfl⟩
    simp [World.pushEstimation, cellAt]
  obtain ⟨w1, hloop1, hv1, hrepo1⟩ :=
    protoToEstimation_runtimeLoop_content (some w.estimations.length) msg.RuntimeCosts _ _ hv0
  obtain ⟨w2, hloop2, hv2, hrepo2⟩ :=
    protoToEstimation_addonLoop_content (some w.estimations.length) msg.AddonCosts _ _ hv1
  refine ⟨w2, ?_, ?_, ?_⟩
  · simp only [protoToEstimation, go_bind, allocEstimation, hloop1, hloop2, go_pure]
  · rw [hv2]
    simp [protoContent]
  · rw [hrepo2, hrepo1]
    rfl

/-- What the save handler does over the in-memory store: it returns what `Save` returns. -/
theorem SaveEstimationHandler_Handle_memory {w w1 : World} {r : Ptr} {a : Nat} {id : String}
    (hsave : MemoryRepository.Save r (some a) w = (Outcome.ok (id, none), w1)) :
    SaveEstimationHandler.Handle ⟨MemoryRepository.asEstimationRepository r⟩
        (some { Estimation := some a }) w = (Outcome.ok (id, none), w1) := by
  simp only [SaveEstimationHandler.Handle, MemoryRepository.asEstimationRepository, go_bind,
    hsave, go_pure]

/-- What the get handler does over the in-memory store on a non-empty id that `FindByID`
finds. -/
theorem GetEstimationHandler_Handle_memory {w w1 : World} {r : Ptr} {a : Nat} {id : String}
    (hid : id ≠ "")
    (hfind : MemoryRepository.FindByID r id w = (Outcome.ok (some a, none), w1)) :
    GetEstimationHandler.Handle ⟨MemoryRepository.asEstimationRepository r⟩
        (some { EstimationID := id }) w
      = (Outcome.ok (some { Estimation := some a }, none), w1) := by
  simp only [GetEstimationHandler.Handle, MemoryRepository.asEstimationRepository, hid,
    if_false, go_bind, hfind, go_pure]

/-- The get handler rejects the empty id in every world, over every store. -/
theorem GetEstimationHandler_Handle_empty (h : GetEstimationHandler) (w : World) :
    h.Handle (some { EstimationID := "" }) w
      = (Outcome.ok (none, some (GoError.errorString "estimation ID is required")), w) := by
  simp [GetEstimationHandler.Handle, go_pure]

/-- Save through the handler, then get through the handler, over the in-memory store. -/
theorem save_then_get {w : World} {r e : Ptr} {m : MemoryRepository} {v : Content}
    (hr : cellAt w.repositories r = some m) (he : content w e = some v) (hid : v.ID ≠ "") :
    ∃ w1 p w2,
      SaveEstimationHandler.Handle ⟨MemoryRepository.asEstimationRepository r⟩
          (some { Estimation := e }) w = (Outcome.ok (v.ID, none), w1) ∧
      GetEstimationHandler.Handle ⟨MemoryRepository.asEstimationRepository r⟩
          (some { EstimationID := v.ID }) w1
        = (Outcome.ok (some { Estimation := p }, none), w2) ∧
      p ≠ none ∧ content w2 p = some v := by
  obtain ⟨w1, m1, stored, hsave, _, _, _, _, _, p, w2, hfind, hp, hcontent, _, _⟩ :=
    Save_FindByID hr he
  obtain ⟨a, rfl⟩ := content_some_ptr he
  subst hp
  exact ⟨w1, _, w2, SaveEstimationHandler_Handle_memory hsave,
    GetEstimationHandler_Handle_memory hid hfind, Option.some_ne_none _, hcontent⟩

/-- C21, as stated, fails: the estimation `protoToEstimation` rebuilds from the wire message
`sampleUnidentified`, whose id is the empty string, is non-nil and readable; over the
in-memory store of `sampleWorld` the save handler returns the id `""` without error, and the
get handler asked for that id returns an error and no aggregate. -/
theorem saved_estimation_fetched_back_counterexample :
    ∃ e w0 w1,
      protoToEstimation (some sampleUnidentified) sampleWorld = (Outcome.ok e, w0) ∧
      e ≠ none ∧ content w0 e = some (protoContent sampleUnidentified) ∧
      SaveEstimationHandler.Handle ⟨MemoryRepository.asEstimationRepository (some 0)⟩
          (some { Estimation := e }) w0 = (Outcome.ok ("", none), w1) ∧
      GetEstimationHandler.Handle ⟨MemoryRepository.asEstimationRepository (some 0)⟩
          (some { EstimationID := "" }) w1
        = (Outcome.ok (none, some (GoError.errorString "estimation ID is required")), w1) := by
  obtain ⟨w0, hproto, hcontent, hrepo⟩ := protoToEstimation_content sampleUnidentified sampleWorld
  have hr : cellAt w0.repositories (some 0) = some { estimations := [("s0", some 0)] } := by
    rw [hrepo]
    rfl
  obtain ⟨w1, _, _, hsave, _⟩ := Save_FindByID hr hcontent
  exact ⟨_, w0, w1, hproto, Option.some_ne_none _, hcontent,
    SaveEstimationHandler_Handle_memory hsave, GetEstimationHandler_Handle_empty _ w1⟩

/-- C21, amended. Every saved estimation with a non-empty ID can be fetched back through the
handlers: for every store state and every non-nil estimation `e` whose line items are non-nil
(its content `v` can be read) and whose ID is not the empty string, the save handler over the
in-memory store returns `e.ID` without error, and the get handler asked for that id over the
same store then returns no error and a non-nil aggregate whose content is the content of `e`.
The same holds for the estimation `protoToEstimation` rebuilds from any wire message whose id
is not empty: it is fetched back with the content of the message. -/
theorem saved_estimation_fetched_back (w : World) (r e : Ptr) (m : MemoryRepository)
    (v : Content) (hr : cellAt w.repositories r = some m) (he : content w e = some v)
    (hid : v.ID ≠ "") :
    (∃ w1 p w2,
      SaveEstimationHandler.Handle ⟨MemoryRepository.asEstimationRepository r⟩
          (some { Estimation := e }) w = (Outcome.ok (v.ID, none), w1) ∧
      GetEstimationHandler.Handle ⟨MemoryRepository.asEstimationRepository r⟩
          (some { EstimationID := v.ID }) w1
        = (Outcome.ok (some { Estimation := p }, none), w2) ∧
      p ≠ none ∧ content w2 p = some v) ∧
    (∀ msg : ProtoCostEstimation, msg.Id ≠ "" →
      ∃ e0 w0 w1 p w2,
        protoToEstimation (some msg) w = (Outcome.ok e0, w0) ∧
        SaveEstimationHandler.Handle ⟨MemoryRepository.asEstimationRepository r⟩
            (some { Estimation := e0 }) w0 = (Outcome.ok (msg.Id, none), w1) ∧
        GetEstimationHandler.Handle ⟨MemoryRepository.asEstimationRepository r⟩
            (some { EstimationID := msg.Id }) w1
          = (Outcome.ok (some { Estimation := p }, none), w2) ∧
        p ≠ none ∧ content w2 p = some (protoContent msg)) := by
  refine ⟨save_then_get hr he hid, ?_⟩
  intro msg hmsg
  obtain ⟨w0, hproto, hcontent, hrepo⟩ := protoToEstimation_content msg w
  have hr0 : cellAt w0.repositories r = some m := by
    rw [hrepo]
    exact hr
  obtain ⟨w1, p, w2, hsave, hget, hp, hv⟩ :=
    @save_then_get w0 r _ m (protoContent msg) hr0 hcontent hmsg
  exact ⟨_, w0, w1, p, w2, hproto, hsave, hget, hp, hv⟩

/-- C21, amended, at a concrete input: the caller's aggregate `"e1"` of `sampleWorld` saved
into the store of `sampleWorld` and fetched back, and the wire message `sampleIdentified`,
whose id is `"e7"`. -/
theorem saved_estimation_fetched_back_witness :
    cellAt sampleWorld.repositories (some 0) = some { estimations := [("s0", some 0)] } ∧
    content sampleWorld (some 1) = some sampleHeld ∧ sampleHeld.ID ≠ "" ∧
    sampleIdentified.Id ≠ "" ∧
    (∃ w1 p w2,
      SaveEstimationHandler.Handle ⟨MemoryRepository.asEstimationRepository (some 0)⟩
          (some { Estimation := some 1 }) sampleWorld = (Outcome.ok ("e1", none), w1) ∧
      GetEstimationHandler.Handle ⟨MemoryRepository.asEstimationRepository (some 0)⟩
          (some { EstimationID := "e1" }) w1
        = (Outcome.ok (some { Estimation := p }, none), w2) ∧
      p ≠ none ∧ content w2 p = some sampleHeld) ∧
    (∃ e0 w0 w1 p w2,
      protoToEstimation (some sampleIdentified) sampleWorld = (Outcome.ok e0, w0) ∧
      SaveEstimationHandler.Handle ⟨MemoryRepository.asEstimationRepository (some 0)⟩
          (some { Estimation := e0 }) w0 = (Outcome.ok ("e7", none), w1) ∧
      GetEstimationHandler.Handle ⟨MemoryRepository.asEstimationRepository (some 0)⟩
          (some { EstimationID := "e7" }) w1
        = (Outcome.ok (some { Estimation := p }, none), w2) ∧
      p ≠ none ∧ content w2 p = some (protoContent sampleIdentified)) := by
  have h := saved_estimation_fetched_back sampleWorld (some 0) (some 1)
    { estimations := [("s0", some 0)] } sampleHeld rfl rfl (by decide)
  exact ⟨rfl, rfl, by decide, by decide, h.1, h.2 sampleIdentified (by decide)⟩

/-! ## The store: each operation touches only its own key -/

/-- The result of `FindByID` on a readable store is read off the map. -/
theorem findByIDResult_eq {w : World} {r : Ptr} {m : MemoryRepository} (id : String)
    (hr : cellAt w.repositories r = some m)
    (hwf : ∀ kv ∈ m.estimations, (content w kv.2).isSome) :
    findByIDResult r id w
      = Outcome.ok ((GoMap.lookup m.estimations id).bind (content w), none) := by
  cases hid : GoMap.lookup m.estimations id with
  | none =>
    simp only [findByIDResult, FindByID_absent hr hid, Option.bind_none]
    rfl
  | some stored =>
    obtain ⟨v, hv⟩ := Option.isSome_iff_exists.mp (hwf _ (GoMap.mem_of_lookup hid))
    have hv2 : content w stored = some v := hv
    obtain ⟨c, rcs, acs, _, _, _, hfind, hcontent⟩ := FindByID_content hr hid hv2
    simp only [findByIDResult, hfind, hcontent]
    show Outcome.ok (some v, none) = Outcome.ok (content w stored, none)
    rw [hv2]

/-- The result of `FindByProjectID` on a readable store is read off the map. -/
theorem findByProjectIDResult_eq {w : World} {r : Ptr} {m : MemoryRepository} (pid : String)
    (hr : cellAt w.repositories r = some m)
    (hwf : ∀ kv ∈ m.estimations, (content w kv.2).isSome) :
    findByProjectIDResult r pid w
      = Outcome.ok ((m.estimations.map (fun kv => content w kv.2)).filter
          (fun oc => decide (oc.map Content.ProjectID = some pid)), none) := by
  obtain ⟨news, w1, hloop, hmap, _, _, _⟩ :=
    FindByProjectID_loop_eq pid m.estimations w [] hwf
  have hfind : MemoryRepository.FindByProjectID r pid w = (Outcome.ok (news, none), w1) := by
    simp only [MemoryRepository.FindByProjectID, go_bind, derefRepository, hr, hloop]
    simp
  simp only [findByProjectIDResult, hfind, hmap]

/-- Two worlds whose store holds the same map and in which every stored aggregate reads the
same give the same result to every find. -/
theorem findResults_congr {w w1 : World} {r : Ptr} {m : MemoryRepository}
    (hr : cellAt w.repositories r = some m) (hr1 : cellAt w1.repositories r = some m)
    (hwf : ∀ kv ∈ m.estimations, (content w kv.2).isSome)
    (hkeep : ∀ q x, content w q = some x → content w1 q = some x) :
    (∀ j, findByIDResult r j w1 = findByIDResult r j w) ∧
    (∀ pid, findByProjectIDResult r pid w1 = findByProjectIDResult r pid w) := by
  have hsame : ∀ kv ∈ m.estimations, content w1 kv.2 = content w kv.2 := by
    intro kv hkv
    obtain ⟨x, hx⟩ := Option.isSome_iff_exists.mp (hwf kv hkv)
    rw [hkeep _ _ hx, hx]
  have hwf1 : ∀ kv ∈ m.estimations, (content w1 kv.2).isSome := by
    intro kv hkv
    rw [hsame kv hkv]
    exact hwf kv hkv
  refine ⟨?_, ?_⟩
  · intro j
    rw [findByIDResult_eq j hr hwf, findByIDResult_eq j hr1 hwf1]
    cases hj : GoMap.lookup m.estimations j with
    | none => rfl
    | some stored =>
      have h := hsame _ (GoMap.mem_of_lookup hj)
      show Outcome.ok (content w1 stored, none) = Outcome.ok (content w stored, none)
      rw [h]
  · intro pid
    rw [findByProjectIDResult_eq pid hr hwf, findByProjectIDResult_eq pid hr1 hwf1,
      List.map_congr_left hsame]

/-- C22. Store operations touch only their own key: for every reachable store state (every
stored aggregate can be read), every `FindByID` returns, without error; for every non-nil
estimation `e` with readable line items and every id `j` other than `e.ID`, `FindByID(j)`
returns the same result after `Save(e)` as before it; for every id `i` and every `j` other
than `i`, `FindByID(j)` returns the same result after `Delete(i)` as before it; and after a
`FindByID` or a `FindByProjectID` every `FindByID` and every `FindByProjectID` returns the
same result as before it.  Results are compared by the content of the aggregates returned. -/
theorem store_operations_touch_own_key (w : World) (r : Ptr) (h : StoreReadable w r) :
    (∀ j, ∃ oc, findByIDResult r j w = Outcome.ok (oc, none)) ∧
    (∀ e v j, content w e = some v → j ≠ v.ID →
      ∃ w1, MemoryRepository.Save r e w = (Outcome.ok (v.ID, none), w1) ∧
        findByIDResult r j w1 = findByIDResult r j w) ∧
    (∀ i j, j ≠ i →
      ∃ w1, MemoryRepository.Delete r i w = (Outcome.ok none, w1) ∧
        findByIDResult r j w1 = findByIDResult r j w) ∧
    (∀ k, ∃ p w1, MemoryRepository.FindByID r k w = (Outcome.ok (p, none), w1) ∧
      (∀ j, findByIDResult r j w1 = findByIDResult r j w) ∧
      (∀ pid, findByProjectIDResult r pid w1 = findByProjectIDResult r pid w)) ∧
    (∀ k, ∃ ps w1, MemoryRepository.FindByProjectID r k w = (Outcome.ok (ps, none), w1) ∧
      (∀ j, findByIDResult r j w1 = findByIDResult r j w) ∧
      (∀ pid, findByProjectIDResult r pid w1 = findByProjectIDResult r pid w)) := by
  obtain ⟨m, hr, hwf⟩ := h
  refine ⟨?_, ?_, ?_, ?_, ?_⟩
  · intro j
    exact ⟨_, findByIDResult_eq j hr hwf⟩
  · intro e v j he hne
    obtain ⟨w1, m1, stored, hsave, hm1, hmap, _, hstored, hkeep, _⟩ := Save_FindByID hr he
    have hwf1 : ∀ kv ∈ m1.estimations, (content w1 kv.2).isSome := by
      intro kv hkv
      rw [hmap] at hkv
      rcases GoMap.mem_insert hkv with rfl | hmem
      · rw [hstored]; rfl
      · obtain ⟨x, hx⟩ := Option.isSome_iff_exists.mp (hwf kv hmem)
        rw [hkeep _ _ hx]; rfl
    refine ⟨w1, hsave, ?_⟩
    rw [findByIDResult_eq j hm1 hwf1, findByIDResult_eq j hr hwf, hmap,
      GoMap.lookup_insert_ne m.estimations stored hne]
    cases hj : GoMap.lookup m.estimations j with
    | none => rfl
    | some s =>
      obtain ⟨x, hx⟩ := Option.isSome_iff_exists.mp (hwf _ (GoMap.mem_of_lookup hj))
      have hx2 : content w s = some x := hx
      show Outcome.ok (content w1 s, none) = Outcome.ok (content w s, none)
      rw [hkeep _ _ hx2, hx2]
  · intro i j hne
    have hm1 : cellAt (w.writeRepository r
        { estimations := GoMap.delete m.estimations i }).repositories r
        = some { estimations := GoMap.delete m.estimations i } :=
      World.cellAt_writeRepository _ hr
    have hwf1 : ∀ kv ∈ GoMap.delete m.estimations i,
        (content (w.writeRepository r { estimations := GoMap.delete m.estimations i })
          kv.2).isSome :=
      fun kv hkv => hwf kv (GoMap.mem_delete hkv)
    refine ⟨_, Delete_eq i hr, ?_⟩
    rw [findByIDResult_eq j hm1 hwf1, findByIDResult_eq j hr hwf,
      GoMap.lookup_delete_ne m.estimations hne]
    rfl
  · intro k
    cases hk : GoMap.lookup m.estimations k with
    | none =>
      exact ⟨none, w, FindByID_absent hr hk, fun _ => rfl, fun _ => rfl⟩
    | some stored =>
      obtain ⟨v, hv⟩ := Option.isSome_iff_exists.mp (hwf _ (GoMap.mem_of_lookup hk))
      have hv2 : content w stored = some v := hv
      obtain ⟨c, rcs, acs, _, _, _, hfind, _⟩ := FindByID_content hr hk hv2
      have hr1 : cellAt (w.withCopy c rcs acs).repositories r = some m := hr
      exact ⟨_, _, hfind,
        findResults_congr hr hr1 hwf (fun q x hq => content_withCopy c rcs acs hq)⟩
  · intro k
    obtain ⟨news, w1, hloop, _, hkeep, hrepo, _⟩ :=
      FindByProjectID_loop_eq k m.estimations w [] hwf
    have hr1 : cellAt w1.repositories r = some m := by
      rw [hrepo]
      exact hr
    refine ⟨news, w1, ?_, findResults_congr hr hr1 hwf hkeep⟩
    simp only [MemoryRepository.FindByProjectID, go_bind, derefRepository, hr, hloop]
    simp

/-- C22 at a concrete input: in the store of `sampleWorld`, which holds `"s0"`, the result of
`FindByID("s0")` is the stored aggregate before and after `Save` of the caller's aggregate
`"e1"`, after `Delete("e1")`, and after a `FindByID("s0")`. -/
theorem store_operations_touch_own_key_witness :
    StoreReadable sampleWorld (some 0) ∧
    content sampleWorld (some 1) = some sampleHeld ∧ "s0" ≠ sampleHeld.ID ∧
    findByIDResult (some 0) "s0" sampleWorld = Outcome.ok (some sampleStored, none) ∧
    (∃ w1, MemoryRepository.Save (some 0) (some 1) sampleWorld
        = (Outcome.ok ("e1", none), w1) ∧
      findByIDResult (some 0) "s0" w1 = Outcome.ok (some sampleStored, none)) ∧
    (∃ w1, MemoryRepository.Delete (some 0) "e1" sampleWorld = (Outcome.ok none, w1) ∧
      findByIDResult (some 0) "s0" w1 = Outcome.ok (some sampleStored, none)) ∧
    (∃ p w1, MemoryRepository.FindByID (some 0) "s0" sampleWorld
        = (Outcome.ok (p, none), w1) ∧
      findByIDResult (some 0) "s0" w1 = Outcome.ok (some sampleStored, none)) := by
  have hwf : ∀ kv ∈ [("s0", (some 0 : Ptr))], (content sampleWorld kv.2).isSome := by
    intro kv hkv
    rw [List.mem_singleton] at hkv
    subst hkv
    rfl
  have hread : StoreReadable sampleWorld (some 0) := ⟨⟨[("s0", some 0)]⟩, rfl, hwf⟩
  have hbefore : findByIDResult (some 0) "s0" sampleWorld
      = Outcome.ok (some sampleStored, none) := by
    rw [@findByIDResult_eq sampleWorld (some 0) ⟨[("s0", some 0)]⟩ "s0" rfl hwf]
    rfl
  obtain ⟨_, hsave, hdelete, hfind, _⟩ :=
    store_operations_touch_own_key sampleWorld (some 0) hread
  obtain ⟨w1, hs1, hs2⟩ := hsave (some 1) sampleHeld "s0" rfl (by decide)
  obtain ⟨w2, hd1, hd2⟩ := hdelete "e1" "s0" (by decide)
  obtain ⟨p, w3, hf1, hf2, _⟩ := hfind "s0"
  exact ⟨hread, rfl, by decide, hbefore, ⟨w1, hs1, by rw [hs2, hbefore]⟩,
    ⟨w2, hd1, by rw [hd2, hbefore]⟩, ⟨p, w3, hf1, by rw [hf2, hbefore]⟩⟩

end CleverPricing
